import Mathlib

/-!
Actor, stats and progression model of the game server

A shallow embedding of `src/actors/Stats.hpp` and `src/actors/Actor.cpp`.

Conventions of the embedding

* `int32_t` and `int64_t` values are integers; every arithmetic operation of the
  source is followed by the two's-complement reduction `wrap32` / `wrap64`, so
  signed overflow shows up as wraparound.
* `float` values are finite IEEE-754 binary32 numbers.  Every finite binary32
  number is an integer multiple of `2^-149`; a value is stored as that integer
  (`Float32`).  Each operation computes the exact result as a fraction and rounds
  it to the nearest binary32 number, ties to even (`f32Round`).  Infinities and
  NaN are not represented: operands here come from `int32_t` values and small
  constants, far below the binary32 overflow threshold.
* Console output (`std::cout`) and the unused event-bus pointer are left out.
-/

namespace Mmorpg

/-! ## Machine integers -/

/-- Two's-complement reduction to the `int32_t` range. -/
def wrap32 (x : Int) : Int := (x + 2147483648) % 4294967296 - 2147483648

/-- Two's-complement reduction to the `int64_t` range. -/
def wrap64 (x : Int) : Int :=
  (x + 9223372036854775808) % 18446744073709551616 - 9223372036854775808

/-- The value is representable as `int32_t`. -/
def InI32 (x : Int) : Prop := -2147483648 ≤ x ∧ x ≤ 2147483647

instance (x : Int) : Decidable (InI32 x) := by unfold InI32; infer_instance

/-- The `int32_t` sum. -/
def add32 (a b : Int) : Int := wrap32 (a + b)

/-- The `int32_t` difference. -/
def sub32 (a b : Int) : Int := wrap32 (a - b)

/-- The `int32_t` product. -/
def mul32 (a b : Int) : Int := wrap32 (a * b)

/-- The `int32_t` quotient: C++ division truncates toward zero. -/
def div32 (a b : Int) : Int := wrap32 (Int.tdiv a b)

/-! ## Binary32 arithmetic -/

/-- A finite binary32 value `v`, stored as the integer `v * 2^149`. -/
abbrev Float32 := Int

/-- The stored form of `1.0f`. -/
def f32One : Nat := 2 ^ 149

/-- Nearest integer to `a / b`, ties to the even neighbour. -/
def rneDiv (a b : Nat) : Nat :=
  let q := a / b
  let r := a % b
  if 2 * r < b then q
  else if b < 2 * r then q + 1
  else if q % 2 = 0 then q else q + 1

/-- Binary logarithm by repeated halving, at most `fuel` halvings. -/
def log2Fuel : Nat → Nat → Nat
  | 0, _ => 0
  | fuel + 1, n => if n < 2 then 0 else log2Fuel fuel (n / 2) + 1

/-- Floor of the binary logarithm (0 for 0). -/
def ilog2 (n : Nat) : Nat := log2Fuel n n

/-- Nearest binary32 magnitude to the fraction `a / b` (in units of `2^-149`):
below `2^24` units every integer is representable; from there on the spacing
is `2^k` where the quotient lies in `[2^(k+23), 2^(k+24))`. -/
def roundMag (a b : Nat) : Nat :=
  let q := a / b
  if q < 2 ^ 24 then rneDiv a b
  else
    let k := ilog2 q - 23
    rneDiv a (b * 2 ^ k) * 2 ^ k

/-- Round the signed fraction `num / den` (in units of `2^-149`) to binary32. -/
def f32Round (num : Int) (den : Nat) : Float32 :=
  if num < 0 then -((roundMag num.natAbs den : Nat) : Int)
  else ((roundMag num.natAbs den : Nat) : Int)

/-- The binary32 literal nearest to the decimal fraction `num / den`. -/
def f32Lit (num : Int) (den : Nat) : Float32 := f32Round (num * (f32One : Int)) den

/-- Conversion `static_cast<float>(n)` of an integer. -/
def i32ToF32 (n : Int) : Float32 := f32Round (n * (f32One : Int)) 1

/-- Binary32 sum. -/
def f32Add (x y : Float32) : Float32 := f32Round (x + y) 1

/-- Binary32 product. -/
def f32Mul (x y : Float32) : Float32 := f32Round (x * y) f32One

/-- Binary32 quotient (the divisor is non-zero wherever the source divides). -/
def f32Div (x y : Float32) : Float32 :=
  if y < 0 then f32Round (-(x * (f32One : Int))) y.natAbs
  else f32Round (x * (f32One : Int)) y.natAbs

/-- The call `std::min(x, y)`, which returns `y` when `y < x` and `x` otherwise. -/
def f32Min (x y : Float32) : Float32 := if y < x then y else x

/-- Conversion `static_cast<int32_t>(x)`: truncation toward zero.  A truncated value
outside the `int32_t` range has no defined result in C++; it is given the value
`INT32_MIN` that the x86-64 conversion instruction produces. -/
def f32ToI32 (x : Float32) : Int :=
  let t := Int.tdiv x (f32One : Int)
  if -2147483648 ≤ t ∧ t ≤ 2147483647 then t else -2147483648

/-- The rational number a binary32 value stands for. -/
def f32ToRat (x : Float32) : ℚ := (x : ℚ) / (2 : ℚ) ^ 149

/-! ## Stats (`Stats.hpp`) -/

/-- Primary stats; every field defaults to 10. -/
structure PrimaryStats where
  strength : Int := 10
  agility : Int := 10
  intelligence : Int := 10
  vitality : Int := 10
  wisdom : Int := 10
  luck : Int := 10
  deriving DecidableEq, Repr

/-- Derived stats with the defaults of the C++ member initialisers. -/
structure DerivedStats where
  maxHp : Int := 100
  maxMp : Int := 50
  physicalAttack : Int := 10
  magicalAttack : Int := 10
  physicalDefense : Int := 5
  magicalDefense : Int := 5
  criticalChance : Float32 := f32Lit 5 100
  criticalMultiplier : Float32 := f32Lit 15 10
  dodgeChance : Float32 := f32Lit 5 100
  attackSpeed : Float32 := f32Lit 1 1
  moveSpeed : Float32 := f32Lit 5 1
  deriving DecidableEq, Repr

/-- Runtime stats. -/
structure RuntimeStats where
  currentHp : Int := 100
  currentMp : Int := 50
  deriving DecidableEq, Repr

namespace StatCalculator

/-- The function `StatCalculator::calculate`. -/
def calculate (primary : PrimaryStats) (level : Int) : DerivedStats :=
  { maxHp := add32 (add32 100 (mul32 primary.vitality 10)) (mul32 level 5)
    maxMp := add32 (add32 (add32 50 (mul32 primary.intelligence 5)) (mul32 primary.wisdom 3))
      (mul32 level 2)
    physicalAttack := add32 (mul32 primary.strength 2) (div32 level 2)
    magicalAttack := add32 (mul32 primary.intelligence 2) (div32 level 2)
    physicalDefense := add32 primary.vitality (div32 primary.strength 2)
    magicalDefense := add32 primary.wisdom (div32 primary.intelligence 2)
    criticalChance :=
      f32Min
        (f32Add (f32Add (f32Lit 5 100) (f32Mul (i32ToF32 primary.luck) (f32Lit 5 1000)))
          (f32Mul (i32ToF32 primary.agility) (f32Lit 2 1000)))
        (f32Lit 75 100)
    criticalMultiplier := f32Add (f32Lit 15 10) (f32Mul (i32ToF32 primary.luck) (f32Lit 1 100))
    dodgeChance :=
      f32Min (f32Add (f32Lit 5 100) (f32Mul (i32ToF32 primary.agility) (f32Lit 3 1000)))
        (f32Lit 50 100)
    attackSpeed := f32Add (f32Lit 1 1) (f32Mul (i32ToF32 primary.agility) (f32Lit 1 100))
    moveSpeed := f32Add (f32Lit 5 1) (f32Mul (i32ToF32 primary.agility) (f32Lit 5 100)) }

/-- The function `StatCalculator::experienceForLevel`: the product `100 * level * level`
is formed in `int32_t` and only then widened to `int64_t`. -/
def experienceForLevel (level : Int) : Int := mul32 (mul32 100 level) level

end StatCalculator

/-! ## Actor (`Actor.hpp`, `Actor.cpp`) -/

/-- The data members of `Actor`. -/
structure Actor where
  id : Nat
  name : String
  level : Int := 1
  experience : Int := 0
  primaryStats : PrimaryStats := {}
  derivedStats : DerivedStats := {}
  runtimeStats : RuntimeStats := {}
  deriving DecidableEq, Repr

namespace Actor

/-- The proportional rescale `static_cast<int32_t>((float(cur) / oldMax) * newMax)`. -/
def rescale (cur oldMax newMax : Int) : Int :=
  f32ToI32 (f32Mul (f32Div (i32ToF32 cur) (i32ToF32 oldMax)) (i32ToF32 newMax))

/-- The method `Actor::recalculateDerivedStats`. -/
def recalculateDerivedStats (a : Actor) : Actor :=
  let oldMaxHp := a.derivedStats.maxHp
  let oldMaxMp := a.derivedStats.maxMp
  let derived := StatCalculator.calculate a.primaryStats a.level
  let hp := if 0 < oldMaxHp then rescale a.runtimeStats.currentHp oldMaxHp derived.maxHp
    else a.runtimeStats.currentHp
  let mp := if 0 < oldMaxMp then rescale a.runtimeStats.currentMp oldMaxMp derived.maxMp
    else a.runtimeStats.currentMp
  { a with derivedStats := derived, runtimeStats := { currentHp := hp, currentMp := mp } }

/-- The constructor `Actor::Actor(id, name)`. -/
def mk0 (id : Nat) (name : String) : Actor :=
  let a := recalculateDerivedStats { id := id, name := name }
  { a with runtimeStats :=
      { currentHp := a.derivedStats.maxHp, currentMp := a.derivedStats.maxMp } }

/-- The assignment chain of `Actor::setPrimaryStat` on the primary stats. -/
def assignStat (p : PrimaryStats) (stat : String) (value : Int) : PrimaryStats :=
  if stat = "strength" then { p with strength := value }
  else if stat = "agility" then { p with agility := value }
  else if stat = "intelligence" then { p with intelligence := value }
  else if stat = "vitality" then { p with vitality := value }
  else if stat = "wisdom" then { p with wisdom := value }
  else if stat = "luck" then { p with luck := value }
  else p

/-- The method `Actor::setPrimaryStat`. -/
def setPrimaryStat (a : Actor) (stat : String) (value : Int) : Actor :=
  recalculateDerivedStats { a with primaryStats := assignStat a.primaryStats stat value }

/-- The `+=` chain of `Actor::modifyPrimaryStat` on the primary stats. -/
def addToStat (p : PrimaryStats) (stat : String) (delta : Int) : PrimaryStats :=
  if stat = "strength" then { p with strength := add32 p.strength delta }
  else if stat = "agility" then { p with agility := add32 p.agility delta }
  else if stat = "intelligence" then { p with intelligence := add32 p.intelligence delta }
  else if stat = "vitality" then { p with vitality := add32 p.vitality delta }
  else if stat = "wisdom" then { p with wisdom := add32 p.wisdom delta }
  else if stat = "luck" then { p with luck := add32 p.luck delta }
  else p

/-- The method `Actor::modifyPrimaryStat`. -/
def modifyPrimaryStat (a : Actor) (stat : String) (delta : Int) : Actor :=
  recalculateDerivedStats { a with primaryStats := addToStat a.primaryStats stat delta }

/-- The query `Actor::isAlive`. -/
def isAlive (a : Actor) : Bool := decide (0 < a.runtimeStats.currentHp)

/-- Replace the current HP. -/
def withHp (a : Actor) (hp : Int) : Actor :=
  { a with runtimeStats := { a.runtimeStats with currentHp := hp } }

/-- Replace the current MP. -/
def withMp (a : Actor) (mp : Int) : Actor :=
  { a with runtimeStats := { a.runtimeStats with currentMp := mp } }

/-- The method `Actor::takeDamage`: the returned damage and the actor afterwards. -/
def takeDamage (a : Actor) (amount : Int) : Int × Actor :=
  if amount ≤ 0 ∨ a.isAlive = false then (0, a)
  else
    let actualDamage := min amount a.runtimeStats.currentHp
    let hp := sub32 a.runtimeStats.currentHp actualDamage
    if hp ≤ 0 then (actualDamage, a.withHp 0) else (actualDamage, a.withHp hp)

/-- The method `Actor::heal`: the returned healing and the actor afterwards. -/
def heal (a : Actor) (amount : Int) : Int × Actor :=
  if amount ≤ 0 ∨ a.isAlive = false then (0, a)
  else
    let missingHp := sub32 a.derivedStats.maxHp a.runtimeStats.currentHp
    let actualHeal := min amount missingHp
    (actualHeal, a.withHp (add32 a.runtimeStats.currentHp actualHeal))

/-- The method `Actor::useMana`: the returned flag and the actor afterwards. -/
def useMana (a : Actor) (amount : Int) : Bool × Actor :=
  if amount ≤ 0 then (true, a)
  else if a.runtimeStats.currentMp < amount then (false, a)
  else (true, a.withMp (sub32 a.runtimeStats.currentMp amount))

/-- The method `Actor::restoreMana`: the returned amount and the actor afterwards. -/
def restoreMana (a : Actor) (amount : Int) : Int × Actor :=
  if amount ≤ 0 then (0, a)
  else
    let missingMp := sub32 a.derivedStats.maxMp a.runtimeStats.currentMp
    let actualRestore := min amount missingMp
    (actualRestore, a.withMp (add32 a.runtimeStats.currentMp actualRestore))

/-- The method `Actor::onLevelUp`: recompute, then restore HP and MP to the maxima. -/
def onLevelUp (a : Actor) : Actor :=
  let b := recalculateDerivedStats a
  { b with runtimeStats :=
      { currentHp := b.derivedStats.maxHp, currentMp := b.derivedStats.maxMp } }

/-- The loop condition of `Actor::checkLevelUp`. -/
def levelUpDue (a : Actor) : Bool :=
  decide (StatCalculator.experienceForLevel (add32 a.level 1) ≤ a.experience)

/-- One pass through the body of the `checkLevelUp` loop: `level_++; onLevelUp();`. -/
def levelUpOnce (a : Actor) : Actor := onLevelUp { a with level := add32 a.level 1 }

/-- The state after at most `n` passes through the `checkLevelUp` loop. -/
def checkLevelUpIter : Nat → Actor → Actor
  | 0, a => a
  | n + 1, a => if levelUpDue a then checkLevelUpIter n (levelUpOnce a) else a

/-- The method `Actor::checkLevelUp` run with room for `fuel` passes: the final
state when the loop has exited by then, `none` when it is still running. -/
def checkLevelUp (fuel : Nat) (a : Actor) : Option Actor :=
  let b := checkLevelUpIter fuel a
  if levelUpDue b then none else some b

/-- The method `Actor::gainExperience` with room for `fuel` level-ups. -/
def gainExperience (fuel : Nat) (a : Actor) (exp : Int) : Option Actor :=
  if exp ≤ 0 then some a
  else checkLevelUp fuel { a with experience := wrap64 (a.experience + exp) }

/-- The state of `Actor::gainExperience` after at most `n` passes through the loop. -/
def gainExperienceIter (n : Nat) (a : Actor) (exp : Int) : Actor :=
  if exp ≤ 0 then a
  else checkLevelUpIter n { a with experience := wrap64 (a.experience + exp) }

/-- The method `Actor::update`, which does nothing in the base class. -/
def update (a : Actor) (_currentTick : Nat) : Actor := a

end Actor

/-! ## Invariants of the data model -/

/-- Derived-stat consistency: the stored derived stats are those of the calculator. -/
def Consistent (a : Actor) : Prop :=
  a.derivedStats = StatCalculator.calculate a.primaryStats a.level

instance (a : Actor) : Decidable (Consistent a) := by unfold Consistent; infer_instance

/-- The runtime-stat bounds `0 ≤ currentHp ≤ maxHp` and `0 ≤ currentMp ≤ maxMp`. -/
def RuntimeBounds (a : Actor) : Prop :=
  0 ≤ a.runtimeStats.currentHp ∧ a.runtimeStats.currentHp ≤ a.derivedStats.maxHp ∧
  0 ≤ a.runtimeStats.currentMp ∧ a.runtimeStats.currentMp ≤ a.derivedStats.maxMp

instance (a : Actor) : Decidable (RuntimeBounds a) := by unfold RuntimeBounds; infer_instance

/-- The inputs of `calculate` are `int32_t` values and none of its six integer
formulas leaves the `int32_t` range. -/
def CalcFits (p : PrimaryStats) (level : Int) : Prop :=
  InI32 level ∧ InI32 p.strength ∧ InI32 p.intelligence ∧
  InI32 (100 + p.vitality * 10 + level * 5) ∧
  InI32 (50 + p.intelligence * 5 + p.wisdom * 3 + level * 2) ∧
  InI32 (p.strength * 2 + Int.tdiv level 2) ∧
  InI32 (p.intelligence * 2 + Int.tdiv level 2) ∧
  InI32 (p.vitality + Int.tdiv p.strength 2) ∧
  InI32 (p.wisdom + Int.tdiv p.intelligence 2)

instance (p : PrimaryStats) (level : Int) : Decidable (CalcFits p level) := by
  unfold CalcFits; infer_instance

/-- The actor moved to level `l` with freshly computed derived stats and HP and MP
at their maxima: the state a level-up to `l` leaves behind. -/
def restoredAt (a : Actor) (l : Int) : Actor :=
  { a with
    level := l
    derivedStats := StatCalculator.calculate a.primaryStats l
    runtimeStats :=
      { currentHp := (StatCalculator.calculate a.primaryStats l).maxHp
        currentMp := (StatCalculator.calculate a.primaryStats l).maxMp } }

/-- The `maxHp` and `maxMp` formulas stay between 0 and `INT32_MAX` from the
actor's level up to level 4633. -/
def MaximaFit (a : Actor) : Prop :=
  0 ≤ 100 + a.primaryStats.vitality * 10 + a.level * 5 ∧
  100 + a.primaryStats.vitality * 10 + 4633 * 5 ≤ 2147483647 ∧
  0 ≤ 50 + a.primaryStats.intelligence * 5 + a.primaryStats.wisdom * 3 + a.level * 2 ∧
  50 + a.primaryStats.intelligence * 5 + a.primaryStats.wisdom * 3 + 4633 * 2 ≤ 2147483647

instance (a : Actor) : Decidable (MaximaFit a) := by unfold MaximaFit; infer_instance

/-- A fresh actor that took 105 damage and then had its vitality set to
214748354, so that `maxHp = 2147483645` at level 1. -/
def highVitalityActor : Actor :=
  (((Actor.mk0 1 "hero").takeDamage 105).2).setPrimaryStat "vitality" 214748354

/-- The integer converts to binary32 without rounding. -/
def Binary32Exact (n : Int) : Prop := i32ToF32 n = n * (f32One : Int)

instance (n : Int) : Decidable (Binary32Exact n) := by unfold Binary32Exact; infer_instance

/-- Both maxima of the actor are non-negative and convert to binary32 exactly. -/
def MaximaExact (a : Actor) : Prop :=
  0 ≤ a.derivedStats.maxHp ∧ Binary32Exact a.derivedStats.maxHp ∧
  0 ≤ a.derivedStats.maxMp ∧ Binary32Exact a.derivedStats.maxMp

instance (a : Actor) : Decidable (MaximaExact a) := by unfold MaximaExact; infer_instance

/-- Every `int32_t` member of the actor holds an `int32_t` value. -/
def WellFormed (a : Actor) : Prop :=
  InI32 a.level ∧ InI32 a.runtimeStats.currentHp ∧ InI32 a.runtimeStats.currentMp ∧
  InI32 a.derivedStats.maxHp ∧ InI32 a.derivedStats.maxMp

instance (a : Actor) : Decidable (WellFormed a) := by unfold WellFormed; infer_instance

/-! ## More binary32 operations -/

/-- Binary32 difference. -/
def f32Sub (x y : Float32) : Float32 := f32Round (x - y) 1

/-- The call `std::max(x, y)`, which returns `y` when `x < y` and `x` otherwise. -/
def f32Max (x y : Float32) : Float32 := if x < y then y else x

/-- Conversion `static_cast<uint64_t>(x)`: truncation toward zero.  A truncated value
outside the `uint64_t` range has no defined result in C++; it is given the value 0. -/
def f32ToU64 (x : Float32) : Nat :=
  let t := Int.tdiv x (f32One : Int)
  if 0 ≤ t ∧ t < 18446744073709551616 then t.toNat else 0

/-! ## Skills (`Skill.hpp`, `Skill.cpp`) -/

/-- The struct `SkillRequirement`; skill ID 0 is `INVALID_SKILL_ID`. -/
structure SkillRequirement where
  prerequisiteSkill : Nat := 0
  prerequisiteLevel : Int := 0
  requiredCharLevel : Int := 1
  deriving DecidableEq, Repr

/-- The data members of `Skill` that costs, cooldowns and learning rules read.
The description, the type tags, the range and the effect list are left out. -/
structure Skill where
  id : Nat
  name : String
  manaCost : Int := 10
  cooldown : Float32 := f32Lit 1 1
  level : Int := 0
  maxLevel : Int := 5
  requirement : SkillRequirement := {}
  deriving DecidableEq, Repr

namespace Skill

/-- The method `Skill::setLevel`. -/
def setLevel (s : Skill) (level : Int) : Skill := { s with level := min level s.maxLevel }

/-- The method `Skill::getScaledManaCost`. -/
def getScaledManaCost (s : Skill) : Int :=
  let multiplier := f32Add (f32Lit 1 1) (f32Mul (i32ToF32 (sub32 s.level 1)) (f32Lit 1 10))
  f32ToI32 (f32Mul (i32ToF32 s.manaCost) multiplier)

/-- The method `Skill::getScaledCooldown`. -/
def getScaledCooldown (s : Skill) : Float32 :=
  let multiplier := f32Sub (f32Lit 1 1) (f32Mul (i32ToF32 (sub32 s.level 1)) (f32Lit 75 1000))
  f32Mul s.cooldown (f32Max (f32Lit 5 10) multiplier)

end Skill

/-! ## Skill database and skill tree (`SkillTree.hpp`, `SkillTree.cpp`) -/

/-- The skill catalog `SkillDatabase`, passed explicitly instead of through the
singleton: the registered skills in registration order. -/
structure SkillDatabase where
  skills : List Skill := []
  deriving DecidableEq, Repr

namespace SkillDatabase

/-- The method `SkillDatabase::getSkill` (`none` for the null pointer). -/
def getSkill (db : SkillDatabase) (id : Nat) : Option Skill :=
  db.skills.find? (fun s => s.id == id)

/-- The method `SkillDatabase::registerSkill`: `emplace` keeps an existing entry. -/
def registerSkill (db : SkillDatabase) (skill : Skill) : SkillDatabase :=
  match db.getSkill skill.id with
  | some _ => db
  | none => { skills := db.skills ++ [skill] }

/-- The method `SkillDatabase::getSkillCopy`. -/
def getSkillCopy (db : SkillDatabase) (id : Nat) : Skill :=
  match db.getSkill id with
  | some s => s
  | none => { id := 0, name := "Invalid" }

/-- The method `SkillDatabase::loadDefaultSkills`. -/
def loadDefaultSkills : SkillDatabase :=
  ((((((((({ skills := [] } : SkillDatabase).registerSkill
    { id := 1, name := "Slash", manaCost := 10, cooldown := f32Lit 2 1, maxLevel := 5 }).registerSkill
    { id := 2, name := "Fireball", manaCost := 25, cooldown := f32Lit 3 1, maxLevel := 5 }).registerSkill
    { id := 3, name := "Heal", manaCost := 30, cooldown := f32Lit 5 1, maxLevel := 5 }).registerSkill
    { id := 4, name := "Power Strike", manaCost := 25, cooldown := f32Lit 5 1, maxLevel := 5,
      requirement := { prerequisiteSkill := 1, prerequisiteLevel := 2, requiredCharLevel := 5 } }).registerSkill
    { id := 5, name := "Flame Wave", manaCost := 40, cooldown := f32Lit 6 1, maxLevel := 5,
      requirement := { prerequisiteSkill := 2, prerequisiteLevel := 2, requiredCharLevel := 5 } }).registerSkill
    { id := 6, name := "Regeneration", manaCost := 35, cooldown := f32Lit 10 1, maxLevel := 5,
      requirement := { prerequisiteSkill := 3, prerequisiteLevel := 2, requiredCharLevel := 5 } }).registerSkill
    { id := 7, name := "Berserk", manaCost := 50, cooldown := f32Lit 30 1, maxLevel := 3,
      requirement := { prerequisiteSkill := 4, prerequisiteLevel := 3, requiredCharLevel := 10 } }).registerSkill
    { id := 8, name := "Meteor", manaCost := 100, cooldown := f32Lit 60 1, maxLevel := 3,
      requirement := { prerequisiteSkill := 5, prerequisiteLevel := 3, requiredCharLevel := 10 } }).registerSkill
    { id := 9, name := "Divine Shield", manaCost := 60, cooldown := f32Lit 45 1, maxLevel := 3,
      requirement := { prerequisiteSkill := 6, prerequisiteLevel := 3, requiredCharLevel := 10 } }

end SkillDatabase

/-- The struct `SkillNode` (without the UI coordinates). -/
structure SkillNode where
  skillId : Nat
  prerequisites : List Nat := []
  unlocks : List Nat := []
  tier : Int := 0
  deriving DecidableEq, Repr

/-- The class `SkillTree`: the map `nodes_` as the list of its nodes, keyed by
`skillId`, in the order in which the map is iterated. -/
structure SkillTree where
  nodes : List SkillNode := []
  maxTier : Int := 0
  deriving DecidableEq, Repr

namespace SkillTree

/-- The method `SkillTree::getNode` (`none` for the null pointer). -/
def getNode (t : SkillTree) (id : Nat) : Option SkillNode :=
  t.nodes.find? (fun n => n.skillId == id)

/-- The assignment `nodes_[node.skillId] = node`: replace the node stored under
the key, or add a new one. -/
def putNode (nodes : List SkillNode) (node : SkillNode) : List SkillNode :=
  match nodes with
  | [] => [node]
  | n :: rest => if n.skillId = node.skillId then node :: rest else n :: putNode rest node

/-- The method `SkillTree::addNode`. -/
def addNode (t : SkillTree) (node : SkillNode) : SkillTree :=
  { nodes := putNode t.nodes node, maxTier := max t.maxTier node.tier }

/-- The inner loop over `node.prerequisites`: every prerequisite is learned. -/
def prereqsMet (node : SkillNode) (learnedSkills : Nat → Bool) : Bool :=
  node.prerequisites.all learnedSkills

/-- The body of the loop of `getAvailableSkills` for one node: is its ID pushed? -/
def isAvailable (db : SkillDatabase) (learnedSkills : Nat → Bool) (characterLevel : Int)
    (node : SkillNode) : Bool :=
  if learnedSkills node.skillId then false
  else if prereqsMet node learnedSkills then
    match db.getSkill node.skillId with
    | some skill => decide (skill.requirement.requiredCharLevel ≤ characterLevel)
    | none => false
  else false

/-- The method `SkillTree::getAvailableSkills`. -/
def getAvailableSkills (t : SkillTree) (db : SkillDatabase) (learnedSkills : Nat → Bool)
    (characterLevel : Int) : List Nat :=
  (t.nodes.filter (isAvailable db learnedSkills characterLevel)).map (fun n => n.skillId)

/-- The method `SkillTree::canLearn`. -/
def canLearn (t : SkillTree) (db : SkillDatabase) (id : Nat) (learnedSkills : Nat → Bool)
    (skillLevels : Nat → Option Int) (characterLevel : Int) : Bool :=
  match t.getNode id with
  | none => false
  | some node =>
    if prereqsMet node learnedSkills = false then false
    else
      match db.getSkill id with
      | none => false
      | some skill =>
        if characterLevel < skill.requirement.requiredCharLevel then false
        else if skill.requirement.prerequisiteSkill ≠ 0 then
          match skillLevels skill.requirement.prerequisiteSkill with
          | none => false
          | some level => if level < skill.requirement.prerequisiteLevel then false else true
        else true

/-- The keys of the node map are pairwise different, as they are in a map. -/
def KeysNodup (t : SkillTree) : Prop := (t.nodes.map (fun n => n.skillId)).Nodup

end SkillTree

/-! ## Character (`Character.hpp`, `Character.cpp`) -/

/-- The data members of `Character`: the `Actor` base object and the skill state.
The set `learnedSkills_` is its membership test and the two maps are their
lookup functions. -/
structure Character where
  actor : Actor
  skillTree : SkillTree := {}
  skillPoints : Int := 0
  learnedSkills : Nat → Bool := fun _ => false
  skillLevels : Nat → Option Int := fun _ => none
  skillCooldowns : Nat → Option Nat := fun _ => none
  lastUpdateTick : Nat := 0

namespace Character

/-- The constructor `Character::Character(id, name)`. -/
def mk0 (id : Nat) (name : String) : Character :=
  { actor := Actor.mk0 id name, skillPoints := 3 }

/-- The method `Character::setSkillTree`. -/
def setSkillTree (c : Character) (tree : SkillTree) : Character := { c with skillTree := tree }

/-- The method `Character::addSkillPoints`. -/
def addSkillPoints (c : Character) (points : Int) : Character :=
  { c with skillPoints := add32 c.skillPoints points }

/-- The method `Character::hasSkill`. -/
def hasSkill (c : Character) (skillId : Nat) : Bool := c.learnedSkills skillId

/-- The method `Character::getSkillLevel` (0 when the map has no entry). -/
def getSkillLevel (c : Character) (skillId : Nat) : Int :=
  match c.skillLevels skillId with
  | none => 0
  | some level => level

/-- The method `Character::canLearnSkill`. -/
def canLearnSkill (c : Character) (db : SkillDatabase) (skillId : Nat) : Bool :=
  if c.skillPoints ≤ 0 then false
  else if c.hasSkill skillId then false
  else c.skillTree.canLearn db skillId c.learnedSkills c.skillLevels c.actor.level

/-- The method `Character::learnSkill`: the returned flag and the character afterwards. -/
def learnSkill (c : Character) (db : SkillDatabase) (skillId : Nat) : Bool × Character :=
  if c.canLearnSkill db skillId = false then (false, c)
  else
    match db.getSkill skillId with
    | none => (false, c)
    | some _ =>
      (true,
        { c with
          skillPoints := sub32 c.skillPoints 1
          learnedSkills := fun i => if i = skillId then true else c.learnedSkills i
          skillLevels := fun i => if i = skillId then some 1 else c.skillLevels i })

/-- The method `Character::canUpgradeSkill`. -/
def canUpgradeSkill (c : Character) (db : SkillDatabase) (skillId : Nat) : Bool :=
  if c.skillPoints ≤ 0 then false
  else if c.hasSkill skillId = false then false
  else
    match db.getSkill skillId with
    | none => false
    | some skill =>
      match c.skillLevels skillId with
      | none => false
      | some level => decide (level < skill.maxLevel)

/-- The method `Character::upgradeSkill`; `skillLevels_[skillId]++` starts from 0
when the map has no entry. -/
def upgradeSkill (c : Character) (db : SkillDatabase) (skillId : Nat) : Bool × Character :=
  if c.canUpgradeSkill db skillId = false then (false, c)
  else
    (true,
      { c with
        skillPoints := sub32 c.skillPoints 1
        skillLevels := fun i =>
          if i = skillId then some (add32 (c.getSkillLevel skillId) 1) else c.skillLevels i })

/-- The method `Character::getAvailableSkills`. -/
def getAvailableSkills (c : Character) (db : SkillDatabase) : List Nat :=
  c.skillTree.getAvailableSkills db c.learnedSkills c.actor.level

/-- The override `Character::onLevelUp`: the base level-up, then one skill point. -/
def onLevelUp (c : Character) : Character :=
  { c with actor := Actor.onLevelUp c.actor, skillPoints := add32 c.skillPoints 1 }

/-- One pass through the body of the `checkLevelUp` loop on a character. -/
def levelUpOnce (c : Character) : Character :=
  onLevelUp { c with actor := { c.actor with level := add32 c.actor.level 1 } }

/-- The state of a character after at most `n` passes through the `checkLevelUp` loop. -/
def checkLevelUpIter : Nat → Character → Character
  | 0, c => c
  | n + 1, c => if Actor.levelUpDue c.actor then checkLevelUpIter n (levelUpOnce c) else c

/-- The state of `gainExperience` on a character after at most `n` passes. -/
def gainExperienceIter (n : Nat) (c : Character) (exp : Int) : Character :=
  if exp ≤ 0 then c
  else checkLevelUpIter n
    { c with actor := { c.actor with experience := wrap64 (c.actor.experience + exp) } }

/-- The inherited method `gainExperience` on a character with room for `fuel`
level-ups: `none` when the loop is still running after them. -/
def gainExperience (fuel : Nat) (c : Character) (exp : Int) : Option Character :=
  let d := gainExperienceIter fuel c exp
  if exp ≤ 0 then some d
  else if Actor.levelUpDue d.actor then none else some d

/-- The skill object `useSkill` works with: the catalog copy set to the
character's level of the skill. -/
def skillInUse (c : Character) (db : SkillDatabase) (skillId : Nat) : Skill :=
  (db.getSkillCopy skillId).setLevel (c.getSkillLevel skillId)

/-- The cooldown in ticks that `useSkill` records:
`static_cast<Tick>(skill.getScaledCooldown() * 1000)`. -/
def cooldownTicks (skill : Skill) : Nat :=
  f32ToU64 (f32Mul skill.getScaledCooldown (i32ToF32 1000))

/-- The method `Character::useSkill`: the returned flag and the character afterwards.
`Tick` is `uint64_t`, whose addition is taken modulo `2^64`. -/
def useSkill (c : Character) (db : SkillDatabase) (skillId : Nat) : Bool × Character :=
  if c.hasSkill skillId = false then (false, c)
  else
    match db.getSkill skillId with
    | none => (false, c)
    | some _ =>
      let skill := c.skillInUse db skillId
      let onCooldown : Bool :=
        match c.skillCooldowns skillId with
        | some cdRemaining => decide (c.lastUpdateTick < cdRemaining)
        | none => false
      if onCooldown then (false, c)
      else
        let manaCost := skill.getScaledManaCost
        if (c.actor.useMana manaCost).1 = false then (false, c)
        else
          (true,
            { c with
              actor := (c.actor.useMana manaCost).2
              skillCooldowns := fun i =>
                if i = skillId then
                  some ((c.lastUpdateTick + cooldownTicks skill) % 18446744073709551616)
                else c.skillCooldowns i })

/-- The override `Character::update`. -/
def update (c : Character) (currentTick : Nat) : Character :=
  { c with actor := Actor.update c.actor currentTick, lastUpdateTick := currentTick }

end Character

/-- The skill tree of the skill-tree tests: Slash, Fireball, Power Strike, Flame
Wave and Berserk. -/
def testSkillTree : SkillTree :=
  ((((({} : SkillTree).addNode { skillId := 1, unlocks := [4], tier := 1 }).addNode
    { skillId := 2, unlocks := [5], tier := 1 }).addNode
    { skillId := 4, prerequisites := [1], unlocks := [7], tier := 2 }).addNode
    { skillId := 5, prerequisites := [2], tier := 2 }).addNode
    { skillId := 7, prerequisites := [4], tier := 3 }

/-! ## Invariants of the skill state -/

/-- The key set of the skill-level map equals the learned-skills set. -/
def KeysMatch (c : Character) : Prop :=
  ∀ id, c.learnedSkills id = true ↔ c.skillLevels id ≠ none

/-- Skill-state well-formedness: the key set of the skill-level map equals the
learned-skills set, and every recorded level lies between 1 and the catalog
maximum of its skill. -/
def SkillStateOk (db : SkillDatabase) (c : Character) : Prop :=
  KeysMatch c ∧
  ∀ id l, c.skillLevels id = some l →
    ∃ s, db.getSkill id = some s ∧ 1 ≤ l ∧ l ≤ s.maxLevel

/-- A catalog whose maximum levels are `int32_t` values of at least 1. -/
def CatalogOk (db : SkillDatabase) : Prop :=
  ∀ id s, db.getSkill id = some s → 1 ≤ s.maxLevel ∧ s.maxLevel ≤ 2147483647

/-- The calls on a character that change or read its skill state.  A
`gainExperience` call is given with the number of level-up passes it is followed
through. -/
inductive CharacterOp
  | learnSkill (skillId : Nat)
  | upgradeSkill (skillId : Nat)
  | useSkill (skillId : Nat)
  | update (currentTick : Nat)
  | gainExperience (passes : Nat) (exp : Int)

/-- The character after one call. -/
def Character.applyOp (db : SkillDatabase) (c : Character) : CharacterOp → Character
  | .learnSkill id => (c.learnSkill db id).2
  | .upgradeSkill id => (c.upgradeSkill db id).2
  | .useSkill id => (c.useSkill db id).2
  | .update tick => c.update tick
  | .gainExperience n exp => c.gainExperienceIter n exp

/-- The number of passes through the `checkLevelUp` loop within the first `n`:
the number of levels gained. -/
def Actor.levelUpPasses : Nat → Actor → Nat
  | 0, _ => 0
  | n + 1, a => if Actor.levelUpDue a then Actor.levelUpPasses n (Actor.levelUpOnce a) + 1 else 0

/-- The number of levels a `gainExperience` call gains within its first `n` passes. -/
def Actor.levelsGained (n : Nat) (a : Actor) (exp : Int) : Nat :=
  if exp ≤ 0 then 0
  else Actor.levelUpPasses n { a with experience := wrap64 (a.experience + exp) }

instance (t : SkillTree) : Decidable t.KeysNodup := by
  unfold SkillTree.KeysNodup; infer_instance

/-- A catalog with one skill of negative mana cost. -/
def giftCatalog : SkillDatabase :=
  ({ skills := [] } : SkillDatabase).registerSkill { id := 1, name := "Gift", manaCost := -5 }

/-- A fresh character that has learned skill 1 of `giftCatalog`. -/
def giftCharacter : Character :=
  (((Character.mk0 1 "Hero").setSkillTree (({} : SkillTree).addNode { skillId := 1 })).learnSkill
    giftCatalog 1).2

/-! ## Events and the event bus (`Event.hpp`, `EventBus.hpp`, `EventBus.cpp`) -/

/-- The variant `GameEvent`. -/
inductive GameEvent
  | damage (attacker target : Nat) (damage : Int) (isCritical isPhysical : Bool)
  | death (actor killer : Nat)
  | heal (healer target : Nat) (amount : Int)
  | skillUsed (caster skill target : Nat)
  | levelUp (actor : Nat) (oldLevel newLevel : Int)
  | manaUsed (actor : Nat) (amount : Int) (skill : Nat)
  | buffApplied (source target buffId : Nat) (duration : Float32)
  | buffRemoved (target buffId : Nat)
  deriving DecidableEq, Repr

/-- A call on the bus made from inside a handler. -/
inductive BusCall
  | subscribe (handler : Nat)
  | unsubscribe (id : Nat)
  | publish (event : GameEvent)
  | queue (event : GameEvent)
  | processQueue
  | clearSubscribers
  | clearQueue
  deriving DecidableEq, Repr

/-- What the registered callbacks do: the callback with key `k`, invoked with an
event, makes the listed bus calls in order.  Whatever else a callback does is
outside the bus; its invocation is recorded in the call log. -/
abbrev HandlerTable := Nat → GameEvent → List BusCall

/-- The struct `HandlerEntry`; the `std::function` is named by its key in the
handler table. -/
structure HandlerEntry where
  id : Nat
  handler : Nat
  active : Bool := true
  deriving DecidableEq, Repr

/-- The data members of `EventBus`. -/
structure EventBus where
  handlers : List HandlerEntry := []
  eventQueue : List GameEvent := []
  nextId : Nat := 1
  isPublishing : Bool := false
  pendingRemovals : List Nat := []
  deriving DecidableEq, Repr

namespace EventBus

/-- The method `EventBus::subscribe`: the returned ID and the bus afterwards
(`HandlerId` is the 64-bit `size_t`). -/
def subscribe (b : EventBus) (handler : Nat) : Nat × EventBus :=
  (b.nextId,
    { b with
      nextId := (b.nextId + 1) % 18446744073709551616
      handlers := b.handlers ++ [{ id := b.nextId, handler := handler, active := true }] })

/-- The marking loop of `unsubscribe`: the first entry with the ID becomes inactive. -/
def markInactive : List HandlerEntry → Nat → List HandlerEntry
  | [], _ => []
  | entry :: rest, id =>
    if entry.id = id then { entry with active := false } :: rest
    else entry :: markInactive rest id

/-- The erase-remove idiom on `handlers_`: drop every entry with the ID. -/
def eraseId (handlers : List HandlerEntry) (id : Nat) : List HandlerEntry :=
  handlers.filter (fun entry => decide (entry.id ≠ id))

/-- The method `EventBus::unsubscribe`. -/
def unsubscribe (b : EventBus) (id : Nat) : EventBus :=
  if b.isPublishing then
    { b with
      pendingRemovals := b.pendingRemovals ++ [id]
      handlers := markInactive b.handlers id }
  else { b with handlers := eraseId b.handlers id }

/-- The method `EventBus::queue`. -/
def queue (b : EventBus) (event : GameEvent) : EventBus :=
  { b with eventQueue := b.eventQueue ++ [event] }

/-- The method `EventBus::clearSubscribers`. -/
def clearSubscribers (b : EventBus) : EventBus :=
  { b with handlers := [], pendingRemovals := [] }

/-- The method `EventBus::clearQueue`. -/
def clearQueue (b : EventBus) : EventBus := { b with eventQueue := [] }

/-- The method `EventBus::getSubscriberCount`. -/
def getSubscriberCount (b : EventBus) : Nat := b.handlers.length

/-- The method `EventBus::getQueueSize`. -/
def getQueueSize (b : EventBus) : Nat := b.eventQueue.length

/-- The first statement of `publish`: `isPublishing_ = true`. -/
def beginPublish (b : EventBus) : EventBus := { b with isPublishing := true }

/-- The end of `publish` after the loop: `isPublishing_ = false`, then the deferred
removals are carried out and the pending list is cleared. -/
def endPublish (b : EventBus) : EventBus :=
  { b with
    isPublishing := false
    handlers := b.pendingRemovals.foldl eraseId b.handlers
    pendingRemovals := [] }

end EventBus

/-- A bus at work: the bus, the log of handler invocations (entry ID and event,
oldest first) and the number of `publish` loops in progress. -/
structure BusRun where
  bus : EventBus
  calls : List (Nat × GameEvent) := []
  activePasses : Nat := 0
  deriving DecidableEq, Repr

/-- The outcome of running bus code: a final state, or the run needs more than
the given number of steps, or `handlers_` was structurally modified (`push_back`,
`erase`, `clear`) while a range-`for` over it was in progress, which invalidates
the iterators of that loop. -/
inductive BusResult
  | ok (run : BusRun)
  | outOfFuel
  | iteratorInvalidated
  deriving DecidableEq, Repr

/-- Continue with `f` after a successful step. -/
def BusResult.andThen (r : BusResult) (f : BusRun → BusResult) : BusResult :=
  match r with
  | .ok run => f run
  | .outOfFuel => .outOfFuel
  | .iteratorInvalidated => .iteratorInvalidated

/-- A piece of bus code to run: a sequence of calls, the rest of a `publish` loop
from index `i` up to the end index taken when the loop started, or the loop of
`processQueue`. -/
inductive BusTask
  | calls (cs : List BusCall)
  | publishLoop (event : GameEvent) (i stop : Nat)
  | drainQueue
  deriving DecidableEq, Repr

namespace BusRun

/-- A `push_back`, `erase` or `clear` that changes `handlers_` while a loop over it
is in progress invalidates that loop. -/
def setHandlersChecked (r : BusRun) (b : EventBus) : BusResult :=
  if 0 < r.activePasses ∧ b.handlers.length ≠ r.bus.handlers.length then .iteratorInvalidated
  else .ok { r with bus := b }

/-- Enter `publish`: one more loop is in progress. -/
def enterPublish (r : BusRun) : BusRun :=
  { r with bus := r.bus.beginPublish, activePasses := r.activePasses + 1 }

/-- Leave `publish`: the loop has ended; then the deferred removals. -/
def leavePublish (r : BusRun) : BusResult :=
  setHandlersChecked { r with activePasses := r.activePasses - 1 } r.bus.endPublish

/-- Run a task for at most `fuel` steps. -/
def exec (tbl : HandlerTable) : Nat → BusTask → BusRun → BusResult
  | _, .calls [], r => .ok r
  | 0, _, _ => .outOfFuel
  | fuel + 1, .calls (c :: cs), r =>
    BusResult.andThen
      (match c with
        | .subscribe handler => setHandlersChecked r (r.bus.subscribe handler).2
        | .unsubscribe id => setHandlersChecked r (r.bus.unsubscribe id)
        | .publish event =>
          exec tbl fuel (.publishLoop event 0 r.bus.handlers.length) r.enterPublish
        | .queue event => .ok { r with bus := r.bus.queue event }
        | .processQueue => exec tbl fuel .drainQueue r
        | .clearSubscribers => setHandlersChecked r r.bus.clearSubscribers
        | .clearQueue => .ok { r with bus := r.bus.clearQueue })
      (fun r1 => exec tbl fuel (.calls cs) r1)
  | fuel + 1, .publishLoop event i stop, r =>
    if i < stop then
      match r.bus.handlers.get? i with
      | none => .iteratorInvalidated
      | some entry =>
        if entry.active then
          BusResult.andThen
            (exec tbl fuel (.calls (tbl entry.handler event))
              { r with calls := r.calls ++ [(entry.id, event)] })
            (fun r1 => exec tbl fuel (.publishLoop event (i + 1) stop) r1)
        else exec tbl fuel (.publishLoop event (i + 1) stop) r
    else r.leavePublish
  | fuel + 1, .drainQueue, r =>
    match r.bus.eventQueue with
    | [] => .ok r
    | event :: rest =>
      BusResult.andThen
        (exec tbl fuel (.publishLoop event 0 r.bus.handlers.length)
          ({ r with bus := { r.bus with eventQueue := rest } } : BusRun).enterPublish)
        (fun r1 => exec tbl fuel .drainQueue r1)

end BusRun

namespace EventBus

/-- The method `EventBus::publish`, called from outside any handler, with
callbacks behaving as `tbl` says, run for at most `fuel` steps. -/
def publish (b : EventBus) (tbl : HandlerTable) (fuel : Nat) (event : GameEvent) : BusResult :=
  BusRun.exec tbl fuel (.calls [.publish event]) { bus := b }

/-- The method `EventBus::processQueue`, called from outside any handler. -/
def processQueue (b : EventBus) (tbl : HandlerTable) (fuel : Nat) : BusResult :=
  BusRun.exec tbl fuel (.calls [.processQueue]) { bus := b }

/-- A bus outside any publish pass: not publishing, nothing pending, every entry
active. -/
def Quiescent (b : EventBus) : Prop :=
  b.isPublishing = false ∧ b.pendingRemovals = [] ∧ ∀ h ∈ b.handlers, h.active = true

instance (b : EventBus) : Decidable b.Quiescent := by unfold Quiescent; infer_instance

end EventBus

/-- Callbacks for two subscribers: the callback with key 1 unsubscribes ID 2, the
others make no bus calls. -/
def unsubscribeSecond : HandlerTable := fun k _ => if k = 1 then [.unsubscribe 2] else []

/-- Callbacks that make no bus calls. -/
def quietHandlers : HandlerTable := fun _ _ => []

/-- A bus with two subscribers, with callback keys 1 and 2 and IDs 1 and 2. -/
def twoSubscribers : EventBus := ((({} : EventBus).subscribe 1).2.subscribe 2).2

/-! ## Event-bus scenarios -/

/-- The identifiers of the subscribed entries are pairwise different, as the
counter `nextId_` makes them. -/
def EventBus.IdsNodup (b : EventBus) : Prop := (b.handlers.map (fun h => h.id)).Nodup

instance (b : EventBus) : Decidable b.IdsNodup := by
  unfold EventBus.IdsNodup; infer_instance

/-- A bus with three subscribers, whose callbacks are numbered 1, 2 and 3. -/
def threeSubscribers : EventBus := (twoSubscribers.subscribe 3).2

/-- Callbacks for `threeSubscribers`: callback 2 unsubscribes its own entry (ID 2),
the others make no bus calls. -/
def unsubscribeSelf : HandlerTable := fun k _ => if k = 2 then [.unsubscribe 2] else []

/-- Callbacks for `twoSubscribers`: on a death event callback 1 publishes a heal
event and callback 2 unsubscribes entry 2; on other events they make no bus
calls. -/
def republishThenUnsubscribe : HandlerTable := fun k event =>
  match event with
  | .death _ _ => if k = 1 then [.publish (.heal 1 1 5)] else [.unsubscribe 2]
  | _ => []

/-- The bus of the test `QueueAndProcess`: one subscriber and the same damage
event queued three times. -/
def queuedThree : EventBus :=
  (((({} : EventBus).subscribe 1).2.queue (.damage 1 2 100 false true)).queue
    (.damage 1 2 100 false true)).queue (.damage 1 2 100 false true)

/-- Callbacks for `threeSubscribers`: on a death event callback 1 publishes a heal
event and callback 2 unsubscribes its own entry (ID 2); callback 3, and every
callback on other events, makes no bus calls. -/
def republishThenUnsubscribeSelf : HandlerTable := fun k event =>
  match event with
  | .death _ _ =>
    if k = 1 then [.publish (.heal 1 1 5)] else if k = 2 then [.unsubscribe 2] else []
  | _ => []

/-- Callbacks that put every event they receive back on the queue. -/
def requeueHandlers : HandlerTable := fun _ event => [.queue event]

/-- A bus with one subscriber and one queued damage event. -/
def queuedOne : EventBus :=
  (({} : EventBus).subscribe 1).2.queue (.damage 1 2 100 false true)

/-! ## Actor registry (`ActorManager.hpp`, `ActorManager.cpp`) -/

/-- The registry `ActorManager`: the map `actors_` from actor ID to the actor the
stored pointer refers to, and the counter `nextActorId_`. -/
structure ActorManager where
  actors : Nat → Option Actor := fun _ => none
  nextActorId : Nat := 1

namespace ActorManager

/-- The method `ActorManager::getActor`. -/
def getActor (m : ActorManager) (id : Nat) : Option Actor := m.actors id

/-- The method `ActorManager::hasActor`. -/
def hasActor (m : ActorManager) (id : Nat) : Bool := (m.actors id).isSome

/-- A write to the actor object that the pointer stored under `id` refers to. -/
def setActor (m : ActorManager) (id : Nat) (a : Actor) : ActorManager :=
  { m with actors := fun j => if j = id then some a else m.actors j }

/-- The method `ActorManager::createActor<Actor>(name)`: the new ID and the
registry afterwards (`ActorId` is `uint32_t`). -/
def createActor (m : ActorManager) (name : String) : Nat × ActorManager :=
  (m.nextActorId,
    { actors := fun j => if j = m.nextActorId then some (Actor.mk0 m.nextActorId name)
        else m.actors j
      nextActorId := (m.nextActorId + 1) % 4294967296 })

end ActorManager

/-! ## Damage formula (`DamageCalculator.hpp`, `DamageCalculator.cpp`) -/

/-- The struct `DamageResult`. -/
structure DamageResult where
  rawDamage : Int := 0
  finalDamage : Int := 0
  isCritical : Bool := false
  isDodged : Bool := false
  isBlocked : Bool := false
  isPhysical : Bool := true
  deriving DecidableEq, Repr

/-- The values `dist_(rng_)` returns, in the order of the calls: the generator
`std::mt19937` and the distribution are library code, so the sequence of draws is
taken as given and the formula keeps the number of draws made so far. -/
abbrev DrawSource := Nat → Float32

namespace StandardDamageFormula

/-- The method `StandardDamageFormula::rollDodge` on the draw it takes. -/
def rollDodge (draw dodgeChance : Float32) : Bool := decide (draw < dodgeChance)

/-- The method `StandardDamageFormula::rollCritical` on the draw it takes. -/
def rollCritical (draw critChance : Float32) : Bool := decide (draw < critChance)

/-- The statement `finalDamage = static_cast<int32_t>(rawDamage * damageReduction)`
with `damageReduction = 100.0f / (100.0f + defense)`.  For a zero divisor the
quotient is infinite and the product is not finite; its conversion has no defined
result in C++ and is given the value `INT32_MIN`, as in `f32ToI32`. -/
def reducedDamage (rawDamage defense : Int) : Int :=
  let divisor := f32Add (f32Lit 100 1) (i32ToF32 defense)
  if divisor = 0 then -2147483648
  else f32ToI32 (f32Mul (i32ToF32 rawDamage) (f32Div (f32Lit 100 1) divisor))

/-- The method `StandardDamageFormula::calculate`: the result and the number of
draws made after the call, `drawn` draws having been made before it. -/
def calculate (rng : DrawSource) (drawn : Nat) (attacker defender : Actor)
    (isPhysical : Bool) (bonusDamage : Int) : DamageResult × Nat :=
  let attackerStats := attacker.derivedStats
  let defenderStats := defender.derivedStats
  if rollDodge (rng drawn) defenderStats.dodgeChance then
    ({ isPhysical := isPhysical, isDodged := true }, drawn + 1)
  else
    let attack := if isPhysical then attackerStats.physicalAttack
      else attackerStats.magicalAttack
    let defense := if isPhysical then defenderStats.physicalDefense
      else defenderStats.magicalDefense
    let rawDamage := add32 attack bonusDamage
    let isCritical := rollCritical (rng (drawn + 1)) attackerStats.criticalChance
    let rawDamage := if isCritical then
        f32ToI32 (f32Mul (i32ToF32 rawDamage) attackerStats.criticalMultiplier)
      else rawDamage
    ({ rawDamage := rawDamage
       finalDamage := max 1 (reducedDamage rawDamage defense)
       isCritical := isCritical
       isPhysical := isPhysical }, drawn + 2)

end StandardDamageFormula

namespace DamageCalculator

/-- The method `DamageCalculator::calculateBasicAttack` with the standard formula. -/
def calculateBasicAttack (rng : DrawSource) (drawn : Nat) (attacker defender : Actor)
    (isPhysical : Bool) : DamageResult × Nat :=
  StandardDamageFormula.calculate rng drawn attacker defender isPhysical 0

/-- The method `DamageCalculator::calculateSkillDamage` with the standard formula. -/
def calculateSkillDamage (rng : DrawSource) (drawn : Nat) (attacker defender : Actor)
    (skillBaseDamage : Int) (isPhysical : Bool) : DamageResult × Nat :=
  StandardDamageFormula.calculate rng drawn attacker defender isPhysical skillBaseDamage

end DamageCalculator

/-! ## Combat (`CombatAction.hpp`, `CombatSystem.hpp`, `CombatSystem.cpp`) -/

/-- The variant `CombatAction`. -/
inductive CombatAction
  | basicAttack (attacker target : Nat) (isPhysical : Bool)
  | skillAttack (caster target skill : Nat)
  | areaSkill (caster : Nat) (centerX centerY radius : Float32) (skill : Nat)
  | selfSkill (caster skill : Nat)
  deriving DecidableEq, Repr

/-- The state `CombatSystem` works on: the actor registry, the events handed to
`events_.publish` so far (oldest first) and the number of random draws the damage
formula has made. -/
structure CombatSystem where
  actors : ActorManager := {}
  published : List GameEvent := []
  drawn : Nat := 0

namespace CombatSystem

/-- The method `CombatSystem::validateAttacker`. -/
def validateAttacker (s : CombatSystem) (id : Nat) : Bool :=
  match s.actors.getActor id with
  | some actor => actor.isAlive
  | none => false

/-- The method `CombatSystem::validateTarget`. -/
def validateTarget (s : CombatSystem) (id : Nat) : Bool :=
  match s.actors.getActor id with
  | some actor => actor.isAlive
  | none => false

/-- The method `CombatSystem::canPerformAction`. -/
def canPerformAction (s : CombatSystem) : CombatAction → Bool
  | .basicAttack attacker target _ => s.validateAttacker attacker && s.validateTarget target
  | .skillAttack caster target _ => s.validateAttacker caster && s.validateTarget target
  | .areaSkill caster _ _ _ _ => s.validateAttacker caster
  | .selfSkill caster _ => s.validateAttacker caster

/-- The call `events_.publish(event)`. -/
def publish (s : CombatSystem) (event : GameEvent) : CombatSystem :=
  { s with published := s.published ++ [event] }

/-- The method `CombatSystem::handleBasicAttack`. -/
def handleBasicAttack (rng : DrawSource) (s : CombatSystem) (attacker target : Nat)
    (isPhysical : Bool) : DamageResult × CombatSystem :=
  match s.actors.getActor attacker, s.actors.getActor target with
  | some a, some t =>
    let result := DamageCalculator.calculateBasicAttack rng s.drawn a t isPhysical
    let s1 : CombatSystem := { s with drawn := result.2 }
    if result.1.isDodged then (result.1, s1)
    else
      let hit := (t.takeDamage result.1.finalDamage).2
      let s2 : CombatSystem := { s1 with actors := s1.actors.setActor target hit }
      let s3 := s2.publish
        (.damage attacker target result.1.finalDamage result.1.isCritical result.1.isPhysical)
      if hit.isAlive then (result.1, s3) else (result.1, s3.publish (.death target attacker))
  | _, _ => ({}, s)

/-- The method `CombatSystem::handleSkillAttack`. -/
def handleSkillAttack (rng : DrawSource) (s : CombatSystem) (caster target skill : Nat) :
    CombatSystem :=
  match s.actors.getActor caster, s.actors.getActor target with
  | some c, some t =>
    let skillBonus : Int := 20
    let result := DamageCalculator.calculateSkillDamage rng s.drawn c t skillBonus true
    let s1 : CombatSystem := { s with drawn := result.2 }
    if result.1.isDodged then s1
    else
      let hit := (t.takeDamage result.1.finalDamage).2
      let s2 : CombatSystem := { s1 with actors := s1.actors.setActor target hit }
      let s3 := s2.publish (.skillUsed caster skill target)
      let s4 := s3.publish
        (.damage caster target result.1.finalDamage result.1.isCritical result.1.isPhysical)
      if hit.isAlive then s4 else s4.publish (.death target caster)
  | _, _ => s

/-- The method `CombatSystem::handleAreaSkill`; the target is `INVALID_ACTOR_ID`. -/
def handleAreaSkill (s : CombatSystem) (caster skill : Nat) : CombatSystem :=
  s.publish (.skillUsed caster skill 0)

/-- The method `CombatSystem::handleSelfSkill`. -/
def handleSelfSkill (s : CombatSystem) (caster skill : Nat) : CombatSystem :=
  match s.actors.getActor caster with
  | some _ => s.publish (.skillUsed caster skill caster)
  | none => s

/-- The method `CombatSystem::processAction`. -/
def processAction (rng : DrawSource) (s : CombatSystem) (action : CombatAction) :
    CombatSystem :=
  if s.canPerformAction action = false then s
  else
    match action with
    | .basicAttack attacker target isPhysical =>
      (s.handleBasicAttack rng attacker target isPhysical).2
    | .skillAttack caster target skill => s.handleSkillAttack rng caster target skill
    | .areaSkill caster _ _ _ skill => s.handleAreaSkill caster skill
    | .selfSkill caster skill => s.handleSelfSkill caster skill

end CombatSystem

/-! ## Combat scenarios -/

/-- Every draw is 0.99: above every dodge chance (at most 0.5) and every critical
chance (at most 0.75). -/
def highDraws : DrawSource := fun _ => f32Lit 99 100

/-- Every draw is 0: below every positive dodge and critical chance. -/
def zeroDraws : DrawSource := fun _ => 0

/-- The fixture of `test_combat.cpp`: two new actors, "Attacker" (ID 1) and
"Defender" (ID 2). -/
def duel : CombatSystem :=
  { actors := ((({} : ActorManager).createActor "Attacker").2.createActor "Defender").2 }

/-- The scene of the test `DeathEventOnKill`: the attacker's strength set to 100
and the defender taken down to 1 HP. -/
def duelToTheDeath : CombatSystem :=
  { actors := (duel.actors.setActor 1 ((Actor.mk0 1 "Attacker").setPrimaryStat "strength" 100)).setActor
      2 ((Actor.mk0 2 "Defender").takeDamage 204).2 }

/-- The scene of the test `CannotAttackDeadTarget`: the defender killed by
`takeDamage(9999)`. -/
def duelDeadDefender : CombatSystem :=
  { actors := duel.actors.setActor 2 ((Actor.mk0 2 "Defender").takeDamage 9999).2 }

/-- The first draw is 0.99 and every later draw is 0: no dodge, then a critical
hit. -/
def critDraws : DrawSource := fun k => if k = 0 then f32Lit 99 100 else 0

/-! ## More combat scenarios -/

/-- The scene of the test `DeadAttackerCannotAttack`: the attacker killed by
`takeDamage(9999)`. -/
def duelDeadAttacker : CombatSystem :=
  { actors := duel.actors.setActor 1 ((Actor.mk0 1 "Attacker").takeDamage 9999).2 }

/-- The scene of the test `DamageCalculatorMinimumDamage` with a negative attack:
an attacker of strength -50 (physical attack -100) and a defender of vitality
100. -/
def weakAttacker : Actor := (Actor.mk0 1 "Attacker").setPrimaryStat "strength" (-50)

/-- The defender of the test `DamageCalculatorMinimumDamage`: vitality 100. -/
def toughDefender : Actor := (Actor.mk0 2 "Defender").setPrimaryStat "vitality" 100

/-- The method `Character::getSkillCooldown`: the remaining cooldown in seconds,
`static_cast<float>(expiry - lastUpdateTick_) / 1000.0f`, and 0 when the map has
no entry or the entry has expired. -/
def Character.getSkillCooldown (c : Character) (skillId : Nat) : Float32 :=
  match c.skillCooldowns skillId with
  | none => 0
  | some expiry =>
    if expiry ≤ c.lastUpdateTick then 0
    else f32Div (i32ToF32 ((expiry - c.lastUpdateTick : Nat) : Int)) (f32Lit 1000 1)

/-- A fresh character on the test tree that has learned Slash (ID 1). -/
def slashUser : Character :=
  (((Character.mk0 1 "Hero").setSkillTree testSkillTree).learnSkill
    SkillDatabase.loadDefaultSkills 1).2

/-! ## Registry calls (`ActorManager.cpp`) -/

/-- The method `ActorManager::removeActor`: the flag `actors_.erase(id) > 0` and the
registry afterwards. -/
def ActorManager.removeActor (m : ActorManager) (id : Nat) : Bool × ActorManager :=
  ((m.actors id).isSome, { m with actors := fun j => if j = id then none else m.actors j })

/-- The method `ActorManager::clear`, which leaves `nextActorId_` as it is. -/
def ActorManager.clear (m : ActorManager) : ActorManager :=
  { m with actors := fun _ => none }

/-- The calls on a registry that add or remove actors. -/
inductive ManagerOp
  | createActor (name : String)
  | removeActor (id : Nat)
  | clear
  deriving DecidableEq, Repr

/-- The registry after one call. -/
def ActorManager.applyOp (m : ActorManager) : ManagerOp → ActorManager
  | .createActor name => (m.createActor name).2
  | .removeActor id => (m.removeActor id).2
  | .clear => m.clear

/-- The registry after a sequence of calls. -/
def ActorManager.run (m : ActorManager) (ops : List ManagerOp) : ActorManager :=
  ops.foldl ActorManager.applyOp m

/-- The IDs that the `createActor` calls of a sequence return, in call order. -/
def ActorManager.assignedIds : ActorManager → List ManagerOp → List Nat
  | _, [] => []
  | m, .createActor name :: ops =>
    (m.createActor name).1 :: ActorManager.assignedIds (m.createActor name).2 ops
  | m, .removeActor id :: ops => ActorManager.assignedIds (m.removeActor id).2 ops
  | m, .clear :: ops => ActorManager.assignedIds m.clear ops

/-- The number of `createActor` calls in a sequence. -/
def ManagerOp.creations : List ManagerOp → Nat
  | [] => 0
  | .createActor _ :: ops => ManagerOp.creations ops + 1
  | _ :: ops => ManagerOp.creations ops

/-! ## Connections (`Connection.hpp`, `Connection.cpp`) -/

/-- The message `proto::Packet` as the sources use it: a type tag and a payload of
bytes. -/
structure Packet where
  type : Nat
  payload : List Nat
  deriving DecidableEq, Repr

/-- The generated protobuf code of `Packet`, which is not among the sources:
`SerializeAsString` and `ParseFromArray` (`none` when it returns false).  Bytes
are numbers below 256. -/
structure PacketCodec where
  serialize : Packet → List Nat
  parse : List Nat → Option Packet

/-- The constant `Connection::MAX_PACKET_SIZE`, 1 MiB. -/
def MAX_PACKET_SIZE : Nat := 1048576

/-- The `uint32_t` that `boost::endian::big_to_native` gives for four bytes in
network order. -/
def bigEndian32 (b0 b1 b2 b3 : Nat) : Nat := ((b0 * 256 + b1) * 256 + b2) * 256 + b3

/-- The four bytes that `boost::endian::native_to_big` gives for a `uint32_t`. -/
def lengthPrefix (n : Nat) : List Nat :=
  [n / 16777216 % 256, n / 65536 % 256, n / 256 % 256, n % 256]

/-- The data members of `Connection` that the packet code reads and writes. -/
structure Connection where
  id : Nat
  actorId : Nat := 0
  disconnected : Bool := false
  recvBuffer : List Nat := []
  deriving DecidableEq, Repr

namespace Connection

/-- The successful branch of `Connection::readFromSocket`: the received bytes are
appended to the receive buffer. -/
def receive (c : Connection) (bytes : List Nat) : Connection :=
  { c with recvBuffer := c.recvBuffer ++ bytes }

/-- The loop of `Connection::getCompletePackets` for at most `fuel` passes, on the
receive buffer, the packets collected so far and the flag `disconnected_`. -/
def parseLoop (codec : PacketCodec) :
    Nat → List Nat → List Packet → Bool → List Packet × List Nat × Bool
  | 0, buffer, packets, disconnected => (packets, buffer, disconnected)
  | fuel + 1, b0 :: b1 :: b2 :: b3 :: rest, packets, disconnected =>
    let packetLen := bigEndian32 b0 b1 b2 b3
    if MAX_PACKET_SIZE < packetLen then (packets, b0 :: b1 :: b2 :: b3 :: rest, true)
    else if rest.length < packetLen then
      (packets, b0 :: b1 :: b2 :: b3 :: rest, disconnected)
    else
      parseLoop codec fuel (rest.drop packetLen)
        (match codec.parse (rest.take packetLen) with
          | some packet => packets ++ [packet]
          | none => packets)
        disconnected
  | _ + 1, buffer, packets, disconnected => (packets, buffer, disconnected)

/-- The method `Connection::getCompletePackets`: the returned packets and the
connection afterwards.  Every pass of the loop but the last removes at least four
bytes, so a pass for each byte of the buffer lets the loop run to its end. -/
def getCompletePackets (codec : PacketCodec) (c : Connection) : List Packet × Connection :=
  let r := parseLoop codec c.recvBuffer.length c.recvBuffer [] c.disconnected
  (r.1, { c with recvBuffer := r.2.1, disconnected := r.2.2 })

/-- The bytes that `Connection::sendRawPacket` writes to the socket: the payload
length as `uint32_t` in network order, then the serialized packet. -/
def frame (codec : PacketCodec) (packet : Packet) : List Nat :=
  lengthPrefix ((codec.serialize packet).length % 4294967296) ++ codec.serialize packet

/-- The bytes of a sequence of frames. -/
def frames (codec : PacketCodec) (packets : List Packet) : List Nat :=
  (packets.map (frame codec)).flatten

/-- The packets returned by `getCompletePackets` when it is called after each of
the given reads, and the connection after the last. -/
def feed (codec : PacketCodec) : Connection → List (List Nat) → List Packet × Connection
  | c, [] => ([], c)
  | c, chunk :: chunks =>
    let r := getCompletePackets codec (c.receive chunk)
    ((r.1 ++ (feed codec r.2 chunks).1), (feed codec r.2 chunks).2)

end Connection

/-- A stand-in for the generated protobuf code in examples: a packet is written
as its type byte followed by its payload, and an array is parsed back unless it
is empty or starts with the byte 255. -/
def byteCodec : PacketCodec :=
  { serialize := fun p => p.type % 255 :: p.payload
    parse := fun bytes =>
      match bytes with
      | [] => none
      | t :: payload => if t = 255 then none else some { type := t, payload := payload } }

/-- A packet that `sendRawPacket` frames within the size limit and that the parser
reads back from its serialized form. -/
def PacketCodec.Sendable (codec : PacketCodec) (packet : Packet) : Prop :=
  (codec.serialize packet).length ≤ MAX_PACKET_SIZE ∧
  codec.parse (codec.serialize packet) = some packet

/-- The list `xs` is a prefix of `ys` and shorter than it. -/
def StrictPrefix (xs ys : List Nat) : Prop := ∃ t, t ≠ [] ∧ xs ++ t = ys

instance (codec : PacketCodec) (packet : Packet) : Decidable (codec.Sendable packet) := by
  unfold PacketCodec.Sendable; infer_instance

end Mmorpg

set_option maxRecDepth 8000

namespace Mmorpg

open StatCalculator Actor

/-! ## Machine-integer lemmas -/

theorem wrap32_of_inI32 {x : Int} (h : InI32 x) : wrap32 x = x := by
  unfold InI32 at h
  unfold wrap32
  omega

theorem inI32_wrap32 (x : Int) : InI32 (wrap32 x) := by
  unfold InI32 wrap32
  omega

theorem wrap32_le_max (x : Int) : wrap32 x ≤ 2147483647 := (inI32_wrap32 x).2

theorem wrap64_of_range {x : Int} (h1 : -9223372036854775808 ≤ x)
    (h2 : x ≤ 9223372036854775807) : wrap64 x = x := by
  unfold wrap64
  omega

theorem tdiv_two_cases (a : Int) :
    (0 ≤ a ∧ Int.tdiv a 2 = a / 2) ∨ (a < 0 ∧ Int.tdiv a 2 = -((-a) / 2)) := by
  rcases le_or_lt 0 a with h | h
  · exact Or.inl ⟨h, Int.tdiv_eq_ediv h (by decide)⟩
  · refine Or.inr ⟨h, ?_⟩
    have h1 : Int.tdiv (-(-a)) 2 = -(Int.tdiv (-a) 2) := Int.neg_tdiv (-a) 2
    rw [neg_neg] at h1
    rw [h1, Int.tdiv_eq_ediv (by omega) (by decide)]

theorem inI32_tdiv_two {a : Int} (h : InI32 a) : InI32 (Int.tdiv a 2) := by
  unfold InI32 at *
  rcases tdiv_two_cases a with ⟨h0, e⟩ | ⟨h0, e⟩ <;> rw [e] <;> omega

/-! ## Stat calculator -/

theorem f32Min_le_right (x y : Float32) : f32Min x y ≤ y := by
  unfold f32Min
  split_ifs with h
  · exact le_refl y
  · exact not_lt.mp h

theorem f32ToRat_mono {x y : Float32} (h : x ≤ y) : f32ToRat x ≤ f32ToRat y := by
  unfold f32ToRat
  have hxy : (x : ℚ) ≤ (y : ℚ) := by exact_mod_cast h
  exact div_le_div_of_nonneg_right hxy (by positivity)

theorem f32Lit_three_quarters : f32ToRat (f32Lit 75 100) = 3 / 4 := by
  have h : f32Lit 75 100 = 3 * 2 ^ 147 := by decide
  rw [h, f32ToRat]
  norm_num

theorem f32Lit_half : f32ToRat (f32Lit 50 100) = 1 / 2 := by
  have h : f32Lit 50 100 = 2 ^ 148 := by decide
  rw [h, f32ToRat]
  norm_num

/-- C1: for all primary stats and every level at least 1 for which no formula
overflows `int32_t`, `calculate` returns exactly the six integer formulas (with
division truncating toward zero), and its critical chance is at most 0.75 and
its dodge chance at most 0.50. -/
theorem calculate_formulas (p : PrimaryStats) (level : Int) (_hl : 1 ≤ level)
    (hfit : CalcFits p level) :
    (calculate p level).maxHp = 100 + p.vitality * 10 + level * 5 ∧
    (calculate p level).maxMp = 50 + p.intelligence * 5 + p.wisdom * 3 + level * 2 ∧
    (calculate p level).physicalAttack = p.strength * 2 + Int.tdiv level 2 ∧
    (calculate p level).magicalAttack = p.intelligence * 2 + Int.tdiv level 2 ∧
    (calculate p level).physicalDefense = p.vitality + Int.tdiv p.strength 2 ∧
    (calculate p level).magicalDefense = p.wisdom + Int.tdiv p.intelligence 2 ∧
    f32ToRat (calculate p level).criticalChance ≤ 3 / 4 ∧
    f32ToRat (calculate p level).dodgeChance ≤ 1 / 2 := by
  obtain ⟨hlv, hs, hi, h1, h2, h3, h4, h5, h6⟩ := hfit
  have dl := wrap32_of_inI32 (inI32_tdiv_two hlv)
  have ds := wrap32_of_inI32 (inI32_tdiv_two hs)
  have di := wrap32_of_inI32 (inI32_tdiv_two hi)
  unfold InI32 at h1 h2 h3 h4 h5 h6
  refine ⟨?_, ?_, ?_, ?_, ?_, ?_, ?_, ?_⟩
  · simp only [calculate, add32, mul32, wrap32]; omega
  · simp only [calculate, add32, mul32, wrap32]; omega
  · simp only [calculate, add32, mul32, div32]; rw [dl]
    generalize Int.tdiv level 2 = t at *
    unfold wrap32; omega
  · simp only [calculate, add32, mul32, div32]; rw [dl]
    generalize Int.tdiv level 2 = t at *
    unfold wrap32; omega
  · simp only [calculate, add32, mul32, div32]; rw [ds]
    generalize Int.tdiv p.strength 2 = t at *
    unfold wrap32; omega
  · simp only [calculate, add32, mul32, div32]; rw [di]
    generalize Int.tdiv p.intelligence 2 = t at *
    unfold wrap32; omega
  · rw [← f32Lit_three_quarters]
    exact f32ToRat_mono (f32Min_le_right _ _)
  · rw [← f32Lit_half]
    exact f32ToRat_mono (f32Min_le_right _ _)

/-- Witness for C1: the default stats at level 1. -/
theorem calculate_formulas_witness :
    (calculate {} 1).maxHp = 205 ∧ (calculate {} 1).maxMp = 132 ∧
    f32ToRat (calculate {} 1).criticalChance ≤ 3 / 4 := by
  have h := calculate_formulas {} 1 (by decide) (by decide)
  exact ⟨by decide, by decide, h.2.2.2.2.2.2.1⟩

/-- C2: at level 4635 the `int32_t` product `100 * level * level` has left the
`int32_t` range before it is widened, so `experienceForLevel` returns
-2146644796 and not `100 * 4635^2 = 2148322500`. -/
theorem experienceForLevel_4635 :
    experienceForLevel 4635 = -2146644796 ∧
    experienceForLevel 4635 ≠ 100 * 4635 ^ 2 ∧
    InI32 4635 ∧ (1 : Int) ≤ 4635 := by
  decide

/-! ## Derived-stat consistency -/

theorem consistent_recalculate (a : Actor) : Consistent (recalculateDerivedStats a) := by
  unfold Consistent recalculateDerivedStats
  rfl

theorem consistent_withHp {a : Actor} (h : Consistent a) (hp : Int) :
    Consistent (a.withHp hp) := h

theorem consistent_withMp {a : Actor} (h : Consistent a) (mp : Int) :
    Consistent (a.withMp mp) := h

theorem consistent_levelUpOnce (a : Actor) : Consistent (levelUpOnce a) := by
  unfold Consistent levelUpOnce onLevelUp recalculateDerivedStats
  rfl

theorem consistent_checkLevelUpIter (n : Nat) :
    ∀ a : Actor, Consistent a → Consistent (checkLevelUpIter n a) := by
  induction n with
  | zero => intro a h; exact h
  | succ n ih =>
    intro a h
    unfold checkLevelUpIter
    split_ifs
    · exact ih _ (consistent_levelUpOnce a)
    · exact h

theorem checkLevelUp_eq_some {fuel : Nat} {a b : Actor} (h : checkLevelUp fuel a = some b) :
    b = checkLevelUpIter fuel a ∧ levelUpDue b = false := by
  unfold checkLevelUp at h
  simp only at h
  split_ifs at h with hd
  have hb : checkLevelUpIter fuel a = b := Option.some.inj h
  subst hb
  exact ⟨rfl, by simpa using hd⟩

theorem gainExperience_eq_some {fuel : Nat} {a b : Actor} {exp : Int}
    (h : gainExperience fuel a exp = some b) : b = gainExperienceIter fuel a exp := by
  unfold gainExperience at h
  unfold gainExperienceIter
  split_ifs at h ⊢ with he
  · exact (Option.some.inj h).symm
  · exact (checkLevelUp_eq_some h).1

/-- C3: derived-stat consistency holds right after construction and is kept by
every public operation: `setPrimaryStat`, `modifyPrimaryStat`, `takeDamage`,
`heal`, `useMana`, `restoreMana`, `gainExperience` (in every state its level-up
loop passes through, and in the state it returns) and `update`. -/
theorem derived_stats_consistent (a : Actor) (h : Consistent a) :
    (∀ id name, Consistent (mk0 id name)) ∧
    (∀ stat value, Consistent (a.setPrimaryStat stat value)) ∧
    (∀ stat delta, Consistent (a.modifyPrimaryStat stat delta)) ∧
    (∀ amount, Consistent (a.takeDamage amount).2) ∧
    (∀ amount, Consistent (a.heal amount).2) ∧
    (∀ amount, Consistent (a.useMana amount).2) ∧
    (∀ amount, Consistent (a.restoreMana amount).2) ∧
    (∀ n exp, Consistent (a.gainExperienceIter n exp)) ∧
    (∀ fuel exp b, a.gainExperience fuel exp = some b → Consistent b) ∧
    (∀ tick, Consistent (a.update tick)) := by
  have hiter : ∀ n exp, Consistent (a.gainExperienceIter n exp) := by
    intro n exp
    unfold gainExperienceIter
    split_ifs
    · exact h
    · exact consistent_checkLevelUpIter n _ h
  refine ⟨?_, ?_, ?_, ?_, ?_, ?_, ?_, hiter, ?_, ?_⟩
  · intro id name
    unfold Consistent mk0 recalculateDerivedStats
    rfl
  · intro stat value
    exact consistent_recalculate _
  · intro stat delta
    exact consistent_recalculate _
  · intro amount
    unfold takeDamage
    simp only
    split_ifs
    · exact h
    · exact consistent_withHp h _
    · exact consistent_withHp h _
  · intro amount
    unfold heal
    simp only
    split_ifs
    · exact h
    · exact consistent_withHp h _
  · intro amount
    unfold useMana
    split_ifs
    · exact h
    · exact h
    · exact consistent_withMp h _
  · intro amount
    unfold restoreMana
    simp only
    split_ifs
    · exact h
    · exact consistent_withMp h _
  · intro fuel exp b hb
    rw [gainExperience_eq_some hb]
    exact hiter fuel exp
  · intro tick
    exact h

/-- Witness for C3: a freshly constructed actor. -/
theorem derived_stats_consistent_witness :
    Consistent (mk0 1 "hero") ∧
    Consistent ((mk0 1 "hero").takeDamage 50).2 ∧
    (∀ n exp, Consistent ((mk0 1 "hero").gainExperienceIter n exp)) :=
  have hc : Consistent (mk0 1 "hero") := by decide
  ⟨hc, (derived_stats_consistent (mk0 1 "hero") hc).2.2.2.1 50,
    (derived_stats_consistent (mk0 1 "hero") hc).2.2.2.2.2.2.2.1⟩

/-! ## Damage and healing -/

theorem isAlive_iff (a : Actor) : a.isAlive = true ↔ 0 < a.runtimeStats.currentHp := by
  simp only [isAlive, decide_eq_true_eq]

theorem takeDamage_noop {a : Actor} {amount : Int} (h : amount ≤ 0 ∨ a.isAlive = false) :
    a.takeDamage amount = (0, a) := by
  unfold takeDamage
  rw [if_pos h]

theorem takeDamage_hit {a : Actor} {amount : Int} (hhp : InI32 a.runtimeStats.currentHp)
    (hpos : 0 < amount) (halive : a.isAlive = true) :
    a.takeDamage amount = (min amount a.runtimeStats.currentHp,
      a.withHp (a.runtimeStats.currentHp - min amount a.runtimeStats.currentHp)) := by
  unfold InI32 at hhp
  have hcur : 0 < a.runtimeStats.currentHp := (isAlive_iff a).1 halive
  have hnot : ¬(amount ≤ 0 ∨ a.isAlive = false) := by
    rw [halive]
    simp only [Bool.true_eq_false, or_false, not_le]
    exact hpos
  have hsub : sub32 a.runtimeStats.currentHp (min amount a.runtimeStats.currentHp) =
      a.runtimeStats.currentHp - min amount a.runtimeStats.currentHp := by
    unfold sub32 wrap32
    omega
  unfold takeDamage
  rw [if_neg hnot]
  simp only [hsub]
  by_cases hle : a.runtimeStats.currentHp - min amount a.runtimeStats.currentHp ≤ 0
  · rw [if_pos hle]
    have hz : a.runtimeStats.currentHp - min amount a.runtimeStats.currentHp = 0 := by omega
    rw [hz]
  · rw [if_neg hle]

theorem heal_noop {a : Actor} {amount : Int} (h : amount ≤ 0 ∨ a.isAlive = false) :
    a.heal amount = (0, a) := by
  unfold heal
  rw [if_pos h]

theorem heal_gain {a : Actor} {amount : Int} (hhp : InI32 a.runtimeStats.currentHp)
    (hmax : InI32 a.derivedStats.maxHp)
    (hmiss : InI32 (a.derivedStats.maxHp - a.runtimeStats.currentHp))
    (hpos : 0 < amount) (halive : a.isAlive = true) :
    a.heal amount = (min amount (a.derivedStats.maxHp - a.runtimeStats.currentHp),
      a.withHp (a.runtimeStats.currentHp +
        min amount (a.derivedStats.maxHp - a.runtimeStats.currentHp))) := by
  unfold InI32 at hhp hmax hmiss
  have hcur : 0 < a.runtimeStats.currentHp := (isAlive_iff a).1 halive
  have hnot : ¬(amount ≤ 0 ∨ a.isAlive = false) := by
    rw [halive]
    simp only [Bool.true_eq_false, or_false, not_le]
    exact hpos
  have hsub : sub32 a.derivedStats.maxHp a.runtimeStats.currentHp =
      a.derivedStats.maxHp - a.runtimeStats.currentHp := by
    unfold sub32 wrap32
    omega
  have hadd : add32 a.runtimeStats.currentHp
        (min amount (a.derivedStats.maxHp - a.runtimeStats.currentHp)) =
      a.runtimeStats.currentHp +
        min amount (a.derivedStats.maxHp - a.runtimeStats.currentHp) := by
    unfold add32 wrap32
    omega
  unfold heal
  rw [if_neg hnot]
  simp only [hsub, hadd]

theorem noop_or_active (a : Actor) (amount : Int) :
    (amount ≤ 0 ∨ a.isAlive = false) ∨ (0 < amount ∧ a.isAlive = true) := by
  by_cases hp : 0 < amount
  · cases hal : a.isAlive
    · exact Or.inl (Or.inr rfl)
    · exact Or.inr ⟨hp, rfl⟩
  · exact Or.inl (Or.inl (by omega))

/-- C6: `takeDamage` returns 0 and changes nothing when the amount is not
positive or the actor is dead; otherwise it returns `min amount currentHp`,
lowers the current HP by exactly that much and leaves everything else as it
was, and the actor is dead afterwards exactly when the amount reached the
previous HP.  The HP never becomes negative and the MP is never touched.
(`currentHp` holds an `int32_t` value.) -/
theorem takeDamage_spec (a : Actor) (amount : Int) (hhp : InI32 a.runtimeStats.currentHp) :
    ((amount ≤ 0 ∨ a.isAlive = false) → a.takeDamage amount = (0, a)) ∧
    ((0 < amount ∧ a.isAlive = true) →
      (a.takeDamage amount).1 = min amount a.runtimeStats.currentHp ∧
      (a.takeDamage amount).2 =
        a.withHp (a.runtimeStats.currentHp - min amount a.runtimeStats.currentHp) ∧
      (a.takeDamage amount).2.runtimeStats.currentHp =
        a.runtimeStats.currentHp - (a.takeDamage amount).1 ∧
      ((a.takeDamage amount).2.isAlive = false ↔ a.runtimeStats.currentHp ≤ amount)) ∧
    (0 ≤ a.runtimeStats.currentHp → 0 ≤ (a.takeDamage amount).2.runtimeStats.currentHp) ∧
    (a.takeDamage amount).2.runtimeStats.currentMp = a.runtimeStats.currentMp := by
  refine ⟨takeDamage_noop, ?_, ?_, ?_⟩
  · rintro ⟨hpos, halive⟩
    rw [takeDamage_hit hhp hpos halive]
    refine ⟨rfl, rfl, rfl, ?_⟩
    simp only [withHp, isAlive, decide_eq_false_iff_not]
    omega
  · intro h0
    rcases noop_or_active a amount with h | ⟨hpos, halive⟩
    · rw [takeDamage_noop h]
      exact h0
    · rw [takeDamage_hit hhp hpos halive]
      simp only [withHp]
      omega
  · rcases noop_or_active a amount with h | ⟨hpos, halive⟩
    · rw [takeDamage_noop h]
    · rw [takeDamage_hit hhp hpos halive]
      rfl

/-- Witness for C6: a fresh actor (205 HP) hit for 50. -/
theorem takeDamage_spec_witness :
    ((mk0 1 "hero").takeDamage 50).1 = 50 ∧
    ((mk0 1 "hero").takeDamage 50).2.runtimeStats.currentHp = 155 ∧
    ((mk0 1 "hero").takeDamage 50).2.runtimeStats.currentMp = 132 := by
  have h := takeDamage_spec (mk0 1 "hero") 50 (by decide)
  have h2 := h.2.1 ⟨by decide, by decide⟩
  refine ⟨?_, ?_, ?_⟩
  · rw [h2.1]; decide
  · rw [h2.2.2.1, h2.1]; decide
  · rw [h.2.2.2]; decide

/-- C7: `heal` returns 0 and changes nothing when the amount is not positive or
the actor is dead; otherwise it returns `min amount (maxHp - currentHp)` and
raises the current HP by exactly that much, leaving everything else as it was.
The HP never ends above `maxHp`, and a dead actor stays dead.  (`currentHp`,
`maxHp` and their difference hold `int32_t` values.) -/
theorem heal_spec (a : Actor) (amount : Int) (hhp : InI32 a.runtimeStats.currentHp)
    (hmax : InI32 a.derivedStats.maxHp)
    (hmiss : InI32 (a.derivedStats.maxHp - a.runtimeStats.currentHp)) :
    ((amount ≤ 0 ∨ a.isAlive = false) → a.heal amount = (0, a)) ∧
    ((0 < amount ∧ a.isAlive = true) →
      (a.heal amount).1 = min amount (a.derivedStats.maxHp - a.runtimeStats.currentHp) ∧
      (a.heal amount).2 = a.withHp (a.runtimeStats.currentHp +
        min amount (a.derivedStats.maxHp - a.runtimeStats.currentHp)) ∧
      (a.heal amount).2.runtimeStats.currentHp =
        a.runtimeStats.currentHp + (a.heal amount).1 ∧
      (a.heal amount).2.runtimeStats.currentHp ≤ (a.heal amount).2.derivedStats.maxHp) ∧
    (a.runtimeStats.currentHp ≤ a.derivedStats.maxHp →
      (a.heal amount).2.runtimeStats.currentHp ≤ (a.heal amount).2.derivedStats.maxHp) ∧
    (a.isAlive = false → (a.heal amount).2.isAlive = false) := by
  refine ⟨heal_noop, ?_, ?_, ?_⟩
  · rintro ⟨hpos, halive⟩
    rw [heal_gain hhp hmax hmiss hpos halive]
    refine ⟨rfl, rfl, rfl, ?_⟩
    simp only [withHp]
    omega
  · intro hle
    rcases noop_or_active a amount with h | ⟨hpos, halive⟩
    · rw [heal_noop h]
      exact hle
    · rw [heal_gain hhp hmax hmiss hpos halive]
      simp only [withHp]
      omega
  · intro hdead
    rw [heal_noop (Or.inr hdead)]
    exact hdead

/-- Witness for C7: a fresh actor hit for 10 and then healed by 100 gains 10. -/
theorem heal_spec_witness :
    (((mk0 1 "hero").takeDamage 10).2.heal 100).1 = 10 ∧
    (((mk0 1 "hero").takeDamage 10).2.heal 100).2.runtimeStats.currentHp = 205 := by
  have h := heal_spec ((mk0 1 "hero").takeDamage 10).2 100 (by decide) (by decide)
    (by decide)
  have h2 := h.2.1 ⟨by decide, by decide⟩
  refine ⟨?_, ?_⟩
  · rw [h2.1]; decide
  · rw [h2.2.2.1, h2.1]; decide

/-- C8: from full HP (`currentHp = maxHp > 0`), after `takeDamage a` followed by
`heal a` the HP is `maxHp` again exactly when the two calls returned the same
value; for `0 < a < maxHp` both return `a` and the actor is back in its
starting state, and for `a ≥ maxHp` the actor stays at 0 HP. -/
theorem damage_then_heal (a : Actor) (amount : Int)
    (hfull : a.runtimeStats.currentHp = a.derivedStats.maxHp)
    (hpos : 0 < a.derivedStats.maxHp) (hmax : InI32 a.derivedStats.maxHp) :
    (((a.takeDamage amount).2.heal amount).2.runtimeStats.currentHp = a.derivedStats.maxHp ↔
      (a.takeDamage amount).1 = ((a.takeDamage amount).2.heal amount).1) ∧
    ((0 < amount ∧ amount < a.derivedStats.maxHp) →
      (a.takeDamage amount).1 = amount ∧
      ((a.takeDamage amount).2.heal amount).1 = amount ∧
      ((a.takeDamage amount).2.heal amount).2 = a) ∧
    (a.derivedStats.maxHp ≤ amount →
      ((a.takeDamage amount).2.heal amount).2.runtimeStats.currentHp = 0) := by
  have hhp : InI32 a.runtimeStats.currentHp := by rw [hfull]; exact hmax
  unfold InI32 at hmax
  by_cases hp : 0 < amount
  · have halive : a.isAlive = true := (isAlive_iff a).2 (by omega)
    rw [takeDamage_hit hhp hp halive, hfull]
    by_cases hlt : amount < a.derivedStats.maxHp
    · have hmin : min amount a.derivedStats.maxHp = amount := by omega
      rw [hmin]
      have halive2 : (a.withHp (a.derivedStats.maxHp - amount)).isAlive = true :=
        (isAlive_iff _).2 (by simp only [withHp]; omega)
      have hH := @heal_gain (a.withHp (a.derivedStats.maxHp - amount)) amount
        (by simp only [withHp, InI32]; omega) (by simp only [withHp, InI32]; omega)
        (by simp only [withHp, InI32]; omega) hp halive2
      have hmiss : min amount ((a.withHp (a.derivedStats.maxHp - amount)).derivedStats.maxHp -
          (a.withHp (a.derivedStats.maxHp - amount)).runtimeStats.currentHp) = amount := by
        simp only [withHp]
        omega
      rw [hmiss] at hH
      have hback : (a.withHp (a.derivedStats.maxHp - amount)).withHp
          ((a.withHp (a.derivedStats.maxHp - amount)).runtimeStats.currentHp + amount) = a := by
        simp only [withHp]
        have e : a.derivedStats.maxHp - amount + amount = a.runtimeStats.currentHp := by omega
        rw [e]
      rw [hback] at hH
      rw [hH]
      refine ⟨⟨fun _ => rfl, fun _ => hfull⟩, fun _ => ⟨rfl, rfl, rfl⟩, fun hge => ?_⟩
      omega
    · have hmin : min amount a.derivedStats.maxHp = a.derivedStats.maxHp := by omega
      rw [hmin, sub_self]
      have hdead : (a.withHp 0).isAlive = false := by
        simp [isAlive, withHp]
      rw [heal_noop (Or.inr hdead)]
      refine ⟨?_, ?_, ?_⟩
      · simp only [withHp]
        constructor
        · intro h0; omega
        · intro h0; omega
      · intro hcon
        omega
      · intro _
        simp only [withHp]
  · rw [takeDamage_noop (Or.inl (by omega)), heal_noop (Or.inl (by omega))]
    refine ⟨⟨fun _ => rfl, fun _ => hfull⟩, fun hcon => ?_, fun hge => ?_⟩
    · omega
    · omega

/-- Witness for C8: a fresh actor (205 HP) hit for 50 and healed by 50. -/
theorem damage_then_heal_witness :
    (((mk0 1 "hero").takeDamage 50).2.heal 50).2 = mk0 1 "hero" ∧
    (((mk0 1 "hero").takeDamage 300).2.heal 300).2.runtimeStats.currentHp = 0 := by
  have h := damage_then_heal (mk0 1 "hero") 50 (by decide) (by decide) (by decide)
  have h3 := damage_then_heal (mk0 1 "hero") 300 (by decide) (by decide) (by decide)
  exact ⟨(h.2.1 ⟨by decide, by decide⟩).2.2, h3.2.2 (by decide)⟩

/-! ## Experience and level-ups -/

theorem experienceForLevel_eq {l : Int} (h0 : 0 ≤ l) (h1 : l ≤ 4634) :
    experienceForLevel l = 100 * l * l := by
  have hsq : l * l ≤ 4634 * 4634 := by nlinarith
  have hsq0 : 0 ≤ l * l := by nlinarith
  have e1 : mul32 100 l = 100 * l := by
    unfold mul32 wrap32
    omega
  unfold experienceForLevel
  rw [e1]
  have e2 : 100 * l * l = 100 * (l * l) := by ring
  rw [e2]
  generalize l * l = m at *
  unfold mul32 wrap32
  omega

theorem add32_level_succ {l : Int} (h0 : 0 ≤ l) (h1 : l ≤ 4633) : add32 l 1 = l + 1 := by
  unfold add32 wrap32
  omega

theorem levelUpDue_iff {a : Actor} (h0 : 0 ≤ a.level) (h1 : a.level ≤ 4633) :
    levelUpDue a = true ↔ 100 * (a.level + 1) * (a.level + 1) ≤ a.experience := by
  unfold levelUpDue
  rw [add32_level_succ h0 h1, experienceForLevel_eq (by omega) (by omega)]
  simp only [decide_eq_true_eq]

theorem levelUpOnce_eq (a : Actor) : levelUpOnce a = restoredAt a (add32 a.level 1) := rfl

theorem restoredAt_restoredAt (a : Actor) (l m : Int) :
    restoredAt (restoredAt a l) m = restoredAt a m := rfl

theorem checkLevelUpIter_of_not_due {a : Actor} (h : levelUpDue a = false) (n : Nat) :
    checkLevelUpIter n a = a := by
  cases n with
  | zero => rfl
  | succ n =>
    unfold checkLevelUpIter
    rw [h]
    rfl

theorem checkLevelUpIter_stable (n : Nat) :
    ∀ (a : Actor) (m : Nat), levelUpDue (checkLevelUpIter n a) = false → n ≤ m →
      checkLevelUpIter m a = checkLevelUpIter n a := by
  induction n with
  | zero =>
    intro a m h _
    exact checkLevelUpIter_of_not_due h m
  | succ n ih =>
    intro a m h hnm
    obtain ⟨k, rfl⟩ : ∃ k, m = k + 1 := ⟨m - 1, by omega⟩
    cases hd : levelUpDue a with
    | false => rw [checkLevelUpIter_of_not_due hd, checkLevelUpIter_of_not_due hd]
    | true =>
      have e1 : checkLevelUpIter (n + 1) a = checkLevelUpIter n (levelUpOnce a) := by
        rw [checkLevelUpIter, hd]; rfl
      have e2 : checkLevelUpIter (k + 1) a = checkLevelUpIter k (levelUpOnce a) := by
        rw [checkLevelUpIter, hd]; rfl
      rw [e1] at h ⊢
      rw [e2]
      exact ih _ k h (by omega)

theorem checkLevelUp_stable {n : Nat} {a b : Actor} (h : checkLevelUp n a = some b)
    {m : Nat} (hnm : n ≤ m) : checkLevelUp m a = some b := by
  obtain ⟨hb, hd⟩ := checkLevelUp_eq_some h
  have e : checkLevelUpIter m a = b := by
    rw [hb]
    exact checkLevelUpIter_stable n a m (hb ▸ hd) hnm
  unfold checkLevelUp
  simp only [e, hd]
  rfl

/-- With every threshold in the `int32_t` range, the loop of `checkLevelUp` stops
after at most `4633 - level` passes at the largest level whose threshold the
experience has reached. -/
theorem checkLevelUpIter_levels (n : Nat) :
    ∀ a : Actor, 0 ≤ a.level → a.level ≤ 4633 → a.experience < 2147395600 →
      4633 ≤ a.level + n →
      ∃ L : Int, a.level ≤ L ∧ L ≤ 4633 ∧
        checkLevelUpIter n a = (if L = a.level then a else restoredAt a L) ∧
        a.experience < 100 * (L + 1) * (L + 1) ∧
        (L = a.level ∨ 100 * L * L ≤ a.experience) := by
  induction n with
  | zero =>
    intro a h0 h1 hx hn
    have hl : a.level = 4633 := by omega
    refine ⟨a.level, le_refl _, h1, by rw [if_pos rfl]; rfl, ?_, Or.inl rfl⟩
    rw [hl]
    omega
  | succ n ih =>
    intro a h0 h1 hx hn
    cases hd : levelUpDue a with
    | false =>
      refine ⟨a.level, le_refl _, h1, ?_, ?_, Or.inl rfl⟩
      · rw [if_pos rfl]
        exact checkLevelUpIter_of_not_due hd _
      · have hnd : ¬ levelUpDue a = true := by rw [hd]; decide
        rw [levelUpDue_iff h0 h1] at hnd
        omega
    | true =>
      have hthr := (levelUpDue_iff h0 h1).1 hd
      have hlt : a.level + 1 < 4634 := by
        by_contra hcon
        have h4 : (4634 : Int) ≤ a.level + 1 := by omega
        have : (4634 : Int) * 4634 ≤ (a.level + 1) * (a.level + 1) := by nlinarith
        have e : 100 * (a.level + 1) * (a.level + 1) =
            100 * ((a.level + 1) * (a.level + 1)) := by ring
        rw [e] at hthr
        omega
      have e1 : checkLevelUpIter (n + 1) a = checkLevelUpIter n (levelUpOnce a) := by
        rw [checkLevelUpIter, hd]; rfl
      have hlev : (levelUpOnce a).level = a.level + 1 := by
        rw [levelUpOnce_eq]
        exact add32_level_succ h0 h1
      have hexp : (levelUpOnce a).experience = a.experience := rfl
      obtain ⟨L, hL1, hL2, hL3, hL4, hL5⟩ := ih (levelUpOnce a) (by rw [hlev]; omega)
        (by rw [hlev]; omega) (by rw [hexp]; exact hx) (by rw [hlev]; omega)
      rw [hlev] at hL1 hL3 hL5
      rw [hexp] at hL4 hL5
      refine ⟨L, by omega, hL2, ?_, hL4, Or.inr ?_⟩
      · have hne : L ≠ a.level := by omega
        rw [if_neg hne, e1, hL3]
        split_ifs with hLe
        · rw [hLe, levelUpOnce_eq, add32_level_succ h0 h1]
        · rw [levelUpOnce_eq, restoredAt_restoredAt]
      · rcases hL5 with hL5 | hL5
        · rw [hL5]; exact hthr
        · exact hL5

theorem gainExperience_stable {n : Nat} {a b : Actor} {e : Int}
    (h : gainExperience n a e = some b) {m : Nat} (hnm : n ≤ m) :
    gainExperience m a e = some b := by
  unfold gainExperience at h ⊢
  split_ifs at h ⊢ with he
  · exact h
  · exact checkLevelUp_stable h hnm

theorem gainExperience_fresh_100 (id : Nat) (name : String) (fuel : Nat) :
    gainExperience fuel (mk0 id name) 100 = some { mk0 id name with experience := 100 } := by
  have h : gainExperience 0 (mk0 id name) 100 =
      some { mk0 id name with experience := 100 } := rfl
  exact gainExperience_stable h (Nat.zero_le fuel)

theorem gainExperience_fresh_400 (id : Nat) (name : String) (fuel : Nat) :
    gainExperience (fuel + 1) (mk0 id name) 400 =
      some (restoredAt { mk0 id name with experience := 400 } 2) := by
  have h : gainExperience 1 (mk0 id name) 400 =
      some (restoredAt { mk0 id name with experience := 400 } 2) := rfl
  exact gainExperience_stable h (Nat.succ_le_succ (Nat.zero_le fuel))

/-- C9 as stated fails: a fresh actor that gains 100 experience is still at
level 1, because the first threshold is `experienceForLevel 2 = 400`. -/
theorem gainExperience_100_stays_level_1 :
    ∃ b, gainExperience 4633 (mk0 1 "hero") 100 = some b ∧ b.level = 1 ∧ b.level ≠ 2 ∧
      experienceForLevel 2 = 400 :=
  ⟨_, gainExperience_fresh_100 1 "hero" 4633, rfl, by decide, by decide⟩

/-- C9, amended: for a freshly created actor (level 1, experience 0, default
stats) `gainExperience 400` makes the level exactly 2, and `gainExperience 100`
leaves it at level 1. -/
theorem gainExperience_fresh_level (id : Nat) (name : String) (fuel : Nat) :
    (mk0 id name).level = 1 ∧ (mk0 id name).experience = 0 ∧
    (mk0 id name).primaryStats = {} ∧
    (gainExperience (fuel + 1) (mk0 id name) 400).map (fun b => b.level) = some 2 ∧
    (gainExperience fuel (mk0 id name) 100).map (fun b => b.level) = some 1 := by
  refine ⟨rfl, rfl, rfl, ?_, ?_⟩
  · rw [gainExperience_fresh_400]
    rfl
  · rw [gainExperience_fresh_100]
    rfl

/-- The run of `gainExperience` for a positive gain that keeps every threshold in
the `int32_t` range: it returns, at the level `L` described, either the actor
with the new experience or that actor restored at level `L`. -/
theorem gainExperience_run (a : Actor) (e : Int) (hL : 0 ≤ a.level) (hLmax : a.level ≤ 4633)
    (hx64 : -9223372036854775808 ≤ a.experience) (he : 0 < e)
    (hsum : a.experience + e < 2147395600) :
    ∃ (L : Int) (b : Actor), a.level ≤ L ∧ L ≤ 4633 ∧
      (∀ fuel, 4633 ≤ fuel → gainExperience fuel a e = some b) ∧
      (b = { a with experience := a.experience + e } ∧ L = a.level ∨
        b = restoredAt { a with experience := a.experience + e } L ∧ a.level < L) ∧
      b.level = L ∧ b.experience = a.experience + e ∧
      a.experience + e < 100 * (L + 1) * (L + 1) ∧
      (L = a.level ∨ 100 * L * L ≤ a.experience + e) := by
  have hw : wrap64 (a.experience + e) = a.experience + e :=
    wrap64_of_range (by omega) (by omega)
  obtain ⟨L, hL1, hL2, hL3, hL4, hL5⟩ :=
    checkLevelUpIter_levels 4633 { a with experience := a.experience + e }
      hL hLmax hsum (by show (4633 : Int) ≤ a.level + 4633; omega)
  change a.level ≤ L at hL1
  change a.experience + e < 100 * (L + 1) * (L + 1) at hL4
  change L = a.level ∨ 100 * L * L ≤ a.experience + e at hL5
  change checkLevelUpIter 4633 { a with experience := a.experience + e } =
    (if L = a.level then { a with experience := a.experience + e }
      else restoredAt { a with experience := a.experience + e } L) at hL3
  have hlev : (if L = a.level then { a with experience := a.experience + e }
      else restoredAt { a with experience := a.experience + e } L).level = L := by
    split_ifs with h
    · exact h.symm
    · rfl
  have hexp : (if L = a.level then { a with experience := a.experience + e }
      else restoredAt { a with experience := a.experience + e } L).experience =
      a.experience + e := by
    split_ifs <;> rfl
  have hshape : ((if L = a.level then { a with experience := a.experience + e }
      else restoredAt { a with experience := a.experience + e } L) =
        { a with experience := a.experience + e } ∧ L = a.level) ∨
      ((if L = a.level then { a with experience := a.experience + e }
      else restoredAt { a with experience := a.experience + e } L) =
        restoredAt { a with experience := a.experience + e } L ∧ a.level < L) := by
    by_cases h : L = a.level
    · left; rw [if_pos h]; exact ⟨rfl, h⟩
    · right; rw [if_neg h]; exact ⟨rfl, by omega⟩
  generalize (if L = a.level then { a with experience := a.experience + e }
      else restoredAt { a with experience := a.experience + e } L) = b
    at hL3 hlev hexp hshape
  have hdue : levelUpDue b = false := by
    have hnd : ¬ levelUpDue b = true := by
      rw [levelUpDue_iff (by rw [hlev]; omega) (by rw [hlev]; omega), hlev, hexp]
      omega
    simpa using hnd
  have hrun : gainExperience 4633 a e = some b := by
    unfold gainExperience
    rw [if_neg (by omega), hw]
    unfold checkLevelUp
    simp only [hL3, hdue]
    rfl
  exact ⟨L, b, hL1, hL2, fun fuel hf => gainExperience_stable hrun hf, hshape, hlev, hexp,
    hL4, hL5⟩

/-- C10: for an actor at level `L ≥ 1` with an `int64_t` experience `x` below the
next threshold and a gain `e > 0` small enough that no threshold overflows (level
at most 4633, new total below `100 * 4634^2`), `gainExperience e` returns with
experience `x + e` at the largest level `L' ≥ L` (among the levels up to 4634,
whose thresholds do not overflow) with `L' = L` or `experienceForLevel L' ≤ x + e`,
so the experience is again below the next threshold; for `e ≤ 0` the actor is
unchanged. -/
theorem gainExperience_levels (a : Actor) (e : Int)
    (hL : 1 ≤ a.level) (hLmax : a.level ≤ 4633)
    (hx64 : -9223372036854775808 ≤ a.experience)
    (_hx : a.experience < experienceForLevel (a.level + 1)) :
    (e ≤ 0 → ∀ fuel, gainExperience fuel a e = some a) ∧
    (0 < e → a.experience + e < 2147395600 →
      ∃ b, (∀ fuel, 4633 ≤ fuel → gainExperience fuel a e = some b) ∧
        b.experience = a.experience + e ∧
        a.level ≤ b.level ∧
        (b.level = a.level ∨ experienceForLevel b.level ≤ a.experience + e) ∧
        (∀ M, a.level ≤ M → M ≤ 4634 →
          (M = a.level ∨ experienceForLevel M ≤ a.experience + e) → M ≤ b.level) ∧
        b.experience < experienceForLevel (b.level + 1)) := by
  constructor
  · intro he fuel
    unfold gainExperience
    rw [if_pos he]
  · intro he hsum
    obtain ⟨L, b, hL1, hL2, hrun, -, hlev, hexp, hL4, hL5⟩ :=
      gainExperience_run a e (by omega) hLmax hx64 he hsum
    refine ⟨b, hrun, hexp, by rw [hlev]; exact hL1, ?_, ?_, ?_⟩
    · rw [hlev]
      rcases hL5 with h | h
      · exact Or.inl h
      · right
        rw [experienceForLevel_eq (by omega) (by omega)]
        exact h
    · intro M hM1 hM2 hM3
      rw [hlev]
      rcases hM3 with h | h
      · omega
      · rw [experienceForLevel_eq (by omega) hM2] at h
        by_contra hcon
        have h1 : L + 1 ≤ M := by omega
        have h2 : (L + 1) * (L + 1) ≤ M * M := by nlinarith
        have e1 : 100 * (L + 1) * (L + 1) = 100 * ((L + 1) * (L + 1)) := by ring
        have e2 : 100 * M * M = 100 * (M * M) := by ring
        rw [e1] at hL4
        rw [e2] at h
        omega
    · rw [hlev, hexp, experienceForLevel_eq (by omega) (by omega)]
      exact hL4

/-- Witness for C10: a fresh actor given 2000 experience ends at level 4, and
given 400 at level 2. -/
theorem gainExperience_levels_witness :
    (∃ b, (∀ fuel, 4633 ≤ fuel → gainExperience fuel (mk0 1 "hero") 2000 = some b) ∧
        b.experience = (mk0 1 "hero").experience + 2000 ∧
        (mk0 1 "hero").level ≤ b.level ∧
        (b.level = (mk0 1 "hero").level ∨
          experienceForLevel b.level ≤ (mk0 1 "hero").experience + 2000) ∧
        (∀ M, (mk0 1 "hero").level ≤ M → M ≤ 4634 →
          (M = (mk0 1 "hero").level ∨
            experienceForLevel M ≤ (mk0 1 "hero").experience + 2000) → M ≤ b.level) ∧
        b.experience < experienceForLevel (b.level + 1)) ∧
    (gainExperience 4633 (mk0 1 "hero") 2000).map (fun b => b.level) = some 4 ∧
    (gainExperience 4633 (mk0 1 "hero") 400).map (fun b => b.level) = some 2 ∧
    gainExperience 4633 (mk0 1 "hero") 0 = some (mk0 1 "hero") :=
  ⟨(gainExperience_levels (mk0 1 "hero") 2000 (by decide) (by decide) (by decide)
      (by decide)).2 (by decide) (by decide),
    by decide, by decide,
    (gainExperience_levels (mk0 1 "hero") 0 (by decide) (by decide) (by decide)
      (by decide)).1 (by decide) 4633⟩

/-! ## Runtime-stat bounds -/

theorem calculate_maxHp (p : PrimaryStats) (l : Int) :
    (calculate p l).maxHp = wrap32 (100 + p.vitality * 10 + l * 5) := by
  simp only [calculate, add32, mul32, wrap32]
  omega

theorem calculate_maxMp (p : PrimaryStats) (l : Int) :
    (calculate p l).maxMp = wrap32 (50 + p.intelligence * 5 + p.wisdom * 3 + l * 2) := by
  simp only [calculate, add32, mul32, wrap32]
  omega

theorem runtimeBounds_mk0 (id : Nat) (name : String) : RuntimeBounds (mk0 id name) := by
  have h1 : (mk0 id name).runtimeStats = { currentHp := 205, currentMp := 132 } := rfl
  have h2 : (mk0 id name).derivedStats.maxHp = 205 := rfl
  have h3 : (mk0 id name).derivedStats.maxMp = 132 := rfl
  unfold RuntimeBounds
  rw [h1, h2, h3]
  decide

theorem runtimeBounds_restoredAt (a : Actor) (L : Int)
    (h1 : 0 ≤ 100 + a.primaryStats.vitality * 10 + L * 5)
    (h2 : 100 + a.primaryStats.vitality * 10 + L * 5 ≤ 2147483647)
    (h3 : 0 ≤ 50 + a.primaryStats.intelligence * 5 + a.primaryStats.wisdom * 3 + L * 2)
    (h4 : 50 + a.primaryStats.intelligence * 5 + a.primaryStats.wisdom * 3 + L * 2 ≤
      2147483647) :
    RuntimeBounds (restoredAt a L) := by
  unfold RuntimeBounds restoredAt
  simp only [calculate_maxHp, calculate_maxMp]
  rw [wrap32_of_inI32 ⟨by omega, h2⟩, wrap32_of_inI32 ⟨by omega, h4⟩]
  exact ⟨h1, le_refl _, h3, le_refl _⟩

/-- C4 as stated fails: `highVitalityActor` (reached from a fresh actor by
`takeDamage 105` and `setPrimaryStat "vitality" 214748354`) satisfies the bounds,
and after `gainExperience 400` its `maxHp = 100 + vitality*10 + 2*5` has wrapped
to a negative value and `currentHp` with it. -/
theorem runtime_bounds_lost_at_high_vitality :
    WellFormed highVitalityActor ∧ Consistent highVitalityActor ∧
    RuntimeBounds highVitalityActor ∧
    ∃ b, gainExperience 4633 highVitalityActor 400 = some b ∧
      b.runtimeStats.currentHp = -2147483646 ∧ ¬ RuntimeBounds b := by
  have h : gainExperience 1 highVitalityActor 400 =
      some (restoredAt { highVitalityActor with experience := 400 } 2) := by decide
  exact ⟨by decide, by decide, by decide, _, gainExperience_stable h (by decide),
    by decide, by decide⟩

/-- C4, amended: the runtime-stat bounds hold for a freshly constructed actor and
are kept by `takeDamage`, `heal`, `useMana` and `restoreMana` for every argument
value, and by `gainExperience` for every `exp ≤ 0` and for every `exp > 0` whose
level-ups stay inside `int32_t` (level between 1 and 4633, new experience total
below `100 * 4634^2`, `maxHp` and `maxMp` formulas between 0 and `INT32_MAX` up
to level 4633); in those cases `gainExperience` returns. -/
theorem runtime_bounds_preserved (a : Actor) (hwf : WellFormed a) (hb : RuntimeBounds a) :
    (∀ id name, RuntimeBounds (mk0 id name)) ∧
    (∀ amount, RuntimeBounds (a.takeDamage amount).2) ∧
    (∀ amount, RuntimeBounds (a.heal amount).2) ∧
    (∀ amount, RuntimeBounds (a.useMana amount).2) ∧
    (∀ amount, RuntimeBounds (a.restoreMana amount).2) ∧
    (∀ exp, exp ≤ 0 → ∀ fuel, ∃ b, gainExperience fuel a exp = some b ∧ RuntimeBounds b) ∧
    (∀ exp, 0 < exp → 1 ≤ a.level → a.level ≤ 4633 →
      -9223372036854775808 ≤ a.experience → a.experience + exp < 2147395600 →
      MaximaFit a →
      ∃ b, (∀ fuel, 4633 ≤ fuel → gainExperience fuel a exp = some b) ∧ RuntimeBounds b) := by
  obtain ⟨-, hhp, hmp, hmaxHp, hmaxMp⟩ := hwf
  obtain ⟨b1, b2, b3, b4⟩ := hb
  unfold InI32 at hhp hmp hmaxHp hmaxMp
  refine ⟨runtimeBounds_mk0, ?_, ?_, ?_, ?_, ?_, ?_⟩
  · intro amount
    unfold takeDamage
    simp only
    split_ifs with h1 h2
    · exact ⟨b1, b2, b3, b4⟩
    · exact ⟨le_refl _, by show (0 : Int) ≤ a.derivedStats.maxHp; omega, b3, b4⟩
    · refine ⟨?_, ?_, b3, b4⟩
      · show 0 ≤ sub32 _ _
        omega
      · show sub32 _ _ ≤ a.derivedStats.maxHp
        have hcur : 0 < a.runtimeStats.currentHp := by
          by_contra hcon
          exact h1 (Or.inr (by simp only [isAlive, decide_eq_false_iff_not]; exact hcon))
        have : sub32 a.runtimeStats.currentHp (min amount a.runtimeStats.currentHp) =
            a.runtimeStats.currentHp - min amount a.runtimeStats.currentHp := by
          unfold sub32 wrap32
          omega
        rw [this]
        omega
  · intro amount
    unfold heal
    simp only
    split_ifs with h1
    · exact ⟨b1, b2, b3, b4⟩
    · have hs : sub32 a.derivedStats.maxHp a.runtimeStats.currentHp =
          a.derivedStats.maxHp - a.runtimeStats.currentHp := by
        unfold sub32 wrap32
        omega
      have ha : add32 a.runtimeStats.currentHp
          (min amount (a.derivedStats.maxHp - a.runtimeStats.currentHp)) =
          a.runtimeStats.currentHp +
            min amount (a.derivedStats.maxHp - a.runtimeStats.currentHp) := by
        unfold add32 wrap32
        omega
      rw [hs, ha]
      refine ⟨?_, ?_, b3, b4⟩
      · show 0 ≤ a.runtimeStats.currentHp +
          min amount (a.derivedStats.maxHp - a.runtimeStats.currentHp)
        omega
      · show a.runtimeStats.currentHp +
          min amount (a.derivedStats.maxHp - a.runtimeStats.currentHp) ≤ a.derivedStats.maxHp
        omega
  · intro amount
    unfold useMana
    split_ifs with h1 h2
    · exact ⟨b1, b2, b3, b4⟩
    · exact ⟨b1, b2, b3, b4⟩
    · have hs : sub32 a.runtimeStats.currentMp amount = a.runtimeStats.currentMp - amount := by
        unfold sub32 wrap32
        omega
      rw [hs]
      refine ⟨b1, b2, ?_, ?_⟩
      · show 0 ≤ a.runtimeStats.currentMp - amount
        omega
      · show a.runtimeStats.currentMp - amount ≤ a.derivedStats.maxMp
        omega
  · intro amount
    unfold restoreMana
    simp only
    split_ifs with h1
    · exact ⟨b1, b2, b3, b4⟩
    · have hs : sub32 a.derivedStats.maxMp a.runtimeStats.currentMp =
          a.derivedStats.maxMp - a.runtimeStats.currentMp := by
        unfold sub32 wrap32
        omega
      have ha : add32 a.runtimeStats.currentMp
          (min amount (a.derivedStats.maxMp - a.runtimeStats.currentMp)) =
          a.runtimeStats.currentMp +
            min amount (a.derivedStats.maxMp - a.runtimeStats.currentMp) := by
        unfold add32 wrap32
        omega
      rw [hs, ha]
      refine ⟨b1, b2, ?_, ?_⟩
      · show 0 ≤ a.runtimeStats.currentMp +
          min amount (a.derivedStats.maxMp - a.runtimeStats.currentMp)
        omega
      · show a.runtimeStats.currentMp +
          min amount (a.derivedStats.maxMp - a.runtimeStats.currentMp) ≤ a.derivedStats.maxMp
        omega
  · intro exp he fuel
    refine ⟨a, ?_, b1, b2, b3, b4⟩
    unfold gainExperience
    rw [if_pos he]
  · intro exp he hl1 hl2 hx64 hsum hfit
    obtain ⟨f1, f2, f3, f4⟩ := hfit
    obtain ⟨L, b, hL1, hL2, hrun, hshape, -, -, -, -⟩ :=
      gainExperience_run a exp (by omega) hl2 hx64 he hsum
    refine ⟨b, hrun, ?_⟩
    rcases hshape with ⟨hbe, -⟩ | ⟨hbe, -⟩
    · rw [hbe]
      exact ⟨b1, b2, b3, b4⟩
    · rw [hbe]
      exact runtimeBounds_restoredAt _ L
        (by show 0 ≤ 100 + a.primaryStats.vitality * 10 + L * 5; omega)
        (by show 100 + a.primaryStats.vitality * 10 + L * 5 ≤ 2147483647; omega)
        (by show 0 ≤ 50 + a.primaryStats.intelligence * 5 + a.primaryStats.wisdom * 3 + L * 2
            omega)
        (by show 50 + a.primaryStats.intelligence * 5 + a.primaryStats.wisdom * 3 + L * 2 ≤
              2147483647
            omega)

/-- Witness for C4: a fresh actor, hit for 50 and given 2000 experience. -/
theorem runtime_bounds_preserved_witness :
    RuntimeBounds ((mk0 1 "hero").takeDamage 50).2 ∧
    ∃ b, (∀ fuel, 4633 ≤ fuel → gainExperience fuel (mk0 1 "hero") 2000 = some b) ∧
      RuntimeBounds b :=
  have h := runtime_bounds_preserved (mk0 1 "hero") (by decide) (by decide)
  ⟨h.2.1 50, h.2.2.2.2.2.2 2000 (by decide) (by decide) (by decide) (by decide) (by decide)
    (by decide)⟩

/-! ## Rounding lemmas -/

theorem rneDiv_floor_le (a b : Nat) : a / b ≤ rneDiv a b ∧ rneDiv a b ≤ a / b + 1 := by
  unfold rneDiv
  simp only
  split_ifs <;> omega

theorem rneDiv_mul_self (n : Nat) {b : Nat} (hb : 0 < b) : rneDiv (n * b) b = n := by
  unfold rneDiv
  simp only [Nat.mul_div_cancel n hb, Nat.mul_mod_left]
  rw [if_pos (by omega)]

theorem rneDiv_mono {a a' b : Nat} (h : a ≤ a') : rneDiv a b ≤ rneDiv a' b := by
  have hq : a / b ≤ a' / b := Nat.div_le_div_right h
  rcases Nat.lt_or_ge (a / b) (a' / b) with hlt | hge
  · have h1 := (rneDiv_floor_le a b).2
    have h2 := (rneDiv_floor_le a' b).1
    omega
  · have heq : a' / b = a / b := by omega
    have e1 := Nat.div_add_mod a b
    have e2 := Nat.div_add_mod a' b
    rw [heq] at e2
    have hr : a % b ≤ a' % b := by omega
    unfold rneDiv
    simp only [heq]
    split_ifs <;> omega

theorem rneDiv_le_of_le_mul {a b n : Nat} (hb : 0 < b) (h : a ≤ n * b) : rneDiv a b ≤ n := by
  have := @rneDiv_mono _ _ b h
  rwa [rneDiv_mul_self n hb] at this

theorem le_rneDiv_of_mul_le {a b n : Nat} (hb : 0 < b) (h : n * b ≤ a) : n ≤ rneDiv a b := by
  have := @rneDiv_mono _ _ b h
  rwa [rneDiv_mul_self n hb] at this

theorem rneDiv_scale (a b : Nat) {c : Nat} (hc : 0 < c) :
    rneDiv (a * c) (b * c) = rneDiv a b := by
  unfold rneDiv
  simp only [Nat.mul_div_mul_right a b hc, Nat.mul_mod_mul_right]
  have e1 : (2 * (a % b * c) < b * c) ↔ (2 * (a % b) < b) := by
    rw [← Nat.mul_assoc]
    exact Nat.mul_lt_mul_right hc
  have e2 : (b * c < 2 * (a % b * c)) ↔ (b < 2 * (a % b)) := by
    rw [← Nat.mul_assoc]
    exact Nat.mul_lt_mul_right hc
  simp only [e1, e2]

theorem log2Fuel_spec (fuel : Nat) :
    ∀ n : Nat, 0 < n → n ≤ fuel →
      2 ^ log2Fuel fuel n ≤ n ∧ n < 2 ^ (log2Fuel fuel n + 1) := by
  induction fuel with
  | zero => intro n h0 h1; omega
  | succ fuel ih =>
    intro n h0 h1
    unfold log2Fuel
    split_ifs with h2
    · simp only [pow_zero, zero_add, pow_one]
      omega
    · obtain ⟨l, u⟩ := ih (n / 2) (by omega) (by omega)
      rw [pow_succ, pow_succ]
      generalize 2 ^ log2Fuel fuel (n / 2) = p at *
      rw [pow_succ] at u
      omega

theorem ilog2_spec {n : Nat} (h : 0 < n) : 2 ^ ilog2 n ≤ n ∧ n < 2 ^ (ilog2 n + 1) :=
  log2Fuel_spec n n h (le_refl n)


theorem roundMag_small {a b : Nat} (h : a / b < 2 ^ 24) : roundMag a b = rneDiv a b := by
  unfold roundMag
  simp only
  rw [if_pos h]

theorem roundMag_large {a b : Nat} (h : ¬ a / b < 2 ^ 24) :
    roundMag a b = rneDiv a (b * 2 ^ (ilog2 (a / b) - 23)) * 2 ^ (ilog2 (a / b) - 23) := by
  unfold roundMag
  simp only
  rw [if_neg h]

theorem roundMag_small_le {a b : Nat} (hb : 0 < b) (h : a / b < 2 ^ 24) :
    roundMag a b ≤ 2 ^ 24 := by
  rw [roundMag_small h]
  apply rneDiv_le_of_le_mul hb
  have := (Nat.div_lt_iff_lt_mul hb).1 h
  omega

theorem ilog2_ge_of_large {q : Nat} (h : ¬ q < 2 ^ 24) : 24 ≤ ilog2 q := by
  have hq : 0 < q := by
    have : 0 < 2 ^ 24 := by positivity
    omega
  have hs := (ilog2_spec hq).2
  by_contra hcon
  have : ilog2 q + 1 ≤ 24 := by omega
  have : 2 ^ (ilog2 q + 1) ≤ 2 ^ 24 := Nat.pow_le_pow_right (by decide) this
  omega

theorem roundMag_large_bounds {a b : Nat} (hb : 0 < b) (h : ¬ a / b < 2 ^ 24) :
    2 ^ ilog2 (a / b) ≤ roundMag a b ∧ roundMag a b ≤ 2 ^ (ilog2 (a / b) + 1) := by
  have he := ilog2_ge_of_large h
  have hq : 0 < a / b := by
    have : 0 < 2 ^ 24 := by positivity
    omega
  obtain ⟨hl, hu⟩ := ilog2_spec hq
  rw [roundMag_large h]
  generalize ilog2 (a / b) = e at *
  obtain ⟨k, rfl⟩ : ∃ k, e = k + 23 := ⟨e - 23, by omega⟩
  simp only [Nat.add_sub_cancel]
  have hk : 0 < 2 ^ k := by positivity
  have hbk : 0 < b * 2 ^ k := Nat.mul_pos hb hk
  have hfl : 2 ^ (k + 23) * b ≤ a := (Nat.le_div_iff_mul_le hb).1 hl
  have hfu : a < 2 ^ (k + 23 + 1) * b := (Nat.div_lt_iff_lt_mul hb).1 hu
  constructor
  · have h1 : 2 ^ 23 ≤ rneDiv a (b * 2 ^ k) := by
      apply le_rneDiv_of_mul_le hbk
      calc 2 ^ 23 * (b * 2 ^ k) = 2 ^ (k + 23) * b := by ring
        _ ≤ a := hfl
    calc 2 ^ (k + 23) = 2 ^ 23 * 2 ^ k := by ring
      _ ≤ rneDiv a (b * 2 ^ k) * 2 ^ k := Nat.mul_le_mul_right _ h1
  · have h1 : rneDiv a (b * 2 ^ k) ≤ 2 ^ 24 := by
      apply rneDiv_le_of_le_mul hbk
      have : 2 ^ 24 * (b * 2 ^ k) = 2 ^ (k + 23 + 1) * b := by ring
      omega
    calc rneDiv a (b * 2 ^ k) * 2 ^ k ≤ 2 ^ 24 * 2 ^ k := Nat.mul_le_mul_right _ h1
      _ = 2 ^ (k + 23 + 1) := by ring

theorem roundMag_mono {a a' b : Nat} (hb : 0 < b) (h : a ≤ a') :
    roundMag a b ≤ roundMag a' b := by
  have hq : a / b ≤ a' / b := Nat.div_le_div_right h
  by_cases hs' : a' / b < 2 ^ 24
  · have hs : a / b < 2 ^ 24 := by omega
    rw [roundMag_small hs, roundMag_small hs']
    exact rneDiv_mono h
  · have he' := ilog2_ge_of_large hs'
    obtain ⟨hl', -⟩ := roundMag_large_bounds hb hs'
    by_cases hs : a / b < 2 ^ 24
    · have h1 := roundMag_small_le hb hs
      have h2 : 2 ^ 24 ≤ 2 ^ ilog2 (a' / b) := Nat.pow_le_pow_right (by decide) he'
      omega
    · obtain ⟨-, hu⟩ := roundMag_large_bounds hb hs
      have hq0 : 0 < a / b := by
        have : 0 < 2 ^ 24 := by positivity
        omega
      have hq0' : 0 < a' / b := by omega
      have s1 := (ilog2_spec hq0).1
      have s2 := (ilog2_spec hq0').2
      have hee : ilog2 (a / b) ≤ ilog2 (a' / b) := by
        by_contra hcon
        have : ilog2 (a' / b) + 1 ≤ ilog2 (a / b) := by omega
        have : 2 ^ (ilog2 (a' / b) + 1) ≤ 2 ^ ilog2 (a / b) :=
          Nat.pow_le_pow_right (by decide) this
        omega
      rcases Nat.lt_or_ge (ilog2 (a / b)) (ilog2 (a' / b)) with hlt | hge
      · have : 2 ^ (ilog2 (a / b) + 1) ≤ 2 ^ ilog2 (a' / b) :=
          Nat.pow_le_pow_right (by decide) hlt
        omega
      · have heq : ilog2 (a' / b) = ilog2 (a / b) := by omega
        rw [roundMag_large hs, roundMag_large hs', heq]
        exact Nat.mul_le_mul_right _ (rneDiv_mono h)

theorem roundMag_scale (a b : Nat) {c : Nat} (hc : 0 < c) :
    roundMag (a * c) (b * c) = roundMag a b := by
  unfold roundMag
  simp only [Nat.mul_div_mul_right a b hc, rneDiv_scale a b hc]
  have e : ∀ k, b * c * 2 ^ k = b * 2 ^ k * c := fun k => by ring
  simp only [e, rneDiv_scale _ _ hc]

theorem roundMag_one : roundMag f32One 1 = f32One := by decide

theorem f32Round_natCast (n den : Nat) : f32Round (n : Int) den = (roundMag n den : Nat) := by
  unfold f32Round
  rw [if_neg (by omega)]
  simp only [Int.natAbs_ofNat]

/-- The proportional rescale stays within `[0, newMax]` when `0 ≤ cur ≤ oldMax`,
`oldMax > 0` and the new maximum is a non-negative `int32_t` value that converts
to binary32 exactly. -/
theorem rescale_bounds (c o m : Nat) (hco : c ≤ o) (ho : 0 < o)
    (hm : (m : Int) ≤ 2147483647)
    (hexact : i32ToF32 (m : Int) = (m : Int) * (f32One : Int)) :
    0 ≤ Actor.rescale (c : Int) (o : Int) (m : Int) ∧ Actor.rescale (c : Int) (o : Int) (m : Int) ≤ m := by
  have hU : 0 < f32One := by unfold f32One; positivity
  have conv : ∀ n : Nat, i32ToF32 (n : Int) = (roundMag (n * f32One) 1 : Nat) := by
    intro n
    unfold i32ToF32
    rw [← Nat.cast_mul, f32Round_natCast]
  have hC : roundMag (c * f32One) 1 ≤ roundMag (o * f32One) 1 :=
    roundMag_mono (by decide) (Nat.mul_le_mul_right _ hco)
  have hO : f32One ≤ roundMag (o * f32One) 1 := by
    have := @roundMag_mono _ _ 1 (by decide) (Nat.mul_le_mul_right f32One ho)
    rwa [Nat.one_mul, roundMag_one] at this
  have hOpos : 0 < roundMag (o * f32One) 1 := by omega
  have hM : roundMag (m * f32One) 1 = m * f32One := by
    have := hexact
    rw [conv, ← Nat.cast_mul] at this
    exact_mod_cast this
  -- the ratio
  have hdiv : f32Div (i32ToF32 (c : Int)) (i32ToF32 (o : Int)) =
      (roundMag (roundMag (c * f32One) 1 * f32One) (roundMag (o * f32One) 1) : Nat) := by
    have hn : ¬ ((roundMag (o * f32One) 1 : Nat) : Int) < 0 := by omega
    unfold f32Div
    rw [conv, conv, if_neg hn, Int.natAbs_ofNat, ← Nat.cast_mul, f32Round_natCast]
  have hratio : roundMag (roundMag (c * f32One) 1 * f32One) (roundMag (o * f32One) 1) ≤
      f32One := by
    have h1 := roundMag_mono hOpos (Nat.mul_le_mul_right f32One hC)
    have h2 : roundMag (roundMag (o * f32One) 1 * f32One) (roundMag (o * f32One) 1) =
        f32One := by
      have := roundMag_scale f32One 1 hOpos
      rw [Nat.one_mul, roundMag_one, Nat.mul_comm] at this
      exact this
    omega
  generalize roundMag (roundMag (c * f32One) 1 * f32One) (roundMag (o * f32One) 1) = r
    at hdiv hratio
  -- the product
  have hmul : f32Mul (r : Int) (i32ToF32 (m : Int)) =
      (roundMag (r * (m * f32One)) f32One : Nat) := by
    unfold f32Mul
    rw [conv, hM, ← Nat.cast_mul, f32Round_natCast]
  have hprod : roundMag (r * (m * f32One)) f32One ≤ m * f32One := by
    have h1 := roundMag_mono hU (Nat.mul_le_mul_right (m * f32One) hratio)
    have h2 : roundMag (f32One * (m * f32One)) f32One = m * f32One := by
      have := roundMag_scale (m * f32One) 1 hU
      rw [Nat.one_mul, hM, Nat.mul_comm] at this
      exact this
    omega
  generalize roundMag (r * (m * f32One)) f32One = p at hmul hprod
  -- the truncation
  unfold Actor.rescale
  rw [hdiv, hmul]
  unfold f32ToI32
  have ht : Int.tdiv (p : Int) (f32One : Int) = ((p / f32One : Nat) : Int) := by
    rw [Int.tdiv_eq_ediv (by omega) (by omega)]
    rfl
  have hpm : p / f32One ≤ m := by
    apply Nat.div_le_of_le_mul
    rw [Nat.mul_comm]
    exact hprod
  have hpm' : ((p / f32One : Nat) : Int) ≤ (m : Int) := by exact_mod_cast hpm
  have ht0 : (0 : Int) ≤ ((p / f32One : Nat) : Int) := Int.ofNat_nonneg _
  simp only [ht]
  generalize ((p / f32One : Nat) : Int) = t at hpm' ht0 ⊢
  rw [if_pos ⟨by omega, by omega⟩]
  exact ⟨ht0, hpm'⟩


theorem roundMag_exact_of_le {n : Nat} (hn : n ≤ 2 ^ 24) :
    roundMag (n * f32One) 1 = n * f32One := by
  rcases Nat.eq_zero_or_pos n with h0 | hpos
  · subst h0
    decide
  · have hU : f32One = 2 ^ 149 := rfl
    have hbig : 2 ^ 149 ≤ n * f32One := by
      rw [hU]
      exact Nat.le_mul_of_pos_left _ hpos
    have hlarge : ¬ n * f32One / 1 < 2 ^ 24 := by
      rw [Nat.div_one]
      have : (2 : Nat) ^ 24 ≤ 2 ^ 149 := Nat.pow_le_pow_right (by decide) (by decide)
      omega
    have hq0 : 0 < n * f32One := by omega
    obtain ⟨hl, hu⟩ := ilog2_spec hq0
    rw [roundMag_large hlarge, Nat.div_one, Nat.one_mul]
    generalize ilog2 (n * f32One) = e at hl hu ⊢
    have he1 : 149 ≤ e := by
      by_contra hcon
      have : 2 ^ (e + 1) ≤ 2 ^ 149 := Nat.pow_le_pow_right (by decide) (by omega)
      omega
    have he2 : e ≤ 173 := by
      by_contra hcon
      have h1 : 2 ^ 174 ≤ 2 ^ e := Nat.pow_le_pow_right (by decide) (by omega)
      have h2 : n * f32One ≤ 2 ^ 24 * 2 ^ 149 := by
        rw [hU]
        exact Nat.mul_le_mul_right _ hn
      have h3 : (2 : Nat) ^ 24 * 2 ^ 149 < 2 ^ 174 := by decide
      omega
    have hdiv : ∃ y, n * f32One = y * 2 ^ (e - 23) := by
      rcases Nat.lt_or_ge e 173 with hlt | hge
      · refine ⟨n * 2 ^ (149 - (e - 23)), ?_⟩
        rw [hU, Nat.mul_assoc, ← pow_add]
        congr 2
        omega
      · have he : e = 173 := by omega
        subst he
        have hn2 : n = 2 ^ 24 := by
          have h2 : 2 ^ 173 ≤ n * 2 ^ 149 := by rw [← hU]; exact hl
          have h3 : (2 : Nat) ^ 173 = 2 ^ 24 * 2 ^ 149 := by decide
          rw [h3] at h2
          have := Nat.le_of_mul_le_mul_right h2 (by positivity)
          omega
        subst hn2
        exact ⟨2 ^ 23, by decide⟩
    obtain ⟨y, hy⟩ := hdiv
    rw [hy, rneDiv_mul_self y (by positivity)]

theorem i32ToF32_exact_of_le {n : Int} (h0 : 0 ≤ n) (h1 : n ≤ 16777216) :
    i32ToF32 n = n * (f32One : Int) := by
  obtain ⟨k, rfl⟩ := Int.eq_ofNat_of_zero_le h0
  unfold i32ToF32
  rw [← Nat.cast_mul, f32Round_natCast, roundMag_exact_of_le (by norm_num; omega)]

/-! ## Stat changes and the proportional rescale -/

theorem runtimeBounds_recalculate (a : Actor) (hb : RuntimeBounds a)
    (hex : MaximaExact (recalculateDerivedStats a)) :
    RuntimeBounds (recalculateDerivedStats a) := by
  obtain ⟨b1, b2, b3, b4⟩ := hb
  obtain ⟨e1, e2, e3, e4⟩ := hex
  have hHp : (recalculateDerivedStats a).derivedStats.maxHp =
      (calculate a.primaryStats a.level).maxHp := rfl
  have hMp : (recalculateDerivedStats a).derivedStats.maxMp =
      (calculate a.primaryStats a.level).maxMp := rfl
  have rHp : (recalculateDerivedStats a).runtimeStats.currentHp =
      if 0 < a.derivedStats.maxHp then
        rescale a.runtimeStats.currentHp a.derivedStats.maxHp
          (calculate a.primaryStats a.level).maxHp
      else a.runtimeStats.currentHp := rfl
  have rMp : (recalculateDerivedStats a).runtimeStats.currentMp =
      if 0 < a.derivedStats.maxMp then
        rescale a.runtimeStats.currentMp a.derivedStats.maxMp
          (calculate a.primaryStats a.level).maxMp
      else a.runtimeStats.currentMp := rfl
  have iHp : (calculate a.primaryStats a.level).maxHp ≤ 2147483647 := by
    rw [calculate_maxHp]
    exact wrap32_le_max _
  have iMp : (calculate a.primaryStats a.level).maxMp ≤ 2147483647 := by
    rw [calculate_maxMp]
    exact wrap32_le_max _
  rw [hHp] at e1 e2
  rw [hMp] at e3 e4
  unfold RuntimeBounds
  rw [hHp, hMp, rHp, rMp]
  generalize (calculate a.primaryStats a.level).maxHp = newHp at *
  generalize (calculate a.primaryStats a.level).maxMp = newMp at *
  have key : ∀ cur old new : Int, 0 ≤ cur → cur ≤ old → 0 ≤ new → new ≤ 2147483647 →
      Binary32Exact new →
      0 ≤ (if 0 < old then rescale cur old new else cur) ∧
        (if 0 < old then rescale cur old new else cur) ≤ new := by
    intro cur old new h1 h2 h3 h4 h5
    split_ifs with hpos
    · obtain ⟨c, rfl⟩ := Int.eq_ofNat_of_zero_le h1
      obtain ⟨o, rfl⟩ := Int.eq_ofNat_of_zero_le (le_trans h1 h2)
      obtain ⟨m, rfl⟩ := Int.eq_ofNat_of_zero_le h3
      exact rescale_bounds c o m (by omega) (by omega) h4 h5
    · constructor <;> omega
  obtain ⟨k1, k2⟩ := key _ _ _ b1 b2 e1 iHp e2
  obtain ⟨k3, k4⟩ := key _ _ _ b3 b4 e3 iMp e4
  exact ⟨k1, k2, k3, k4⟩

/-- C5 as stated fails: from a fresh actor, `setPrimaryStat "vitality" (-100)` makes
`maxHp = -895` and rescales `currentHp` to `-895`; and `setPrimaryStat "vitality"
1677723` makes `maxHp = 16777335`, which binary32 rounds up, so that `currentHp`
becomes `16777336`. -/
theorem runtime_bounds_lost_by_setPrimaryStat :
    RuntimeBounds (mk0 1 "hero") ∧
    ((mk0 1 "hero").setPrimaryStat "vitality" (-100)).derivedStats.maxHp = -895 ∧
    ((mk0 1 "hero").setPrimaryStat "vitality" (-100)).runtimeStats.currentHp = -895 ∧
    ¬ RuntimeBounds ((mk0 1 "hero").setPrimaryStat "vitality" (-100)) ∧
    ¬ RuntimeBounds ((mk0 1 "hero").modifyPrimaryStat "vitality" (-110)) ∧
    ((mk0 1 "hero").setPrimaryStat "vitality" 1677723).derivedStats.maxHp = 16777335 ∧
    ((mk0 1 "hero").setPrimaryStat "vitality" 1677723).runtimeStats.currentHp = 16777336 ∧
    ¬ RuntimeBounds ((mk0 1 "hero").setPrimaryStat "vitality" 1677723) := by
  decide

/-- C5, amended: `setPrimaryStat` and `modifyPrimaryStat` keep the runtime-stat
bounds, for every stat name and every value or delta, whenever the recomputed
`maxHp` and `maxMp` are non-negative and convert to binary32 exactly, which every
value from 0 to `2^24` does. -/
theorem runtime_bounds_stat_change (a : Actor) (hb : RuntimeBounds a) (stat : String)
    (v : Int) :
    (MaximaExact (a.setPrimaryStat stat v) → RuntimeBounds (a.setPrimaryStat stat v)) ∧
    (MaximaExact (a.modifyPrimaryStat stat v) → RuntimeBounds (a.modifyPrimaryStat stat v)) ∧
    (∀ n : Int, 0 ≤ n → n ≤ 16777216 → Binary32Exact n) :=
  ⟨fun h => runtimeBounds_recalculate _ hb h, fun h => runtimeBounds_recalculate _ hb h,
    fun _ h0 h1 => i32ToF32_exact_of_le h0 h1⟩

/-- Witness for C5: lowering the vitality of a damaged fresh actor to 5, and
raising its wisdom by 7. -/
theorem runtime_bounds_stat_change_witness :
    RuntimeBounds (((mk0 1 "hero").takeDamage 50).2.setPrimaryStat "vitality" 5) ∧
    RuntimeBounds (((mk0 1 "hero").takeDamage 50).2.modifyPrimaryStat "wisdom" 7) :=
  ⟨(runtime_bounds_stat_change ((mk0 1 "hero").takeDamage 50).2 (by decide) "vitality" 5).1
      (by decide),
    (runtime_bounds_stat_change ((mk0 1 "hero").takeDamage 50).2 (by decide) "wisdom" 7).2.1
      (by decide)⟩

/-! ## Level-ups restore HP and MP in full -/

theorem levelUpDue_restoredAt_level (a : Actor) :
    levelUpDue (restoredAt a a.level) = levelUpDue a := rfl

theorem checkLevelUpIter_shape (n : Nat) :
    ∀ a : Actor, checkLevelUpIter n a = a ∨
      (levelUpDue a = true ∧ ∃ l, checkLevelUpIter n a = restoredAt a l) := by
  induction n with
  | zero => intro a; exact Or.inl rfl
  | succ n ih =>
    intro a
    cases hd : levelUpDue a with
    | false => exact Or.inl (checkLevelUpIter_of_not_due hd _)
    | true =>
      right
      refine ⟨rfl, ?_⟩
      have e1 : checkLevelUpIter (n + 1) a = checkLevelUpIter n (levelUpOnce a) := by
        rw [checkLevelUpIter, hd]; rfl
      rw [e1]
      rcases ih (levelUpOnce a) with h | ⟨-, l, h⟩
      · exact ⟨_, by rw [h, levelUpOnce_eq]⟩
      · exact ⟨l, by rw [h, levelUpOnce_eq, restoredAt_restoredAt]⟩

/-- C11: a `gainExperience` call that raises the level leaves the actor with
`currentHp = maxHp` and `currentMp = maxMp` of the stats derived for the new
level, whatever HP and MP were before; a call that raises no level leaves HP and
MP unchanged.  This holds in every state the level-up loop passes through and in
the state the call returns, and the call does return when its level-ups stay in
the `int32_t` range. -/
theorem gainExperience_full_restore (a : Actor) (e : Int) :
    (∀ n, gainExperienceIter n a e = a ∨
      gainExperienceIter n a e = { a with experience := wrap64 (a.experience + e) } ∨
      ∃ l, gainExperienceIter n a e =
        restoredAt { a with experience := wrap64 (a.experience + e) } l) ∧
    (∀ fuel b, gainExperience fuel a e = some b →
      (b.level ≠ a.level →
        b.derivedStats = calculate b.primaryStats b.level ∧
        b.runtimeStats.currentHp = b.derivedStats.maxHp ∧
        b.runtimeStats.currentMp = b.derivedStats.maxMp) ∧
      (b.level = a.level → b.runtimeStats = a.runtimeStats)) ∧
    (0 < e → 0 ≤ a.level → a.level ≤ 4633 → -9223372036854775808 ≤ a.experience →
      a.experience + e < 2147395600 →
      ∃ b, ∀ fuel, 4633 ≤ fuel → gainExperience fuel a e = some b) := by
  have hiter : ∀ n, gainExperienceIter n a e = a ∨
      gainExperienceIter n a e = { a with experience := wrap64 (a.experience + e) } ∨
      ∃ l, gainExperienceIter n a e =
        restoredAt { a with experience := wrap64 (a.experience + e) } l := by
    intro n
    unfold gainExperienceIter
    split_ifs with he
    · exact Or.inl rfl
    · rcases checkLevelUpIter_shape n { a with experience := wrap64 (a.experience + e) }
        with h | ⟨-, l, h⟩
      · exact Or.inr (Or.inl h)
      · exact Or.inr (Or.inr ⟨l, h⟩)
  refine ⟨hiter, ?_, ?_⟩
  · intro fuel b hb
    by_cases he : e ≤ 0
    · have hba : b = a := by
        unfold gainExperience at hb
        rw [if_pos he] at hb
        exact (Option.some.inj hb).symm
      subst hba
      exact ⟨fun h => absurd rfl h, fun _ => rfl⟩
    · have hb2 : checkLevelUp fuel { a with experience := wrap64 (a.experience + e) } =
          some b := by
        unfold gainExperience at hb
        rw [if_neg he] at hb
        exact hb
      obtain ⟨hbe, hdue⟩ := checkLevelUp_eq_some hb2
      rcases checkLevelUpIter_shape fuel { a with experience := wrap64 (a.experience + e) }
        with h | ⟨hd, l, h⟩
      · rw [h] at hbe
        subst hbe
        exact ⟨fun hne => absurd rfl hne, fun _ => rfl⟩
      · rw [h] at hbe
        subst hbe
        refine ⟨fun _ => ⟨rfl, rfl, rfl⟩, fun hl => ?_⟩
        exfalso
        have hl2 : l = a.level := hl
        subst hl2
        have := levelUpDue_restoredAt_level { a with experience := wrap64 (a.experience + e) }
        rw [this, hd] at hdue
        exact Bool.noConfusion hdue
  · intro he h0 h1 hx hsum
    obtain ⟨L, b, -, -, hrun, -⟩ := gainExperience_run a e h0 h1 hx he hsum
    exact ⟨b, hrun⟩

/-- Witness for C11: a fresh actor hit for 100 and given 400 experience is at
level 2 with 210 of 210 HP; given 100 experience it keeps its 105 HP. -/
theorem gainExperience_full_restore_witness :
    (∃ b, gainExperience 4633 ((mk0 1 "hero").takeDamage 100).2 400 = some b ∧
      b.level = 2 ∧ b.runtimeStats.currentHp = 210 ∧ b.derivedStats.maxHp = 210 ∧
      b.runtimeStats.currentMp = b.derivedStats.maxMp) ∧
    (∃ b, gainExperience 4633 ((mk0 1 "hero").takeDamage 100).2 100 = some b ∧
      b.level = 1 ∧ b.runtimeStats.currentHp = 105) := by
  have h := gainExperience_full_restore ((mk0 1 "hero").takeDamage 100).2 400
  have h' := gainExperience_full_restore ((mk0 1 "hero").takeDamage 100).2 100
  obtain ⟨b, hb⟩ := h.2.2 (by decide) (by decide) (by decide) (by decide) (by decide)
  obtain ⟨b', hb'⟩ := h'.2.2 (by decide) (by decide) (by decide) (by decide) (by decide)
  have e1 : gainExperience 1 ((mk0 1 "hero").takeDamage 100).2 400 =
      some (restoredAt { ((mk0 1 "hero").takeDamage 100).2 with experience := 400 } 2) := by
    decide
  have e2 : gainExperience 0 ((mk0 1 "hero").takeDamage 100).2 100 =
      some { ((mk0 1 "hero").takeDamage 100).2 with experience := 100 } := by
    decide
  have hb1 := hb 4633 (le_refl _)
  have hb1' := hb' 4633 (le_refl _)
  have k1 := gainExperience_stable e1 (show 1 ≤ 4633 by decide)
  have k2 := gainExperience_stable e2 (show 0 ≤ 4633 by decide)
  have hlev : b.level ≠ ((mk0 1 "hero").takeDamage 100).2.level := by
    have : b = restoredAt { ((mk0 1 "hero").takeDamage 100).2 with experience := 400 } 2 :=
      Option.some.inj (hb1.symm.trans k1)
    rw [this]
    decide
  have r := ((h.2.1 4633 b hb1).1 hlev)
  have hbeq : b = restoredAt { ((mk0 1 "hero").takeDamage 100).2 with experience := 400 } 2 :=
    Option.some.inj (hb1.symm.trans k1)
  refine ⟨⟨b, hb1, ?_, ?_, ?_, r.2.2⟩, ⟨_, k2, by decide, by decide⟩⟩
  · rw [hbeq]; decide
  · rw [r.2.1, hbeq]; decide
  · rw [hbeq]; decide

/-! ## Learning skills -/

theorem prereqsMet_iff (node : SkillNode) (learned : Nat → Bool) :
    SkillTree.prereqsMet node learned = true ↔ ∀ p ∈ node.prerequisites, learned p = true := by
  unfold SkillTree.prereqsMet
  exact List.all_eq_true

/-- The learning rule of `SkillTree::canLearn` in words: the node exists, its
prerequisites are learned, the catalog has the skill, the character level
suffices and the catalog prerequisite, if any, is held at the required level. -/
theorem canLearn_iff (t : SkillTree) (db : SkillDatabase) (id : Nat) (learned : Nat → Bool)
    (levels : Nat → Option Int) (charLevel : Int) :
    t.canLearn db id learned levels charLevel = true ↔
      ∃ node skill, t.getNode id = some node ∧
        (∀ p ∈ node.prerequisites, learned p = true) ∧
        db.getSkill id = some skill ∧
        skill.requirement.requiredCharLevel ≤ charLevel ∧
        (skill.requirement.prerequisiteSkill = 0 ∨
          ∃ l, levels skill.requirement.prerequisiteSkill = some l ∧
            skill.requirement.prerequisiteLevel ≤ l) := by
  unfold SkillTree.canLearn
  cases hn : t.getNode id with
  | none => simp
  | some node =>
    cases hs : db.getSkill id with
    | none => simp
    | some skill =>
      simp only [Option.some.injEq, exists_and_left, exists_eq_left']
      rw [← prereqsMet_iff]
      cases hp : SkillTree.prereqsMet node learned with
      | false => simp
      | true =>
        simp only [Bool.true_eq_false, if_false, true_and]
        by_cases hc : charLevel < skill.requirement.requiredCharLevel
        · rw [if_pos hc]
          simp only [Bool.false_eq_true, false_iff, not_and]
          intro hle
          omega
        · rw [if_neg hc]
          have hle : skill.requirement.requiredCharLevel ≤ charLevel := by omega
          by_cases hP : skill.requirement.prerequisiteSkill = 0
          · simp only [hP, ne_eq, not_true_eq_false, if_false, true_iff]
            exact ⟨hle, Or.inl trivial⟩
          · rw [if_pos hP]
            cases hl : levels skill.requirement.prerequisiteSkill with
            | none =>
              simp only [Bool.false_eq_true, false_iff, not_and]
              intro _ hor
              rcases hor with h | ⟨l, h, _⟩
              · exact hP h
              · exact Option.noConfusion h
            | some l =>
              simp only
              by_cases hlt : l < skill.requirement.prerequisiteLevel
              · rw [if_pos hlt]
                simp only [Bool.false_eq_true, false_iff, not_and]
                intro _ hor
                rcases hor with h | ⟨l2, h, hle2⟩
                · exact hP h
                · cases h
                  omega
              · rw [if_neg hlt]
                simp only [true_iff]
                exact ⟨hle, Or.inr ⟨l, rfl, by omega⟩⟩

theorem canLearnSkill_iff (c : Character) (db : SkillDatabase) (id : Nat) :
    c.canLearnSkill db id = true ↔
      0 < c.skillPoints ∧ c.hasSkill id = false ∧
      c.skillTree.canLearn db id c.learnedSkills c.skillLevels c.actor.level = true := by
  unfold Character.canLearnSkill
  by_cases hsp : c.skillPoints ≤ 0
  · rw [if_pos hsp]
    simp only [Bool.false_eq_true, false_iff, not_and]
    intro h
    omega
  · rw [if_neg hsp]
    cases hh : c.hasSkill id with
    | true => simp
    | false =>
      simp only [Bool.false_eq_true, if_false, true_and, iff_and_self]
      intro _
      omega

theorem learnSkill_of_cannot {c : Character} {db : SkillDatabase} {id : Nat}
    (h : c.canLearnSkill db id = false) : c.learnSkill db id = (false, c) := by
  unfold Character.learnSkill
  rw [if_pos h]

theorem learnSkill_of_can {c : Character} {db : SkillDatabase} {id : Nat}
    (h : c.canLearnSkill db id = true) :
    c.learnSkill db id = (true,
      { c with
        skillPoints := sub32 c.skillPoints 1
        learnedSkills := fun i => if i = id then true else c.learnedSkills i
        skillLevels := fun i => if i = id then some 1 else c.skillLevels i }) := by
  obtain ⟨-, -, hcan⟩ := (canLearnSkill_iff c db id).1 h
  obtain ⟨node, skill, -, -, hs, -⟩ := (canLearn_iff _ _ _ _ _ _).1 hcan
  unfold Character.learnSkill
  rw [if_neg (by rw [h]; decide), hs]

theorem learnSkill_fst (c : Character) (db : SkillDatabase) (id : Nat) :
    (c.learnSkill db id).1 = c.canLearnSkill db id := by
  cases h : c.canLearnSkill db id with
  | false => rw [learnSkill_of_cannot h]
  | true => rw [learnSkill_of_can h]

theorem sub32_one_of_pos {x : Int} (h : InI32 x) (hpos : 0 < x) : sub32 x 1 = x - 1 := by
  unfold InI32 at h
  unfold sub32 wrap32
  omega

/-- C12: `learnSkill` returns true exactly when, before the call, there is a skill
point, the skill is not learned, it is a node of the tree with every
prerequisite learned, the catalog contains it, the character level meets the
catalog's required level and the catalog's prerequisite skill, if any, is held
at the required level.  On success the skill points drop by exactly 1, the skill
is learned at level 1 and nothing else changes.  (`skillPoints` holds an
`int32_t` value.) -/
theorem learnSkill_spec (c : Character) (db : SkillDatabase) (id : Nat)
    (hsp : InI32 c.skillPoints) :
    ((c.learnSkill db id).1 = true ↔
      0 < c.skillPoints ∧ c.hasSkill id = false ∧
      ∃ node skill, c.skillTree.getNode id = some node ∧
        (∀ p ∈ node.prerequisites, c.learnedSkills p = true) ∧
        db.getSkill id = some skill ∧
        skill.requirement.requiredCharLevel ≤ c.actor.level ∧
        (skill.requirement.prerequisiteSkill = 0 ∨
          ∃ l, c.skillLevels skill.requirement.prerequisiteSkill = some l ∧
            skill.requirement.prerequisiteLevel ≤ l)) ∧
    ((c.learnSkill db id).1 = true →
      (c.learnSkill db id).2.skillPoints = c.skillPoints - 1 ∧
      (c.learnSkill db id).2.hasSkill id = true ∧
      (c.learnSkill db id).2.getSkillLevel id = 1 ∧
      (∀ i, i ≠ id → (c.learnSkill db id).2.hasSkill i = c.hasSkill i ∧
        (c.learnSkill db id).2.getSkillLevel i = c.getSkillLevel i) ∧
      (c.learnSkill db id).2.actor = c.actor ∧
      (c.learnSkill db id).2.skillTree = c.skillTree ∧
      (c.learnSkill db id).2.skillCooldowns = c.skillCooldowns ∧
      (c.learnSkill db id).2.lastUpdateTick = c.lastUpdateTick) := by
  constructor
  · rw [learnSkill_fst, canLearnSkill_iff, canLearn_iff]
  · intro h
    rw [learnSkill_fst] at h
    have hpos := ((canLearnSkill_iff c db id).1 h).1
    rw [learnSkill_of_can h]
    refine ⟨sub32_one_of_pos hsp hpos, ?_, ?_, ?_, rfl, rfl, rfl, rfl⟩
    · simp [Character.hasSkill]
    · simp [Character.getSkillLevel]
    · intro i hi
      simp [Character.hasSkill, Character.getSkillLevel, hi]

/-- Witness for C12: a fresh level-1 character with 3 points learns Slash (id 1)
and has 2 points and Slash at level 1; learning Power Strike (id 4) right after
fails and the points stay at 2. -/
theorem learnSkill_spec_witness :
    (((Character.mk0 1 "Hero").setSkillTree testSkillTree).learnSkill
      SkillDatabase.loadDefaultSkills 1).1 = true ∧
    (((Character.mk0 1 "Hero").setSkillTree testSkillTree).learnSkill
      SkillDatabase.loadDefaultSkills 1).2.skillPoints = 2 ∧
    (((Character.mk0 1 "Hero").setSkillTree testSkillTree).learnSkill
      SkillDatabase.loadDefaultSkills 1).2.getSkillLevel 1 = 1 ∧
    ((((Character.mk0 1 "Hero").setSkillTree testSkillTree).learnSkill
      SkillDatabase.loadDefaultSkills 1).2.learnSkill SkillDatabase.loadDefaultSkills 4).1
        = false ∧
    ((((Character.mk0 1 "Hero").setSkillTree testSkillTree).learnSkill
      SkillDatabase.loadDefaultSkills 1).2.learnSkill
        SkillDatabase.loadDefaultSkills 4).2.skillPoints = 2 := by
  have h := learnSkill_spec ((Character.mk0 1 "Hero").setSkillTree testSkillTree)
    SkillDatabase.loadDefaultSkills 1 (by decide)
  have ht : (((Character.mk0 1 "Hero").setSkillTree testSkillTree).learnSkill
      SkillDatabase.loadDefaultSkills 1).1 = true := by decide
  have h2 := h.2 ht
  refine ⟨ht, ?_, h2.2.2.1, by decide, by decide⟩
  rw [h2.1]
  decide

/-- C13: for a skill whose catalog requirement names a prerequisite skill `P`
with required level `Lp`, `SkillTree::canLearn` (and with it `learnSkill`) returns
false whenever the level map has no entry for `P` or one below `Lp`, whatever
else holds; with `P` at a level of at least `Lp`, the node present, its
prerequisites learned and the character level met, it returns true. -/
theorem canLearn_prerequisite_level (t : SkillTree) (db : SkillDatabase) (id : Nat)
    (learned : Nat → Bool) (levels : Nat → Option Int) (charLevel : Int) (skill : Skill)
    (hskill : db.getSkill id = some skill) (hP : skill.requirement.prerequisiteSkill ≠ 0) :
    ((levels skill.requirement.prerequisiteSkill = none ∨
        ∃ l, levels skill.requirement.prerequisiteSkill = some l ∧
          l < skill.requirement.prerequisiteLevel) →
      t.canLearn db id learned levels charLevel = false ∧
      ∀ c : Character, c.skillTree = t → c.learnedSkills = learned →
        c.skillLevels = levels → c.actor.level = charLevel →
        (c.learnSkill db id).1 = false) ∧
    (∀ node l, t.getNode id = some node →
      (∀ p ∈ node.prerequisites, learned p = true) →
      skill.requirement.requiredCharLevel ≤ charLevel →
      levels skill.requirement.prerequisiteSkill = some l →
      skill.requirement.prerequisiteLevel ≤ l →
      t.canLearn db id learned levels charLevel = true) := by
  constructor
  · intro hlow
    have hfalse : t.canLearn db id learned levels charLevel = false := by
      cases hc : t.canLearn db id learned levels charLevel with
      | false => rfl
      | true =>
        exfalso
        obtain ⟨node, s, -, -, hs, -, hor⟩ := (canLearn_iff _ _ _ _ _ _).1 hc
        rw [hskill] at hs
        cases hs
        rcases hor with h0 | ⟨l, hl, hle⟩
        · exact hP h0
        · rcases hlow with hn | ⟨l2, hl2, hlt⟩
          · rw [hn] at hl
            exact Option.noConfusion hl
          · rw [hl2] at hl
            cases hl
            omega
    refine ⟨hfalse, ?_⟩
    intro c ht hl hv hlev
    rw [learnSkill_fst]
    cases hc : c.canLearnSkill db id with
    | false => rfl
    | true =>
      exfalso
      have := ((canLearnSkill_iff c db id).1 hc).2.2
      rw [ht, hl, hv, hlev, hfalse] at this
      exact Bool.noConfusion this
  · intro node l hn hpre hlev hl hle
    exact (canLearn_iff _ _ _ _ _ _).2 ⟨node, skill, hn, hpre, hskill, hlev, Or.inr ⟨l, hl, hle⟩⟩

/-- Witness for C13: Power Strike (id 4, requires Slash at level 2 and character
level 5) on the test tree with Slash learned at character level 5: learnable
with Slash at level 2, not learnable with Slash at level 1. -/
theorem canLearn_prerequisite_level_witness :
    testSkillTree.canLearn SkillDatabase.loadDefaultSkills 4 (fun i => decide (i = 1))
      (fun i => if i = 1 then some 2 else none) 5 = true ∧
    testSkillTree.canLearn SkillDatabase.loadDefaultSkills 4 (fun i => decide (i = 1))
      (fun i => if i = 1 then some 1 else none) 5 = false := by
  have hs : SkillDatabase.loadDefaultSkills.getSkill 4 = some
      { id := 4, name := "Power Strike", manaCost := 25, cooldown := f32Lit 5 1, maxLevel := 5,
        requirement :=
          { prerequisiteSkill := 1, prerequisiteLevel := 2, requiredCharLevel := 5 } } := by
    decide
  have h2 := canLearn_prerequisite_level testSkillTree SkillDatabase.loadDefaultSkills 4
    (fun i => decide (i = 1)) (fun i => if i = 1 then some 2 else none) 5 _ hs (by decide)
  have h1 := canLearn_prerequisite_level testSkillTree SkillDatabase.loadDefaultSkills 4
    (fun i => decide (i = 1)) (fun i => if i = 1 then some 1 else none) 5 _ hs (by decide)
  exact ⟨h2.2 { skillId := 4, prerequisites := [1], unlocks := [7], tier := 2 } 2 (by decide)
      (by decide) (by decide) (by decide) (by decide),
    (h1.1 (Or.inr ⟨1, by decide, by decide⟩)).1⟩
/-! ## Upgrading skills -/

theorem canUpgradeSkill_iff (c : Character) (db : SkillDatabase) (id : Nat) :
    c.canUpgradeSkill db id = true ↔
      0 < c.skillPoints ∧ c.hasSkill id = true ∧
      ∃ skill l, db.getSkill id = some skill ∧ c.skillLevels id = some l ∧
        l < skill.maxLevel := by
  unfold Character.canUpgradeSkill
  by_cases hsp : c.skillPoints ≤ 0
  · rw [if_pos hsp]
    simp only [Bool.false_eq_true, false_iff, not_and]
    intro h
    omega
  · rw [if_neg hsp]
    have hpos : 0 < c.skillPoints := by omega
    cases hh : c.hasSkill id with
    | false => simp
    | true =>
      cases hs : db.getSkill id with
      | none => simp
      | some skill =>
        cases hl : c.skillLevels id with
        | none => simp
        | some l => simp [hpos]

theorem upgradeSkill_of_cannot {c : Character} {db : SkillDatabase} {id : Nat}
    (h : c.canUpgradeSkill db id = false) : c.upgradeSkill db id = (false, c) := by
  unfold Character.upgradeSkill
  rw [if_pos h]

theorem upgradeSkill_of_can {c : Character} {db : SkillDatabase} {id : Nat}
    (h : c.canUpgradeSkill db id = true) :
    c.upgradeSkill db id = (true,
      { c with
        skillPoints := sub32 c.skillPoints 1
        skillLevels := fun i =>
          if i = id then some (add32 (c.getSkillLevel id) 1) else c.skillLevels i }) := by
  unfold Character.upgradeSkill
  rw [if_neg (by rw [h]; decide)]

theorem upgradeSkill_fst (c : Character) (db : SkillDatabase) (id : Nat) :
    (c.upgradeSkill db id).1 = c.canUpgradeSkill db id := by
  cases h : c.canUpgradeSkill db id with
  | false => rw [upgradeSkill_of_cannot h]
  | true => rw [upgradeSkill_of_can h]

theorem getSkillLevel_of_some {c : Character} {id : Nat} {l : Int}
    (h : c.skillLevels id = some l) : c.getSkillLevel id = l := by
  unfold Character.getSkillLevel
  rw [h]

/-- C14: `upgradeSkill` returns true exactly when there is a skill point, the skill
is learned, the catalog contains it and its current level is below the catalog
maximum.  On success the skill points drop by exactly 1 and that skill's level
rises by exactly 1 while every other level stays.  When `learnSkill` and then
`upgradeSkill` of the same skill both succeed, the skill is at level 2 and the
skill points are exactly 2 lower than before the learn.  (`skillPoints` and the
catalog maximum hold `int32_t` values.) -/
theorem upgradeSkill_spec (c : Character) (db : SkillDatabase) (id : Nat)
    (hsp : InI32 c.skillPoints) :
    ((c.upgradeSkill db id).1 = true ↔
      0 < c.skillPoints ∧ c.hasSkill id = true ∧
      ∃ skill l, db.getSkill id = some skill ∧ c.skillLevels id = some l ∧
        l < skill.maxLevel) ∧
    (KeysMatch c →
      ((c.upgradeSkill db id).1 = true ↔
        0 < c.skillPoints ∧ c.hasSkill id = true ∧
        ∃ skill, db.getSkill id = some skill ∧ c.getSkillLevel id < skill.maxLevel)) ∧
    ((c.upgradeSkill db id).1 = true →
      (c.upgradeSkill db id).2.skillPoints = c.skillPoints - 1 ∧
      (∀ skill, db.getSkill id = some skill → skill.maxLevel ≤ 2147483647 →
        -2147483648 ≤ c.getSkillLevel id →
        (c.upgradeSkill db id).2.getSkillLevel id = c.getSkillLevel id + 1) ∧
      (∀ i, i ≠ id → (c.upgradeSkill db id).2.getSkillLevel i = c.getSkillLevel i) ∧
      (c.upgradeSkill db id).2.learnedSkills = c.learnedSkills ∧
      (c.upgradeSkill db id).2.actor = c.actor) ∧
    ((c.learnSkill db id).1 = true → ((c.learnSkill db id).2.upgradeSkill db id).1 = true →
      ((c.learnSkill db id).2.upgradeSkill db id).2.getSkillLevel id = 2 ∧
      ((c.learnSkill db id).2.upgradeSkill db id).2.skillPoints = c.skillPoints - 2) := by
  refine ⟨?_, ?_, ?_, ?_⟩
  · rw [upgradeSkill_fst, canUpgradeSkill_iff]
  · intro hk
    rw [upgradeSkill_fst, canUpgradeSkill_iff]
    constructor
    · rintro ⟨h1, h2, skill, l, hs, hl, hlt⟩
      exact ⟨h1, h2, skill, hs, by rw [getSkillLevel_of_some hl]; exact hlt⟩
    · rintro ⟨h1, h2, skill, hs, hlt⟩
      have hne := (hk id).1 h2
      cases hl : c.skillLevels id with
      | none => exact absurd hl hne
      | some l =>
        rw [getSkillLevel_of_some hl] at hlt
        exact ⟨h1, h2, skill, l, hs, rfl, hlt⟩
  · intro h
    rw [upgradeSkill_fst] at h
    obtain ⟨hpos, -, skill, l, hs, hl, hlt⟩ := (canUpgradeSkill_iff c db id).1 h
    rw [upgradeSkill_of_can h]
    refine ⟨sub32_one_of_pos hsp hpos, ?_, ?_, rfl, rfl⟩
    · intro skill2 hs2 hmax hmin
      rw [hs] at hs2
      cases hs2
      rw [getSkillLevel_of_some hl] at hmin ⊢
      simp only [Character.getSkillLevel, if_true]
      unfold add32 wrap32
      omega
    · intro i hi
      simp [Character.getSkillLevel, hi]
  · intro h1 h2
    rw [learnSkill_fst] at h1
    have hpos := ((canLearnSkill_iff c db id).1 h1).1
    rw [learnSkill_of_can h1] at h2 ⊢
    rw [upgradeSkill_fst] at h2
    have hpos2 := ((canUpgradeSkill_iff _ db id).1 h2).1
    rw [upgradeSkill_of_can h2]
    have e1 : sub32 c.skillPoints 1 = c.skillPoints - 1 := sub32_one_of_pos hsp hpos
    simp only [e1] at hpos2 ⊢
    constructor
    · simp only [Character.getSkillLevel, if_true]
      decide
    · unfold InI32 at hsp
      unfold sub32 wrap32
      omega

/-- Witness for C14: a fresh character learns Slash and upgrades it: Slash is at
level 2 and 1 of the 3 skill points is left. -/
theorem upgradeSkill_spec_witness :
    ((((Character.mk0 1 "Hero").setSkillTree testSkillTree).learnSkill
      SkillDatabase.loadDefaultSkills 1).2.upgradeSkill
        SkillDatabase.loadDefaultSkills 1).2.getSkillLevel 1 = 2 ∧
    ((((Character.mk0 1 "Hero").setSkillTree testSkillTree).learnSkill
      SkillDatabase.loadDefaultSkills 1).2.upgradeSkill
        SkillDatabase.loadDefaultSkills 1).2.skillPoints = 1 := by
  have h := (upgradeSkill_spec ((Character.mk0 1 "Hero").setSkillTree testSkillTree)
    SkillDatabase.loadDefaultSkills 1 (by decide)).2.2.2 (by decide) (by decide)
  exact ⟨h.1, by rw [h.2]; decide⟩
/-! ## Using skills -/

theorem useSkill_cases (c : Character) (db : SkillDatabase) (id : Nat) :
    (c.useSkill db id = (false, c) ∧
      ¬(c.hasSkill id = true ∧ (∃ s, db.getSkill id = some s) ∧
        (c.skillCooldowns id = none ∨
          ∃ cd, c.skillCooldowns id = some cd ∧ cd ≤ c.lastUpdateTick) ∧
        (c.actor.useMana (c.skillInUse db id).getScaledManaCost).1 = true)) ∨
    (c.useSkill db id = (true,
        { c with
          actor := (c.actor.useMana (c.skillInUse db id).getScaledManaCost).2
          skillCooldowns := fun i =>
            if i = id then
              some ((c.lastUpdateTick + Character.cooldownTicks (c.skillInUse db id)) %
                18446744073709551616)
            else c.skillCooldowns i }) ∧
      c.hasSkill id = true ∧ (∃ s, db.getSkill id = some s) ∧
      (c.skillCooldowns id = none ∨
        ∃ cd, c.skillCooldowns id = some cd ∧ cd ≤ c.lastUpdateTick) ∧
      (c.actor.useMana (c.skillInUse db id).getScaledManaCost).1 = true) := by
  unfold Character.useSkill
  cases hh : c.hasSkill id with
  | false => left; simp
  | true =>
    cases hs : db.getSkill id with
    | none => left; simp
    | some s =>
      cases hcd : c.skillCooldowns id with
      | some cd =>
        by_cases hlt : c.lastUpdateTick < cd
        · left
          simp only [Bool.true_eq_false, if_false, hlt, decide_True, if_true, true_and]
          intro hcon
          rcases hcon.2.1 with h | ⟨cd2, h, hle⟩
          · exact Option.noConfusion h
          · cases h
            omega
        · cases hm : (c.actor.useMana (c.skillInUse db id).getScaledManaCost).1 with
          | false => left; simp [hlt, hm]
          | true =>
            right
            simp only [Bool.true_eq_false, if_false, hlt, decide_False, hm]
            exact ⟨rfl, trivial, ⟨s, rfl⟩, Or.inr ⟨cd, rfl, by omega⟩, trivial⟩
      | none =>
        cases hm : (c.actor.useMana (c.skillInUse db id).getScaledManaCost).1 with
        | false => left; simp [hm]
        | true =>
          right
          simp only [Bool.true_eq_false, if_false, hm]
          exact ⟨rfl, trivial, ⟨s, rfl⟩, Or.inl trivial, trivial⟩

theorem useMana_cases (a : Actor) (amount : Int) :
    (amount ≤ 0 ∧ a.useMana amount = (true, a)) ∨
    (0 < amount ∧ a.runtimeStats.currentMp < amount ∧ a.useMana amount = (false, a)) ∨
    (0 < amount ∧ amount ≤ a.runtimeStats.currentMp ∧
      a.useMana amount = (true, a.withMp (sub32 a.runtimeStats.currentMp amount))) := by
  unfold Actor.useMana
  by_cases h1 : amount ≤ 0
  · left
    rw [if_pos h1]
    exact ⟨h1, rfl⟩
  · right
    rw [if_neg h1]
    by_cases h2 : a.runtimeStats.currentMp < amount
    · left
      rw [if_pos h2]
      exact ⟨by omega, h2, rfl⟩
    · right
      rw [if_neg h2]
      exact ⟨by omega, by omega, rfl⟩

/-- C16: rejected operations are atomic: whenever `Actor::useMana`, `learnSkill`,
`upgradeSkill` or `useSkill` returns false, the state after the call is the state
before it. -/
theorem rejected_operations_atomic (c : Character) (db : SkillDatabase) (id : Nat)
    (amount : Int) :
    ((c.actor.useMana amount).1 = false → (c.actor.useMana amount).2 = c.actor) ∧
    ((c.learnSkill db id).1 = false → (c.learnSkill db id).2 = c) ∧
    ((c.upgradeSkill db id).1 = false → (c.upgradeSkill db id).2 = c) ∧
    ((c.useSkill db id).1 = false → (c.useSkill db id).2 = c) := by
  refine ⟨?_, ?_, ?_, ?_⟩
  · intro h
    rcases useMana_cases c.actor amount with ⟨-, e⟩ | ⟨-, -, e⟩ | ⟨-, -, e⟩
    · rw [e]
    · rw [e]
    · rw [e] at h
      exact Bool.noConfusion h
  · intro h
    rw [learnSkill_fst] at h
    rw [learnSkill_of_cannot h]
  · intro h
    rw [upgradeSkill_fst] at h
    rw [upgradeSkill_of_cannot h]
  · intro h
    rcases useSkill_cases c db id with ⟨e, -⟩ | ⟨e, -⟩
    · rw [e]
    · rw [e] at h
      exact Bool.noConfusion h

/-- Witness for C16: on a fresh character with the test tree, using the unlearned
Slash, learning Power Strike, upgrading Slash and spending 500 mana are all
rejected and leave the character as it was. -/
theorem rejected_operations_atomic_witness :
    (((Character.mk0 1 "Hero").setSkillTree testSkillTree).useSkill
      SkillDatabase.loadDefaultSkills 1).2 =
        (Character.mk0 1 "Hero").setSkillTree testSkillTree ∧
    (((Character.mk0 1 "Hero").setSkillTree testSkillTree).learnSkill
      SkillDatabase.loadDefaultSkills 4).2 =
        (Character.mk0 1 "Hero").setSkillTree testSkillTree ∧
    (((Character.mk0 1 "Hero").setSkillTree testSkillTree).upgradeSkill
      SkillDatabase.loadDefaultSkills 1).2 =
        (Character.mk0 1 "Hero").setSkillTree testSkillTree ∧
    (((Character.mk0 1 "Hero").setSkillTree testSkillTree).actor.useMana 500).2 =
        ((Character.mk0 1 "Hero").setSkillTree testSkillTree).actor :=
  ⟨(rejected_operations_atomic ((Character.mk0 1 "Hero").setSkillTree testSkillTree)
      SkillDatabase.loadDefaultSkills 1 500).2.2.2 (by decide),
    (rejected_operations_atomic ((Character.mk0 1 "Hero").setSkillTree testSkillTree)
      SkillDatabase.loadDefaultSkills 4 500).2.1 (by decide),
    (rejected_operations_atomic ((Character.mk0 1 "Hero").setSkillTree testSkillTree)
      SkillDatabase.loadDefaultSkills 1 500).2.2.1 (by decide),
    (rejected_operations_atomic ((Character.mk0 1 "Hero").setSkillTree testSkillTree)
      SkillDatabase.loadDefaultSkills 1 500).1 (by decide)⟩

/-- C17 as stated fails for a negative scaled mana cost: `giftCharacter` uses skill
1 of `giftCatalog`, whose scaled cost is -5; the call succeeds and the MP stays at
132 instead of changing by the cost. -/
theorem useSkill_negative_cost_keeps_mp :
    (giftCharacter.useSkill giftCatalog 1).1 = true ∧
    (giftCharacter.skillInUse giftCatalog 1).getScaledManaCost = -5 ∧
    giftCharacter.actor.runtimeStats.currentMp = 132 ∧
    (giftCharacter.useSkill giftCatalog 1).2.actor.runtimeStats.currentMp = 132 ∧
    (giftCharacter.useSkill giftCatalog 1).2.actor.runtimeStats.currentMp ≠
      giftCharacter.actor.runtimeStats.currentMp -
        (giftCharacter.skillInUse giftCatalog 1).getScaledManaCost := by
  decide

/-- C17, amended: `useSkill` returns true exactly when the skill is learned, the
catalog contains it, the cooldown map has no entry for it or one whose expiry is
at most the current tick, and the current MP is at least the scaled mana cost at
the character's skill level or that cost is not positive.  On success the
current MP decreases by exactly the scaled mana cost when that cost is positive
and is unchanged when it is not; the recorded expiry of the skill becomes the
current tick plus `truncate(scaledCooldownSeconds * 1000)` (in `uint64_t`
arithmetic), no other cooldown changes and nothing else changes.  (`currentMp`
holds an `int32_t` value.) -/
theorem useSkill_spec (c : Character) (db : SkillDatabase) (id : Nat)
    (hmp : InI32 c.actor.runtimeStats.currentMp) :
    ((c.useSkill db id).1 = true ↔
      c.hasSkill id = true ∧ (∃ s, db.getSkill id = some s) ∧
      (c.skillCooldowns id = none ∨
        ∃ cd, c.skillCooldowns id = some cd ∧ cd ≤ c.lastUpdateTick) ∧
      ((c.skillInUse db id).getScaledManaCost ≤ c.actor.runtimeStats.currentMp ∨
        (c.skillInUse db id).getScaledManaCost ≤ 0)) ∧
    ((c.useSkill db id).1 = true →
      (c.useSkill db id).2.actor.runtimeStats.currentMp =
        (if 0 < (c.skillInUse db id).getScaledManaCost then
          c.actor.runtimeStats.currentMp - (c.skillInUse db id).getScaledManaCost
        else c.actor.runtimeStats.currentMp) ∧
      (c.useSkill db id).2.skillCooldowns id =
        some ((c.lastUpdateTick + Character.cooldownTicks (c.skillInUse db id)) %
          18446744073709551616) ∧
      (∀ i, i ≠ id → (c.useSkill db id).2.skillCooldowns i = c.skillCooldowns i) ∧
      (c.useSkill db id).2.actor.runtimeStats.currentHp = c.actor.runtimeStats.currentHp ∧
      (c.useSkill db id).2.actor.level = c.actor.level ∧
      (c.useSkill db id).2.skillPoints = c.skillPoints ∧
      (c.useSkill db id).2.learnedSkills = c.learnedSkills ∧
      (c.useSkill db id).2.skillLevels = c.skillLevels ∧
      (c.useSkill db id).2.lastUpdateTick = c.lastUpdateTick) ∧
    (∀ s, db.getSkill id = some s → c.getSkillLevel id ≤ s.maxLevel →
      (c.skillInUse db id).level = c.getSkillLevel id ∧
      (c.skillInUse db id).manaCost = s.manaCost ∧
      (c.skillInUse db id).cooldown = s.cooldown) := by
  unfold InI32 at hmp
  have hmana : (c.actor.useMana (c.skillInUse db id).getScaledManaCost).1 = true ↔
      ((c.skillInUse db id).getScaledManaCost ≤ c.actor.runtimeStats.currentMp ∨
        (c.skillInUse db id).getScaledManaCost ≤ 0) := by
    rcases useMana_cases c.actor (c.skillInUse db id).getScaledManaCost with
      ⟨h, e⟩ | ⟨h1, h2, e⟩ | ⟨h1, h2, e⟩
    · rw [e]; exact ⟨fun _ => Or.inr h, fun _ => rfl⟩
    · rw [e]
      constructor
      · intro h; exact Bool.noConfusion h
      · intro h; omega
    · rw [e]; exact ⟨fun _ => Or.inl h2, fun _ => rfl⟩
  refine ⟨?_, ?_, ?_⟩
  · rcases useSkill_cases c db id with ⟨e, hn⟩ | ⟨e, h1, h2, h3, h4⟩
    · rw [e]
      constructor
      · intro h; exact Bool.noConfusion h
      · rintro ⟨h1, h2, h3, h4⟩
        exact absurd ⟨h1, h2, h3, hmana.2 h4⟩ hn
    · rw [e]
      exact ⟨fun _ => ⟨h1, h2, h3, hmana.1 h4⟩, fun _ => rfl⟩
  · intro h
    rcases useSkill_cases c db id with ⟨e, -⟩ | ⟨e, -, -, -, -⟩
    · rw [e] at h
      exact Bool.noConfusion h
    · rw [e]
      refine ⟨?_, ?_, ?_, ?_, ?_, rfl, rfl, rfl, rfl⟩
      · rcases useMana_cases c.actor (c.skillInUse db id).getScaledManaCost with
          ⟨h1, e2⟩ | ⟨h1, h2, e2⟩ | ⟨h1, h2, e2⟩
        · simp only [e2]
          rw [if_neg (by omega)]
        · simp only [e2]
          rw [if_pos h1]
          exfalso
          rcases useSkill_cases c db id with ⟨e3, -⟩ | ⟨-, -, -, -, h4⟩
          · rw [e3] at h
            exact Bool.noConfusion h
          · rw [e2] at h4
            exact Bool.noConfusion h4
        · simp only [e2]
          rw [if_pos h1]
          simp only [Actor.withMp]
          unfold sub32 wrap32
          omega
      · simp
      · intro i hi
        simp [hi]
      · rcases useMana_cases c.actor (c.skillInUse db id).getScaledManaCost with
          ⟨-, e2⟩ | ⟨-, -, e2⟩ | ⟨-, -, e2⟩ <;> simp only [e2, Actor.withMp]
      · rcases useMana_cases c.actor (c.skillInUse db id).getScaledManaCost with
          ⟨-, e2⟩ | ⟨-, -, e2⟩ | ⟨-, -, e2⟩ <;> simp only [e2, Actor.withMp]
  · intro s hs hle
    unfold Character.skillInUse SkillDatabase.getSkillCopy Skill.setLevel
    rw [hs]
    exact ⟨min_eq_left hle, rfl, rfl⟩

/-- Witness for C17: a fresh character that learned Slash uses it at tick 0: the
MP falls from 132 to 122 and the cooldown expires at tick 2000; a second use at
tick 0 is rejected. -/
theorem useSkill_spec_witness :
    ((((Character.mk0 1 "Hero").setSkillTree testSkillTree).learnSkill
      SkillDatabase.loadDefaultSkills 1).2.useSkill SkillDatabase.loadDefaultSkills 1).1
        = true ∧
    ((((Character.mk0 1 "Hero").setSkillTree testSkillTree).learnSkill
      SkillDatabase.loadDefaultSkills 1).2.useSkill
        SkillDatabase.loadDefaultSkills 1).2.actor.runtimeStats.currentMp = 122 ∧
    ((((Character.mk0 1 "Hero").setSkillTree testSkillTree).learnSkill
      SkillDatabase.loadDefaultSkills 1).2.useSkill
        SkillDatabase.loadDefaultSkills 1).2.skillCooldowns 1 = some 2000 := by
  have h := useSkill_spec (((Character.mk0 1 "Hero").setSkillTree testSkillTree).learnSkill
      SkillDatabase.loadDefaultSkills 1).2 SkillDatabase.loadDefaultSkills 1 (by decide)
  have ht : ((((Character.mk0 1 "Hero").setSkillTree testSkillTree).learnSkill
      SkillDatabase.loadDefaultSkills 1).2.useSkill SkillDatabase.loadDefaultSkills 1).1
        = true := by decide
  have h2 := h.2.1 ht
  refine ⟨ht, ?_, ?_⟩
  · rw [h2.1]; decide
  · rw [h2.2.1]; decide
/-! ## Skill-state invariant -/

theorem skillStateOk_congr {db : SkillDatabase} {c d : Character}
    (h1 : d.learnedSkills = c.learnedSkills) (h2 : d.skillLevels = c.skillLevels)
    (hc : SkillStateOk db c) : SkillStateOk db d := by
  unfold SkillStateOk KeysMatch at *
  rw [h1, h2]
  exact hc

theorem skillStateOk_mk0 (db : SkillDatabase) (id : Nat) (name : String) :
    SkillStateOk db (Character.mk0 id name) := by
  unfold SkillStateOk KeysMatch Character.mk0
  constructor
  · intro i
    simp
  · intro i l h
    exact Option.noConfusion h

theorem character_checkLevelUpIter_skills (n : Nat) :
    ∀ c : Character, (Character.checkLevelUpIter n c).learnedSkills = c.learnedSkills ∧
      (Character.checkLevelUpIter n c).skillLevels = c.skillLevels ∧
      (Character.checkLevelUpIter n c).skillCooldowns = c.skillCooldowns ∧
      (Character.checkLevelUpIter n c).lastUpdateTick = c.lastUpdateTick ∧
      (Character.checkLevelUpIter n c).skillTree = c.skillTree := by
  induction n with
  | zero => intro c; exact ⟨rfl, rfl, rfl, rfl, rfl⟩
  | succ n ih =>
    intro c
    unfold Character.checkLevelUpIter
    split_ifs
    · exact ih (Character.levelUpOnce c)
    · exact ⟨rfl, rfl, rfl, rfl, rfl⟩

theorem character_gainExperienceIter_skills (n : Nat) (c : Character) (e : Int) :
    (c.gainExperienceIter n e).learnedSkills = c.learnedSkills ∧
    (c.gainExperienceIter n e).skillLevels = c.skillLevels := by
  unfold Character.gainExperienceIter
  split_ifs
  · exact ⟨rfl, rfl⟩
  · have h := character_checkLevelUpIter_skills n
      { c with actor := { c.actor with experience := wrap64 (c.actor.experience + e) } }
    exact ⟨h.1, h.2.1⟩

theorem character_gainExperience_eq_some {fuel : Nat} {c d : Character} {e : Int}
    (h : c.gainExperience fuel e = some d) :
    d = c.gainExperienceIter fuel e ∧ (0 < e → Actor.levelUpDue d.actor = false) := by
  unfold Character.gainExperience at h
  simp only at h
  split_ifs at h with h1 h2
  · exact ⟨(Option.some.inj h).symm, fun hpos => absurd h1 (by omega)⟩
  · have hd := (Option.some.inj h).symm
    refine ⟨hd, fun _ => ?_⟩
    rw [hd]
    simpa using h2

theorem skillStateOk_applyOp {db : SkillDatabase} (hdb : CatalogOk db) {c : Character}
    (hc : SkillStateOk db c) (op : CharacterOp) : SkillStateOk db (c.applyOp db op) := by
  cases op with
  | learnSkill id =>
    show SkillStateOk db (c.learnSkill db id).2
    cases h : c.canLearnSkill db id with
    | false => rw [learnSkill_of_cannot h]; exact hc
    | true =>
      rw [learnSkill_of_can h]
      obtain ⟨-, -, hcan⟩ := (canLearnSkill_iff c db id).1 h
      obtain ⟨node, skill, -, -, hs, -⟩ := (canLearn_iff _ _ _ _ _ _).1 hcan
      obtain ⟨hk, hr⟩ := hc
      constructor
      · intro i
        by_cases hi : i = id
        · subst hi
          simp
        · simp only [hi, if_false]
          exact hk i
      · intro i l hl
        by_cases hi : i = id
        · subst hi
          simp only [if_true, Option.some.injEq] at hl
          subst hl
          exact ⟨skill, hs, le_refl 1, (hdb i skill hs).1⟩
        · simp only [hi, if_false] at hl
          exact hr i l hl
  | upgradeSkill id =>
    show SkillStateOk db (c.upgradeSkill db id).2
    cases h : c.canUpgradeSkill db id with
    | false => rw [upgradeSkill_of_cannot h]; exact hc
    | true =>
      rw [upgradeSkill_of_can h]
      obtain ⟨-, hh, skill, l, hs, hl, hlt⟩ := (canUpgradeSkill_iff c db id).1 h
      obtain ⟨hk, hr⟩ := hc
      obtain ⟨s2, hs2, hl1, -⟩ := hr id l hl
      have hmax := (hdb id skill hs).2
      constructor
      · intro i
        by_cases hi : i = id
        · subst hi
          simp only [if_true]
          exact ⟨fun _ => by simp, fun _ => hh⟩
        · simp only [hi, if_false]
          exact hk i
      · intro i l2 hl2
        by_cases hi : i = id
        · subst hi
          simp only [if_true, Option.some.injEq] at hl2
          rw [getSkillLevel_of_some hl] at hl2
          have e : add32 l 1 = l + 1 := by
            unfold add32 wrap32
            omega
          rw [e] at hl2
          subst hl2
          exact ⟨skill, hs, by omega, by omega⟩
        · simp only [hi, if_false] at hl2
          exact hr i l2 hl2
  | useSkill id =>
    show SkillStateOk db (c.useSkill db id).2
    rcases useSkill_cases c db id with ⟨e, -⟩ | ⟨e, -⟩
    · rw [e]; exact hc
    · rw [e]; exact skillStateOk_congr rfl rfl hc
  | update tick => exact skillStateOk_congr rfl rfl hc
  | gainExperience n e =>
    have h := character_gainExperienceIter_skills n c e
    exact skillStateOk_congr h.1 h.2 hc

theorem catalogOk_loadDefaultSkills : CatalogOk SkillDatabase.loadDefaultSkills := by
  intro id s hs
  have hmem : s ∈ SkillDatabase.loadDefaultSkills.skills := List.mem_of_find?_eq_some hs
  have hall : ∀ t ∈ SkillDatabase.loadDefaultSkills.skills,
      1 ≤ t.maxLevel ∧ t.maxLevel ≤ 2147483647 := by decide
  exact hall s hmem

/-- C15: skill-state well-formedness is an invariant of `Character` for a fixed
catalog whose maximum levels are at least 1: it holds for a new character and
is kept by `learnSkill`, `upgradeSkill`, `useSkill`, `update` and
`gainExperience`, hence by every sequence of such calls: the key set of the
skill-level map equals the learned-skills set, and every learned skill's level
lies between 1 and the catalog maximum. -/
theorem skill_state_invariant (db : SkillDatabase) (hdb : CatalogOk db) (c : Character)
    (hc : SkillStateOk db c) :
    (∀ id name, SkillStateOk db (Character.mk0 id name)) ∧
    (∀ tree, SkillStateOk db (c.setSkillTree tree)) ∧
    (∀ op, SkillStateOk db (c.applyOp db op)) ∧
    (∀ ops : List CharacterOp, SkillStateOk db (ops.foldl (Character.applyOp db) c)) ∧
    (∀ fuel e d, c.gainExperience fuel e = some d → SkillStateOk db d) ∧
    (∀ id, c.hasSkill id = true →
      ∃ s, db.getSkill id = some s ∧ 1 ≤ c.getSkillLevel id ∧ c.getSkillLevel id ≤ s.maxLevel) := by
  refine ⟨skillStateOk_mk0 db, fun _ => skillStateOk_congr rfl rfl hc,
    skillStateOk_applyOp hdb hc, ?_, ?_, ?_⟩
  · intro ops
    induction ops generalizing c with
    | nil => exact hc
    | cons op rest ih => exact ih (c.applyOp db op) (skillStateOk_applyOp hdb hc op)
  · intro fuel e d hd
    rw [(character_gainExperience_eq_some hd).1]
    exact skillStateOk_applyOp hdb hc (.gainExperience fuel e)
  · intro id hid
    have hne := (hc.1 id).1 hid
    cases hl : c.skillLevels id with
    | none => exact absurd hl hne
    | some l =>
      obtain ⟨s, hs, h1, h2⟩ := hc.2 id l hl
      rw [getSkillLevel_of_some hl]
      exact ⟨s, hs, h1, h2⟩

/-- Witness for C15: a fresh character on the test tree after learning Slash,
upgrading it twice, using it, a tick and 2000 experience. -/
theorem skill_state_invariant_witness :
    SkillStateOk SkillDatabase.loadDefaultSkills
      ([CharacterOp.learnSkill 1, .upgradeSkill 1, .upgradeSkill 1, .useSkill 1,
        .update 16, .gainExperience 10 2000].foldl
        (Character.applyOp SkillDatabase.loadDefaultSkills)
        ((Character.mk0 1 "Hero").setSkillTree testSkillTree)) :=
  (skill_state_invariant SkillDatabase.loadDefaultSkills catalogOk_loadDefaultSkills
    ((Character.mk0 1 "Hero").setSkillTree testSkillTree)
    (skillStateOk_congr rfl rfl (skillStateOk_mk0 _ 1 "Hero"))).2.2.2.1 _
/-! ## Skill points and levels -/

theorem levelUpPasses_le (n : Nat) : ∀ a : Actor, Actor.levelUpPasses n a ≤ n := by
  induction n with
  | zero => intro a; exact le_refl 0
  | succ n ih =>
    intro a
    unfold Actor.levelUpPasses
    split_ifs
    · exact Nat.succ_le_succ (ih _)
    · exact Nat.zero_le _

theorem iterate_add32_one (k : Nat) (x : Int) (hx : InI32 x) :
    (fun s => add32 s 1)^[k] x = wrap32 (x + k) := by
  induction k with
  | zero =>
    simp only [Function.iterate_zero, id_eq, Nat.cast_zero, add_zero]
    exact (wrap32_of_inI32 hx).symm
  | succ k ih =>
    rw [Function.iterate_succ_apply', ih]
    unfold add32 wrap32
    push_cast
    omega

theorem actor_checkLevelUpIter_level (n : Nat) :
    ∀ a : Actor, (Actor.checkLevelUpIter n a).level =
      (fun s => add32 s 1)^[Actor.levelUpPasses n a] a.level := by
  induction n with
  | zero => intro a; rfl
  | succ n ih =>
    intro a
    unfold Actor.checkLevelUpIter Actor.levelUpPasses
    split_ifs
    · rw [ih, Function.iterate_succ_apply]
      rfl
    · rfl

theorem character_checkLevelUpIter_actor (n : Nat) :
    ∀ c : Character, (Character.checkLevelUpIter n c).actor =
      Actor.checkLevelUpIter n c.actor := by
  induction n with
  | zero => intro c; rfl
  | succ n ih =>
    intro c
    unfold Character.checkLevelUpIter Actor.checkLevelUpIter
    split_ifs
    · rw [ih]
      rfl
    · rfl

theorem character_checkLevelUpIter_points (n : Nat) :
    ∀ c : Character, (Character.checkLevelUpIter n c).skillPoints =
      (fun s => add32 s 1)^[Actor.levelUpPasses n c.actor] c.skillPoints := by
  induction n with
  | zero => intro c; rfl
  | succ n ih =>
    intro c
    unfold Character.checkLevelUpIter Actor.levelUpPasses
    split_ifs
    · rw [ih, Function.iterate_succ_apply]
      rfl
    · rfl

theorem character_checkLevelUpIter_of_not_due {c : Character}
    (h : Actor.levelUpDue c.actor = false) (n : Nat) : Character.checkLevelUpIter n c = c := by
  cases n with
  | zero => rfl
  | succ n =>
    unfold Character.checkLevelUpIter
    rw [h]
    rfl

theorem character_checkLevelUpIter_stable (n : Nat) :
    ∀ (c : Character) (m : Nat),
      Actor.levelUpDue (Character.checkLevelUpIter n c).actor = false → n ≤ m →
      Character.checkLevelUpIter m c = Character.checkLevelUpIter n c := by
  induction n with
  | zero =>
    intro c m h _
    exact character_checkLevelUpIter_of_not_due h m
  | succ n ih =>
    intro c m h hnm
    obtain ⟨k, rfl⟩ : ∃ k, m = k + 1 := ⟨m - 1, by omega⟩
    cases hd : Actor.levelUpDue c.actor with
    | false =>
      rw [character_checkLevelUpIter_of_not_due hd, character_checkLevelUpIter_of_not_due hd]
    | true =>
      have e1 : Character.checkLevelUpIter (n + 1) c =
          Character.checkLevelUpIter n (Character.levelUpOnce c) := by
        rw [Character.checkLevelUpIter, hd]; rfl
      have e2 : Character.checkLevelUpIter (k + 1) c =
          Character.checkLevelUpIter k (Character.levelUpOnce c) := by
        rw [Character.checkLevelUpIter, hd]; rfl
      rw [e1] at h ⊢
      rw [e2]
      exact ih _ k h (by omega)

theorem character_gainExperienceIter_facts (n : Nat) (c : Character) (e : Int)
    (hsp : InI32 c.skillPoints) (hlv : InI32 c.actor.level) :
    (c.gainExperienceIter n e).skillPoints =
      wrap32 (c.skillPoints + Actor.levelsGained n c.actor e) ∧
    (c.gainExperienceIter n e).actor.level =
      wrap32 (c.actor.level + Actor.levelsGained n c.actor e) ∧
    (c.gainExperienceIter n e).actor = c.actor.gainExperienceIter n e := by
  unfold Character.gainExperienceIter Actor.levelsGained Actor.gainExperienceIter
  split_ifs with he
  · simp only [Nat.cast_zero, add_zero]
    exact ⟨(wrap32_of_inI32 hsp).symm, (wrap32_of_inI32 hlv).symm, trivial⟩
  · refine ⟨?_, ?_, ?_⟩
    · rw [character_checkLevelUpIter_points]
      exact iterate_add32_one _ _ hsp
    · rw [character_checkLevelUpIter_actor, actor_checkLevelUpIter_level]
      exact iterate_add32_one _ _ hlv
    · rw [character_checkLevelUpIter_actor]

/-- C18: a newly constructed `Character` has exactly 3 skill points, and a
`gainExperience` call raises the skill points by exactly the number of levels it
gains: after any number of passes of the level-up loop both the skill points and
the level have been incremented (as `int32_t`) once per level gained, so the two
differences agree whenever neither counter leaves the `int32_t` range, and
nothing is added when no level is gained.  The call returns when its level-ups
stay in the `int32_t` range. -/
theorem skill_points_per_level (c : Character) (e : Int) (hsp : InI32 c.skillPoints)
    (hlv : InI32 c.actor.level) :
    (∀ id name, (Character.mk0 id name).skillPoints = 3) ∧
    (∀ n, (c.gainExperienceIter n e).skillPoints =
        wrap32 (c.skillPoints + Actor.levelsGained n c.actor e) ∧
      (c.gainExperienceIter n e).actor.level =
        wrap32 (c.actor.level + Actor.levelsGained n c.actor e)) ∧
    (∀ n, c.skillPoints + Actor.levelsGained n c.actor e ≤ 2147483647 →
      c.actor.level + Actor.levelsGained n c.actor e ≤ 2147483647 →
      (c.gainExperienceIter n e).skillPoints =
        c.skillPoints + Actor.levelsGained n c.actor e ∧
      (c.gainExperienceIter n e).actor.level =
        c.actor.level + Actor.levelsGained n c.actor e) ∧
    (∀ fuel d, c.gainExperience fuel e = some d → d = c.gainExperienceIter fuel e) ∧
    (e ≤ 0 → ∀ fuel, c.gainExperience fuel e = some c) ∧
    (0 < e → 0 ≤ c.actor.level → c.actor.level ≤ 4633 →
      -9223372036854775808 ≤ c.actor.experience → c.actor.experience + e < 2147395600 →
      c.skillPoints ≤ 2147479014 →
      ∃ d, (∀ fuel, 4633 ≤ fuel → c.gainExperience fuel e = some d) ∧
        c.actor.level ≤ d.actor.level ∧
        d.skillPoints = c.skillPoints + (d.actor.level - c.actor.level)) := by
  have hfacts := fun n => character_gainExperienceIter_facts n c e hsp hlv
  refine ⟨fun _ _ => rfl, fun n => ⟨(hfacts n).1, (hfacts n).2.1⟩, ?_, ?_, ?_, ?_⟩
  · intro n h1 h2
    obtain ⟨f1, f2, -⟩ := hfacts n
    unfold InI32 at hsp hlv
    rw [f1, f2, wrap32_of_inI32 ⟨by omega, h1⟩, wrap32_of_inI32 ⟨by omega, h2⟩]
    exact ⟨rfl, rfl⟩
  · intro fuel d hd
    exact (character_gainExperience_eq_some hd).1
  · intro he fuel
    unfold Character.gainExperience Character.gainExperienceIter
    simp only [if_pos he]
  · intro he h0 h1 hx hsum hpts
    obtain ⟨L, b, hL1, hL2, hrun, -, hlev, -, -, -⟩ :=
      gainExperience_run c.actor e h0 h1 hx he hsum
    have hb := hrun 4633 (le_refl _)
    have hbi : b = c.actor.gainExperienceIter 4633 e := gainExperience_eq_some hb
    have hdue : Actor.levelUpDue b = false := by
      have hb2 := hb
      unfold Actor.gainExperience at hb2
      rw [if_neg (by omega)] at hb2
      exact (checkLevelUp_eq_some hb2).2
    obtain ⟨f1, f2, f3⟩ := hfacts 4633
    have hact : (c.gainExperienceIter 4633 e).actor = b := by rw [f3, hbi]
    have hk := levelUpPasses_le 4633
      { c.actor with experience := wrap64 (c.actor.experience + e) }
    have hk2 : Actor.levelsGained 4633 c.actor e ≤ 4633 := by
      unfold Actor.levelsGained
      split_ifs
      · exact Nat.zero_le _
      · exact hk
    have hstable : ∀ fuel, 4633 ≤ fuel →
        c.gainExperienceIter fuel e = c.gainExperienceIter 4633 e := by
      intro fuel hf
      unfold Character.gainExperienceIter
      rw [if_neg (by omega), if_neg (by omega)]
      apply character_checkLevelUpIter_stable 4633 _ fuel _ hf
      have : (c.gainExperienceIter 4633 e).actor = b := hact
      unfold Character.gainExperienceIter at this
      rw [if_neg (by omega)] at this
      rw [this]
      exact hdue
    refine ⟨c.gainExperienceIter 4633 e, ?_, ?_, ?_⟩
    · intro fuel hf
      unfold Character.gainExperience
      simp only [hstable fuel hf, if_neg (show ¬ e ≤ 0 by omega), hact, hdue]
      rfl
    · rw [hact, hlev]
      exact hL1
    · unfold InI32 at hsp hlv
      have e2 : (c.gainExperienceIter 4633 e).actor.level = L := by rw [hact, hlev]
      rw [f2] at e2
      rw [wrap32_of_inI32 ⟨by omega, by omega⟩] at e2
      rw [f1, hact, hlev, wrap32_of_inI32 ⟨by omega, by omega⟩]
      omega

/-- Witness for C18: a fresh character given 2000 experience gains 3 levels and
3 skill points. -/
theorem skill_points_per_level_witness :
    (∃ d, (∀ fuel, 4633 ≤ fuel →
        (Character.mk0 1 "Hero").gainExperience fuel 2000 = some d) ∧
      (Character.mk0 1 "Hero").actor.level ≤ d.actor.level ∧
      d.skillPoints =
        (Character.mk0 1 "Hero").skillPoints +
          (d.actor.level - (Character.mk0 1 "Hero").actor.level)) ∧
    ((Character.mk0 1 "Hero").gainExperienceIter 10 2000).actor.level = 4 ∧
    ((Character.mk0 1 "Hero").gainExperienceIter 10 2000).skillPoints = 6 :=
  ⟨(skill_points_per_level (Character.mk0 1 "Hero") 2000 (by decide) (by decide)).2.2.2.2.2
    (by decide) (by decide) (by decide) (by decide) (by decide) (by decide),
    by decide, by decide⟩

/-! ## Available skills -/

theorem getNode_some_mem {t : SkillTree} {id : Nat} {node : SkillNode}
    (h : t.getNode id = some node) : node ∈ t.nodes ∧ node.skillId = id := by
  unfold SkillTree.getNode at h
  exact ⟨List.mem_of_find?_eq_some h, by simpa using List.find?_some h⟩

theorem find_node_of_mem (nodes : List SkillNode) (node : SkillNode)
    (hk : (nodes.map (fun n => n.skillId)).Nodup) (hm : node ∈ nodes) :
    nodes.find? (fun n => n.skillId == node.skillId) = some node := by
  induction nodes with
  | nil => cases hm
  | cons n rest ih =>
    rw [List.map_cons, List.nodup_cons] at hk
    rcases List.mem_cons.1 hm with h | h
    · subst h
      simp
    · have hne : n.skillId ≠ node.skillId := by
        intro heq
        apply hk.1
        rw [heq]
        exact List.mem_map_of_mem (fun n => n.skillId) h
      rw [List.find?_cons_of_neg _ (by simpa using hne)]
      exact ih hk.2 h

theorem getNode_iff (t : SkillTree) (hk : t.KeysNodup) (id : Nat) (node : SkillNode) :
    t.getNode id = some node ↔ node ∈ t.nodes ∧ node.skillId = id := by
  constructor
  · exact getNode_some_mem
  · rintro ⟨hm, rfl⟩
    exact find_node_of_mem t.nodes node hk hm

theorem isAvailable_iff (db : SkillDatabase) (learned : Nat → Bool) (level : Int)
    (node : SkillNode) :
    SkillTree.isAvailable db learned level node = true ↔
      learned node.skillId = false ∧ (∀ p ∈ node.prerequisites, learned p = true) ∧
      ∃ s, db.getSkill node.skillId = some s ∧ s.requirement.requiredCharLevel ≤ level := by
  unfold SkillTree.isAvailable
  rw [← prereqsMet_iff]
  cases hl : learned node.skillId with
  | true => simp
  | false =>
    cases hp : SkillTree.prereqsMet node learned with
    | false => simp
    | true =>
      cases hs : db.getSkill node.skillId with
      | none => simp
      | some s => simp

theorem keysNodup_putNode (nodes : List SkillNode) (node : SkillNode) :
    (SkillTree.putNode nodes node).map (fun n => n.skillId) =
      if node.skillId ∈ nodes.map (fun n => n.skillId) then nodes.map (fun n => n.skillId)
      else nodes.map (fun n => n.skillId) ++ [node.skillId] := by
  induction nodes with
  | nil => simp [SkillTree.putNode]
  | cons n rest ih =>
    unfold SkillTree.putNode
    by_cases h : n.skillId = node.skillId
    · rw [if_pos h]
      simp [h]
    · rw [if_neg h, List.map_cons, ih]
      have hne : node.skillId ≠ n.skillId := fun e => h e.symm
      by_cases hm : node.skillId ∈ rest.map (fun n => n.skillId)
      · rw [if_pos hm, if_pos (by rw [List.map_cons]; exact List.mem_cons_of_mem _ hm)]
        rfl
      · rw [if_neg hm, if_neg (by
          rw [List.map_cons, List.mem_cons]
          rintro (h1 | h1)
          · exact hne h1
          · exact hm h1)]
        rfl

theorem keysNodup_addNode {t : SkillTree} (hk : t.KeysNodup) (node : SkillNode) :
    (t.addNode node).KeysNodup := by
  unfold SkillTree.KeysNodup SkillTree.addNode at *
  simp only
  rw [keysNodup_putNode]
  split_ifs with hm
  · exact hk
  · exact List.Nodup.append hk (List.nodup_singleton _) (by simpa using hm)

/-- C19: for every skill tree (a map, so with pairwise different keys), learned
set and character level, `getAvailableSkills` returns, each at most once,
exactly the IDs that are nodes of the tree, are not learned, have every
prerequisite of their node learned and have a catalog entry whose required
character level is at most the given level.  Trees built by `addNode` have
pairwise different keys. -/
theorem getAvailableSkills_spec (t : SkillTree) (db : SkillDatabase) (learned : Nat → Bool)
    (level : Int) (hk : t.KeysNodup) :
    (t.getAvailableSkills db learned level).Nodup ∧
    (∀ id, id ∈ t.getAvailableSkills db learned level ↔
      ∃ node, t.getNode id = some node ∧ learned id = false ∧
        (∀ p ∈ node.prerequisites, learned p = true) ∧
        ∃ s, db.getSkill id = some s ∧ s.requirement.requiredCharLevel ≤ level) ∧
    (({} : SkillTree).KeysNodup ∧ ∀ node, (t.addNode node).KeysNodup) := by
  refine ⟨?_, ?_, ?_, keysNodup_addNode hk⟩
  · unfold SkillTree.getAvailableSkills
    exact List.Nodup.sublist (List.Sublist.map _ (List.filter_sublist _)) hk
  · intro id
    unfold SkillTree.getAvailableSkills
    simp only [List.mem_map, List.mem_filter]
    constructor
    · rintro ⟨node, ⟨hm, hav⟩, rfl⟩
      obtain ⟨h1, h2, h3⟩ := (isAvailable_iff db learned level node).1 hav
      exact ⟨node, (getNode_iff t hk _ node).2 ⟨hm, rfl⟩, h1, h2, h3⟩
    · rintro ⟨node, hn, h1, h2, h3⟩
      obtain ⟨hm, rfl⟩ := (getNode_iff t hk _ node).1 hn
      exact ⟨node, ⟨hm, (isAvailable_iff db learned level node).2 ⟨h1, h2, h3⟩⟩, rfl⟩
  · exact List.nodup_nil

/-- Witness for C19: on the test tree with nothing learned at level 1 the
available skills are exactly the two tier-1 skills, Slash and Fireball. -/
theorem getAvailableSkills_spec_witness :
    (testSkillTree.getAvailableSkills SkillDatabase.loadDefaultSkills
      (fun _ => false) 1).Nodup ∧
    (testSkillTree.getAvailableSkills SkillDatabase.loadDefaultSkills
      (fun _ => false) 1).length = 2 ∧
    ∀ id, id ∈ testSkillTree.getAvailableSkills SkillDatabase.loadDefaultSkills
      (fun _ => false) 1 ↔ id = 1 ∨ id = 2 := by
  have h := getAvailableSkills_spec testSkillTree SkillDatabase.loadDefaultSkills
    (fun _ => false) 1 (by decide)
  have e : testSkillTree.getAvailableSkills SkillDatabase.loadDefaultSkills
      (fun _ => false) 1 = [1, 2] := by decide
  refine ⟨h.1, by rw [e]; rfl, ?_⟩
  intro id
  rw [e]
  simp

/-! ## Event bus: publishing -/

theorem andThen_ok (run : BusRun) (f : BusRun → BusResult) :
    (BusResult.ok run).andThen f = f run := rfl

theorem exec_calls_nil (tbl : HandlerTable) (fuel : Nat) (r : BusRun) :
    BusRun.exec tbl fuel (.calls []) r = .ok r := by
  cases fuel <;> rfl

theorem exec_publishLoop_succ (tbl : HandlerTable) (fuel : Nat) (event : GameEvent)
    (i stop : Nat) (r : BusRun) :
    BusRun.exec tbl (fuel + 1) (.publishLoop event i stop) r =
      if i < stop then
        match r.bus.handlers.get? i with
        | none => .iteratorInvalidated
        | some entry =>
          if entry.active then
            BusResult.andThen
              (BusRun.exec tbl fuel (.calls (tbl entry.handler event))
                { r with calls := r.calls ++ [(entry.id, event)] })
              (fun r1 => BusRun.exec tbl fuel (.publishLoop event (i + 1) stop) r1)
          else BusRun.exec tbl fuel (.publishLoop event (i + 1) stop) r
      else r.leavePublish := rfl

theorem exec_publish_call (tbl : HandlerTable) (fuel : Nat) (event : GameEvent)
    (cs : List BusCall) (r : BusRun) :
    BusRun.exec tbl (fuel + 1) (.calls (.publish event :: cs)) r =
      BusResult.andThen
        (BusRun.exec tbl fuel (.publishLoop event 0 r.bus.handlers.length) r.enterPublish)
        (fun r1 => BusRun.exec tbl fuel (.calls cs) r1) := rfl

/-- A publish loop over entries that are active and whose callbacks make no bus
calls invokes each of them once, in list order, and then leaves the pass. -/
theorem exec_publishLoop_quiet (tbl : HandlerTable) (event : GameEvent) :
    ∀ (rest pre : List HandlerEntry) (r : BusRun) (fuel : Nat),
      r.bus.handlers = pre ++ rest →
      (∀ h ∈ rest, h.active = true ∧ tbl h.handler event = []) →
      rest.length < fuel →
      BusRun.exec tbl fuel (.publishLoop event pre.length (pre.length + rest.length)) r =
        BusRun.leavePublish
          { r with calls := r.calls ++ rest.map (fun h => (h.id, event)) } := by
  intro rest
  induction rest with
  | nil =>
    intro pre r fuel _ _ hf
    obtain ⟨f, rfl⟩ : ∃ f, fuel = f + 1 := ⟨fuel - 1, by simp at hf; omega⟩
    rw [exec_publishLoop_succ]
    simp
  | cons h t ih =>
    intro pre r fuel hh hall hf
    obtain ⟨f, rfl⟩ : ∃ f, fuel = f + 1 := ⟨fuel - 1, by omega⟩
    have hget : r.bus.handlers.get? pre.length = some h := by
      rw [hh, List.get?_eq_getElem?, List.getElem?_append_right (le_refl _), Nat.sub_self]
      simp
    obtain ⟨hact, hquiet⟩ := hall h (List.mem_cons_self _ _)
    rw [exec_publishLoop_succ, if_pos (by simp), hget]
    simp only [hact, if_true, hquiet, exec_calls_nil, andThen_ok]
    have hlen : (pre ++ [h]).length = pre.length + 1 := by simp
    have hstop : pre.length + (h :: t).length = (pre ++ [h]).length + t.length := by
      simp
      omega
    rw [← hlen, hstop]
    rw [ih (pre ++ [h]) _ f (by simp [hh]) (fun x hx => hall x (List.mem_cons_of_mem _ hx))
      (by simp at hf; omega)]
    simp

theorem endPublish_of_quiescent {b : EventBus} (hq : b.Quiescent) :
    b.beginPublish.endPublish = b := by
  obtain ⟨h1, h2, -⟩ := hq
  unfold EventBus.beginPublish EventBus.endPublish
  cases b
  simp only at h1 h2
  subst h1 h2
  rfl

theorem andThen_ne_outOfFuel {x : BusResult} {f : BusRun → BusResult}
    (h : x.andThen f ≠ .outOfFuel) :
    x ≠ .outOfFuel ∧ ∀ r1, x = .ok r1 → f r1 ≠ .outOfFuel := by
  cases x with
  | ok run => exact ⟨by simp, fun r1 e => by cases e; exact h⟩
  | outOfFuel => exact absurd rfl h
  | iteratorInvalidated => exact ⟨by simp, fun r1 e => by cases e⟩

theorem andThen_congr {x y : BusResult} {f g : BusRun → BusResult} (hxy : x = y)
    (hfg : ∀ r1, y = .ok r1 → f r1 = g r1) : x.andThen f = y.andThen g := by
  subst hxy
  cases x with
  | ok run => exact hfg run rfl
  | outOfFuel => rfl
  | iteratorInvalidated => rfl

theorem exec_drainQueue_succ (tbl : HandlerTable) (fuel : Nat) (r : BusRun) :
    BusRun.exec tbl (fuel + 1) .drainQueue r =
      match r.bus.eventQueue with
      | [] => .ok r
      | event :: rest =>
        BusResult.andThen
          (BusRun.exec tbl fuel (.publishLoop event 0 r.bus.handlers.length)
            ({ r with bus := { r.bus with eventQueue := rest } } : BusRun).enterPublish)
          (fun r1 => BusRun.exec tbl fuel .drainQueue r1) := rfl

/-- More fuel does not change the outcome of a run that did not run out of fuel. -/
theorem exec_fuel_succ (tbl : HandlerTable) :
    ∀ (fuel : Nat) (t : BusTask) (r : BusRun),
      BusRun.exec tbl fuel t r ≠ .outOfFuel →
      BusRun.exec tbl (fuel + 1) t r = BusRun.exec tbl fuel t r := by
  intro fuel
  induction fuel with
  | zero =>
    intro t r h
    cases t with
    | calls cs =>
      cases cs with
      | nil => rfl
      | cons c cs => exact absurd rfl h
    | publishLoop e i stop => exact absurd rfl h
    | drainQueue => exact absurd rfl h
  | succ f ih =>
    intro t r h
    cases t with
    | calls cs =>
      cases cs with
      | nil => rfl
      | cons c cs =>
        cases c with
        | subscribe handler =>
          have h' : (BusRun.setHandlersChecked r (r.bus.subscribe handler).2).andThen
              (fun r1 => BusRun.exec tbl f (.calls cs) r1) ≠ .outOfFuel := h
          show (BusRun.setHandlersChecked r (r.bus.subscribe handler).2).andThen
              (fun r1 => BusRun.exec tbl (f + 1) (.calls cs) r1) = _
          exact andThen_congr rfl (fun r1 e => ih _ _ ((andThen_ne_outOfFuel h').2 r1 e))
        | unsubscribe id =>
          have h' : (BusRun.setHandlersChecked r (r.bus.unsubscribe id)).andThen
              (fun r1 => BusRun.exec tbl f (.calls cs) r1) ≠ .outOfFuel := h
          show (BusRun.setHandlersChecked r (r.bus.unsubscribe id)).andThen
              (fun r1 => BusRun.exec tbl (f + 1) (.calls cs) r1) = _
          exact andThen_congr rfl (fun r1 e => ih _ _ ((andThen_ne_outOfFuel h').2 r1 e))
        | publish event =>
          have h' : (BusRun.exec tbl f (.publishLoop event 0 r.bus.handlers.length)
              r.enterPublish).andThen
              (fun r1 => BusRun.exec tbl f (.calls cs) r1) ≠ .outOfFuel := h
          show (BusRun.exec tbl (f + 1) (.publishLoop event 0 r.bus.handlers.length)
              r.enterPublish).andThen
              (fun r1 => BusRun.exec tbl (f + 1) (.calls cs) r1) = _
          exact andThen_congr (ih _ _ (andThen_ne_outOfFuel h').1)
            (fun r1 e => ih _ _ ((andThen_ne_outOfFuel h').2 r1 e))
        | queue event =>
          have h' : (BusResult.ok { r with bus := r.bus.queue event }).andThen
              (fun r1 => BusRun.exec tbl f (.calls cs) r1) ≠ .outOfFuel := h
          show (BusResult.ok { r with bus := r.bus.queue event }).andThen
              (fun r1 => BusRun.exec tbl (f + 1) (.calls cs) r1) = _
          exact andThen_congr rfl (fun r1 e => ih _ _ ((andThen_ne_outOfFuel h').2 r1 e))
        | processQueue =>
          have h' : (BusRun.exec tbl f .drainQueue r).andThen
              (fun r1 => BusRun.exec tbl f (.calls cs) r1) ≠ .outOfFuel := h
          show (BusRun.exec tbl (f + 1) .drainQueue r).andThen
              (fun r1 => BusRun.exec tbl (f + 1) (.calls cs) r1) = _
          exact andThen_congr (ih _ _ (andThen_ne_outOfFuel h').1)
            (fun r1 e => ih _ _ ((andThen_ne_outOfFuel h').2 r1 e))
        | clearSubscribers =>
          have h' : (BusRun.setHandlersChecked r r.bus.clearSubscribers).andThen
              (fun r1 => BusRun.exec tbl f (.calls cs) r1) ≠ .outOfFuel := h
          show (BusRun.setHandlersChecked r r.bus.clearSubscribers).andThen
              (fun r1 => BusRun.exec tbl (f + 1) (.calls cs) r1) = _
          exact andThen_congr rfl (fun r1 e => ih _ _ ((andThen_ne_outOfFuel h').2 r1 e))
        | clearQueue =>
          have h' : (BusResult.ok { r with bus := r.bus.clearQueue }).andThen
              (fun r1 => BusRun.exec tbl f (.calls cs) r1) ≠ .outOfFuel := h
          show (BusResult.ok { r with bus := r.bus.clearQueue }).andThen
              (fun r1 => BusRun.exec tbl (f + 1) (.calls cs) r1) = _
          exact andThen_congr rfl (fun r1 e => ih _ _ ((andThen_ne_outOfFuel h').2 r1 e))
    | publishLoop event i stop =>
      rw [exec_publishLoop_succ tbl f event i stop r] at h
      rw [exec_publishLoop_succ tbl (f + 1) event i stop r,
        exec_publishLoop_succ tbl f event i stop r]
      by_cases hi : i < stop
      · simp only [if_pos hi] at h ⊢
        cases hg : r.bus.handlers.get? i with
        | none => rfl
        | some entry =>
          rw [hg] at h
          simp only at h ⊢
          cases ha : entry.active with
          | false =>
            rw [ha] at h
            simp only [Bool.false_eq_true, if_false] at h ⊢
            exact ih _ _ h
          | true =>
            rw [ha] at h
            simp only [if_true] at h ⊢
            exact andThen_congr (ih _ _ (andThen_ne_outOfFuel h).1)
              (fun r1 e => ih _ _ ((andThen_ne_outOfFuel h).2 r1 e))
      · simp only [if_neg hi]
    | drainQueue =>
      rw [exec_drainQueue_succ tbl f r] at h
      rw [exec_drainQueue_succ tbl (f + 1) r, exec_drainQueue_succ tbl f r]
      cases hq : r.bus.eventQueue with
      | nil => rfl
      | cons event rest =>
        rw [hq] at h
        simp only at h ⊢
        exact andThen_congr (ih _ _ (andThen_ne_outOfFuel h).1)
          (fun r1 e => ih _ _ ((andThen_ne_outOfFuel h).2 r1 e))

/-- A run that ended within `fuel` steps ends the same way with any larger fuel. -/
theorem exec_fuel_mono (tbl : HandlerTable) {fuel : Nat} {t : BusTask} {r : BusRun}
    (h : BusRun.exec tbl fuel t r ≠ .outOfFuel) :
    ∀ more, fuel ≤ more → BusRun.exec tbl more t r = BusRun.exec tbl fuel t r := by
  intro more hle
  induction more with
  | zero =>
    have : fuel = 0 := by omega
    subst this
    rfl
  | succ m ih =>
    rcases Nat.lt_or_ge m fuel with hlt | hge
    · have : fuel = m + 1 := by omega
      subst this
      rfl
    · have e := ih hge
      rw [exec_fuel_succ tbl m t r (by rw [e]; exact h), e]

/-- C20 as stated fails: on the quiescent bus `twoSubscribers`, where the first
callback unsubscribes the second entry, `publish` invokes entry 1 only: entry 2
is subscribed when `publish` is called and its handler is never invoked. -/
theorem publish_skips_unsubscribed_entry :
    twoSubscribers.Quiescent ∧
    twoSubscribers.handlers.map (fun h => h.id) = [1, 2] ∧
    twoSubscribers.publish unsubscribeSecond 10 (.death 7 8) =
      .ok { bus := (twoSubscribers.unsubscribe 2), calls := [(1, .death 7 8)] } ∧
    (twoSubscribers.unsubscribe 2).handlers.map (fun h => h.id) = [1] := by
  decide

/-- C20, amended: for every bus outside a publish pass (not publishing, nothing
pending, every entry active) and every event, when the callbacks of the
subscribed entries make no bus calls, `publish` invokes the handler of every
subscribed entry exactly once with that event, in the order of the subscriber
list, which is the order of subscription, and the bus is the same after the
pass as before. -/
theorem publish_quiet_handlers (b : EventBus) (tbl : HandlerTable) (event : GameEvent)
    (hq : b.Quiescent) (hquiet : ∀ h ∈ b.handlers, tbl h.handler event = []) :
    (∀ fuel, b.handlers.length + 2 ≤ fuel →
      b.publish tbl fuel event =
        .ok { bus := b, calls := b.handlers.map (fun h => (h.id, event)) }) ∧
    (∀ handler, (b.subscribe handler).2.handlers =
        b.handlers ++ [{ id := b.nextId, handler := handler, active := true }] ∧
      (b.subscribe handler).2.Quiescent) ∧
    (({} : EventBus).Quiescent ∧ (∀ id, (b.unsubscribe id).Quiescent) ∧
      ∀ ev, (b.queue ev).Quiescent) := by
  refine ⟨?_, ?_, ?_, ?_, ?_⟩
  · intro fuel hf
    obtain ⟨f, rfl⟩ : ∃ f, fuel = f + 1 := ⟨fuel - 1, by omega⟩
    unfold EventBus.publish
    rw [exec_publish_call]
    have hloop := exec_publishLoop_quiet tbl event b.handlers []
      ({ bus := b } : BusRun).enterPublish f rfl
      (fun h hh => ⟨hq.2.2 h hh, hquiet h hh⟩) (by omega)
    simp only [List.length_nil, Nat.zero_add] at hloop
    rw [hloop]
    unfold BusRun.leavePublish BusRun.enterPublish BusRun.setHandlersChecked
    simp only [List.nil_append, Nat.add_sub_cancel, Nat.lt_irrefl, false_and, if_false,
      andThen_ok, exec_calls_nil, endPublish_of_quiescent hq]
  · intro handler
    refine ⟨rfl, hq.1, hq.2.1, ?_⟩
    intro h hh
    have : h ∈ b.handlers ++ [{ id := b.nextId, handler := handler, active := true }] := hh
    rcases List.mem_append.1 this with h1 | h1
    · exact hq.2.2 h h1
    · rw [List.mem_singleton.1 h1]
  · decide
  · intro id
    have hu : b.unsubscribe id = { b with handlers := EventBus.eraseId b.handlers id } := by
      unfold EventBus.unsubscribe
      rw [hq.1]
      rfl
    rw [hu]
    refine ⟨hq.1, hq.2.1, ?_⟩
    intro h hh
    have : h ∈ EventBus.eraseId b.handlers id := hh
    unfold EventBus.eraseId at this
    exact hq.2.2 h (List.mem_filter.1 this).1
  · intro ev
    exact ⟨hq.1, hq.2.1, hq.2.2⟩

/-- Witness for C20: two subscribers whose callbacks make no bus calls are each
invoked once, in subscription order, and the bus is unchanged. -/
theorem publish_quiet_handlers_witness :
    twoSubscribers.publish quietHandlers 4 (.damage 1 2 100 false true) =
      .ok { bus := twoSubscribers,
            calls := [(1, .damage 1 2 100 false true), (2, .damage 1 2 100 false true)] } :=
  (publish_quiet_handlers twoSubscribers quietHandlers (.damage 1 2 100 false true)
    (by decide) (fun _ _ => rfl)).1 4 (by decide)

/-! ## Event bus: unsubscribing during and outside a pass -/

/-- A publish loop steps over a segment of active entries whose callbacks make no
bus calls with one unit of fuel for each, logging one invocation for each. -/
theorem exec_publishLoop_segment (tbl : HandlerTable) (event : GameEvent) :
    ∀ (seg pre post : List HandlerEntry) (r : BusRun) (fuel stop : Nat),
      r.bus.handlers = pre ++ seg ++ post →
      (∀ h ∈ seg, h.active = true ∧ tbl h.handler event = []) →
      pre.length + seg.length ≤ stop →
      BusRun.exec tbl (fuel + seg.length) (.publishLoop event pre.length stop) r =
        BusRun.exec tbl fuel (.publishLoop event (pre.length + seg.length) stop)
          { r with calls := r.calls ++ seg.map (fun h => (h.id, event)) } := by
  intro seg
  induction seg with
  | nil =>
    intro pre post r fuel stop _ _ _
    simp
  | cons h t ih =>
    intro pre post r fuel stop hh hall hstop
    have hget : r.bus.handlers.get? pre.length = some h := by
      rw [hh, List.append_assoc, List.get?_eq_getElem?,
        List.getElem?_append_right (le_refl _), Nat.sub_self]
      simp
    obtain ⟨hact, hquiet⟩ := hall h (List.mem_cons_self _ _)
    have hlt : pre.length < stop := by simp at hstop; omega
    have hfuel : fuel + (h :: t).length = (fuel + t.length) + 1 := by simp; omega
    rw [hfuel, exec_publishLoop_succ, if_pos hlt, hget]
    simp only [hact, if_true, hquiet, exec_calls_nil, andThen_ok]
    have hlen : (pre ++ [h]).length = pre.length + 1 := by simp
    have hidx : pre.length + (h :: t).length = (pre ++ [h]).length + t.length := by
      simp; omega
    rw [← hlen, hidx]
    rw [ih (pre ++ [h]) post _ fuel stop (by simp [hh])
      (fun x hx => hall x (List.mem_cons_of_mem _ hx)) (by rw [← hidx]; exact hstop)]
    simp

theorem markInactive_length (l : List HandlerEntry) (id : Nat) :
    (EventBus.markInactive l id).length = l.length := by
  induction l with
  | nil => rfl
  | cons h t ih =>
    unfold EventBus.markInactive
    split_ifs <;> simp [ih]

theorem markInactive_append_of_not_mem (pre : List HandlerEntry) (h : HandlerEntry)
    (post : List HandlerEntry) (hpre : ∀ g ∈ pre, g.id ≠ h.id) :
    EventBus.markInactive (pre ++ h :: post) h.id =
      pre ++ { h with active := false } :: post := by
  induction pre with
  | nil => simp [EventBus.markInactive]
  | cons g t ih =>
    have hg : g.id ≠ h.id := hpre g (List.mem_cons_self _ _)
    have e : EventBus.markInactive ((g :: t) ++ h :: post) h.id =
        g :: EventBus.markInactive (t ++ h :: post) h.id := by
      show EventBus.markInactive (g :: (t ++ h :: post)) h.id = _
      simp only [EventBus.markInactive, if_neg hg]
    rw [e, ih (fun x hx => hpre x (List.mem_cons_of_mem _ hx))]
    rfl

theorem eraseId_append (l1 l2 : List HandlerEntry) (id : Nat) :
    EventBus.eraseId (l1 ++ l2) id = EventBus.eraseId l1 id ++ EventBus.eraseId l2 id := by
  simp [EventBus.eraseId]

theorem eraseId_of_not_mem (l : List HandlerEntry) (id : Nat) (h : ∀ g ∈ l, g.id ≠ id) :
    EventBus.eraseId l id = l := by
  unfold EventBus.eraseId
  rw [List.filter_eq_self]
  intro g hg
  simpa using h g hg

/-- The identifiers of the subscribed entries are pairwise different. -/
theorem ids_split {l : List HandlerEntry} (hn : (l.map (fun g => g.id)).Nodup)
    {h : HandlerEntry} (hh : h ∈ l) :
    ∃ pre post, l = pre ++ h :: post ∧ (∀ g ∈ pre, g.id ≠ h.id) ∧
      (∀ g ∈ post, g.id ≠ h.id) := by
  obtain ⟨pre, post, rfl⟩ := List.append_of_mem hh
  refine ⟨pre, post, rfl, ?_, ?_⟩
  · intro g hg he
    rw [List.map_append, List.map_cons] at hn
    have hd := (List.nodup_append.1 hn).2.2
    exact hd (List.mem_map_of_mem _ hg) (by rw [he]; exact List.mem_cons_self _ _)
  · intro g hg he
    rw [List.map_append, List.map_cons] at hn
    have h2 := (List.nodup_cons.1 (List.nodup_append.1 hn).2.1).1
    exact h2 (by rw [← he]; exact List.mem_map_of_mem _ hg)

theorem andThen_eq_ok {x : BusResult} {f : BusRun → BusResult} {r2 : BusRun}
    (h : x.andThen f = .ok r2) : ∃ r1, x = .ok r1 ∧ f r1 = .ok r2 := by
  cases x with
  | ok run => exact ⟨run, rfl, h⟩
  | outOfFuel => exact absurd h (by simp [BusResult.andThen])
  | iteratorInvalidated => exact absurd h (by simp [BusResult.andThen])

theorem setHandlersChecked_ok {r r2 : BusRun} {b : EventBus}
    (h : BusRun.setHandlersChecked r b = .ok r2) :
    r2 = { r with bus := b } ∧
      (0 < r.activePasses → b.handlers.length = r.bus.handlers.length) := by
  unfold BusRun.setHandlersChecked at h
  split_ifs at h with hc
  · simp only [BusResult.ok.injEq] at h
    refine ⟨h.symm, fun hp => ?_⟩
    by_contra hne
    exact hc ⟨hp, hne⟩

theorem markInactive_ids (l : List HandlerEntry) (id : Nat) :
    (EventBus.markInactive l id).map (fun g => g.id) = l.map (fun g => g.id) := by
  induction l with
  | nil => rfl
  | cons h t ih =>
    unfold EventBus.markInactive
    split_ifs <;> simp [ih]

theorem mem_markInactive_id {l : List HandlerEntry} {id : Nat} {g : HandlerEntry}
    (hg : g ∈ EventBus.markInactive l id) : ∃ g0 ∈ l, g0.id = g.id := by
  have : g.id ∈ (EventBus.markInactive l id).map (fun g => g.id) :=
    List.mem_map_of_mem _ hg
  rw [markInactive_ids] at this
  obtain ⟨g0, h0, e⟩ := List.mem_map.1 this
  exact ⟨g0, h0, e⟩

theorem mem_eraseId {l : List HandlerEntry} {id : Nat} {g : HandlerEntry} :
    g ∈ EventBus.eraseId l id ↔ g ∈ l ∧ g.id ≠ id := by
  simp [EventBus.eraseId, List.mem_filter]

theorem mem_foldl_eraseId (ids : List Nat) :
    ∀ (l : List HandlerEntry) (g : HandlerEntry),
      g ∈ ids.foldl EventBus.eraseId l ↔ g ∈ l ∧ g.id ∉ ids := by
  induction ids with
  | nil => intro l g; simp
  | cons i t ih =>
    intro l g
    rw [List.foldl_cons, ih, mem_eraseId]
    simp only [List.mem_cons, not_or]
    tauto

theorem unsubscribe_ids_subset (b : EventBus) (id : Nat) {g : HandlerEntry}
    (hg : g ∈ (b.unsubscribe id).handlers) : ∃ g0 ∈ b.handlers, g0.id = g.id := by
  unfold EventBus.unsubscribe at hg
  split_ifs at hg
  · exact mem_markInactive_id hg
  · exact ⟨g, (mem_eraseId.1 hg).1, rfl⟩

/-- The passes counter a task leaves behind: a publish loop ends its pass. -/
theorem exec_in_pass_avoids (tbl : HandlerTable) (X : Nat) :
    ∀ (fuel : Nat) (t : BusTask) (r r2 : BusRun),
      1 ≤ r.activePasses →
      (∀ h ∈ r.bus.handlers, h.id ≠ X) → (∀ c ∈ r.calls, c.1 ≠ X) →
      BusRun.exec tbl fuel t r = .ok r2 →
      (r2.activePasses =
        match t with
        | .publishLoop _ _ _ => r.activePasses - 1
        | _ => r.activePasses) ∧
      (∀ h ∈ r2.bus.handlers, h.id ≠ X) ∧ (∀ c ∈ r2.calls, c.1 ≠ X) := by
  intro fuel
  induction fuel with
  | zero =>
    intro t r r2 hp hh hc he
    cases t with
    | calls cs =>
      cases cs with
      | nil =>
        rw [exec_calls_nil] at he
        cases he
        exact ⟨rfl, hh, hc⟩
      | cons c cs => exact absurd he (by simp [BusRun.exec])
    | publishLoop e i stop => exact absurd he (by simp [BusRun.exec])
    | drainQueue => exact absurd he (by simp [BusRun.exec])
  | succ f ih =>
    intro t r r2 hp hh hc he
    cases t with
    | calls cs =>
      cases cs with
      | nil =>
        rw [exec_calls_nil] at he
        cases he
        exact ⟨rfl, hh, hc⟩
      | cons c cs =>
        cases c with
        | subscribe handler =>
          have he2 : (BusRun.setHandlersChecked r (r.bus.subscribe handler).2).andThen
              (fun r1 => BusRun.exec tbl f (.calls cs) r1) = .ok r2 := he
          obtain ⟨r1, h1, -⟩ := andThen_eq_ok he2
          have := (setHandlersChecked_ok h1).2 (by omega)
          simp [EventBus.subscribe] at this
        | unsubscribe id =>
          have he2 : (BusRun.setHandlersChecked r (r.bus.unsubscribe id)).andThen
              (fun r1 => BusRun.exec tbl f (.calls cs) r1) = .ok r2 := he
          obtain ⟨r1, h1, h2⟩ := andThen_eq_ok he2
          have e1 := (setHandlersChecked_ok h1).1
          subst e1
          exact ih (.calls cs) { r with bus := r.bus.unsubscribe id } r2 hp
            (fun g hg => by
              obtain ⟨g0, h0, e0⟩ := unsubscribe_ids_subset r.bus id hg
              rw [← e0]; exact hh g0 h0) hc h2
        | publish event =>
          have he2 : (BusRun.exec tbl f (.publishLoop event 0 r.bus.handlers.length)
              r.enterPublish).andThen
              (fun r1 => BusRun.exec tbl f (.calls cs) r1) = .ok r2 := he
          obtain ⟨r1, h1, h2⟩ := andThen_eq_ok he2
          obtain ⟨p1, p2, p3⟩ := ih _ r.enterPublish r1
            (by simp [BusRun.enterPublish]) hh hc h1
          simp only [BusRun.enterPublish, Nat.add_sub_cancel] at p1
          obtain ⟨q1, q2, q3⟩ := ih (.calls cs) r1 r2 (by omega) p2 p3 h2
          exact ⟨by simp only at q1 ⊢; omega, q2, q3⟩
        | queue event =>
          have he2 : (BusResult.ok { r with bus := r.bus.queue event }).andThen
              (fun r1 => BusRun.exec tbl f (.calls cs) r1) = .ok r2 := he
          exact ih (.calls cs) { r with bus := r.bus.queue event } r2 hp hh hc he2
        | processQueue =>
          have he2 : (BusRun.exec tbl f .drainQueue r).andThen
              (fun r1 => BusRun.exec tbl f (.calls cs) r1) = .ok r2 := he
          obtain ⟨r1, h1, h2⟩ := andThen_eq_ok he2
          obtain ⟨p1, p2, p3⟩ := ih _ r r1 hp hh hc h1
          simp only at p1
          obtain ⟨q1, q2, q3⟩ := ih (.calls cs) r1 r2 (by omega) p2 p3 h2
          exact ⟨by simp only at q1 ⊢; omega, q2, q3⟩
        | clearSubscribers =>
          have he2 : (BusRun.setHandlersChecked r r.bus.clearSubscribers).andThen
              (fun r1 => BusRun.exec tbl f (.calls cs) r1) = .ok r2 := he
          obtain ⟨r1, h1, h2⟩ := andThen_eq_ok he2
          have e1 := (setHandlersChecked_ok h1).1
          subst e1
          exact ih (.calls cs) { r with bus := r.bus.clearSubscribers } r2 hp
            (fun g hg => by simp [EventBus.clearSubscribers] at hg) hc h2
        | clearQueue =>
          have he2 : (BusResult.ok { r with bus := r.bus.clearQueue }).andThen
              (fun r1 => BusRun.exec tbl f (.calls cs) r1) = .ok r2 := he
          exact ih (.calls cs) { r with bus := r.bus.clearQueue } r2 hp hh hc he2
    | publishLoop event i stop =>
      rw [exec_publishLoop_succ tbl f event i stop r] at he
      by_cases hi : i < stop
      · simp only [if_pos hi] at he
        cases hg : r.bus.handlers.get? i with
        | none =>
          rw [hg] at he
          exact absurd he (by simp)
        | some entry =>
          rw [hg] at he
          simp only at he
          have hmem : entry ∈ r.bus.handlers := List.get?_mem hg
          cases ha : entry.active with
          | false =>
            rw [ha] at he
            simp only [Bool.false_eq_true, if_false] at he
            exact ih _ r r2 hp hh hc he
          | true =>
            rw [ha] at he
            simp only [if_true] at he
            obtain ⟨r1, h1, h2⟩ := andThen_eq_ok he
            obtain ⟨p1, p2, p3⟩ := ih (.calls (tbl entry.handler event))
              { r with calls := r.calls ++ [(entry.id, event)] } r1 hp hh
              (fun c hcm => by
                rcases List.mem_append.1 hcm with h0 | h0
                · exact hc c h0
                · rw [List.mem_singleton.1 h0]; exact hh entry hmem) h1
            simp only at p1
            obtain ⟨q1, q2, q3⟩ := ih _ r1 r2 (by omega) p2 p3 h2
            exact ⟨by simp only at q1 ⊢; omega, q2, q3⟩
      · simp only [if_neg hi] at he
        unfold BusRun.leavePublish at he
        have e1 := (setHandlersChecked_ok he).1
        subst e1
        refine ⟨rfl, ?_, hc⟩
        intro g hg
        exact hh g ((mem_foldl_eraseId _ _ _).1 hg).1
    | drainQueue =>
      rw [exec_drainQueue_succ tbl f r] at he
      cases hq : r.bus.eventQueue with
      | nil =>
        rw [hq] at he
        cases he
        exact ⟨rfl, hh, hc⟩
      | cons event rest =>
        rw [hq] at he
        simp only at he
        obtain ⟨r1, h1, h2⟩ := andThen_eq_ok he
        obtain ⟨p1, p2, p3⟩ := ih (.publishLoop event 0 r.bus.handlers.length)
          ({ r with bus := { r.bus with eventQueue := rest } } : BusRun).enterPublish r1
          (by simp [BusRun.enterPublish]) hh hc h1
        simp only [BusRun.enterPublish, Nat.add_sub_cancel] at p1
        obtain ⟨q1, q2, q3⟩ := ih _ r1 r2 (by omega) p2 p3 h2
        exact ⟨by simp only at q1 ⊢; omega, q2, q3⟩

theorem exec_unsubscribe_call (tbl : HandlerTable) (fuel : Nat) (id : Nat)
    (cs : List BusCall) (r : BusRun) :
    BusRun.exec tbl (fuel + 1) (.calls (.unsubscribe id :: cs)) r =
      BusResult.andThen (BusRun.setHandlersChecked r (r.bus.unsubscribe id))
        (fun r1 => BusRun.exec tbl fuel (.calls cs) r1) := rfl

/-- A publish on a bus that has no entry with identifier `X` invokes no entry
with that identifier, whatever the callbacks do, and leaves no such entry. -/
theorem publish_avoids (tbl : HandlerTable) (X : Nat) (b : EventBus)
    (hb : ∀ h ∈ b.handlers, h.id ≠ X) (fuel : Nat) (event : GameEvent) (r : BusRun)
    (he : b.publish tbl fuel event = .ok r) :
    (∀ c ∈ r.calls, c.1 ≠ X) ∧ ∀ h ∈ r.bus.handlers, h.id ≠ X := by
  unfold EventBus.publish at he
  cases fuel with
  | zero => exact absurd he (by simp [BusRun.exec])
  | succ f =>
    rw [exec_publish_call] at he
    obtain ⟨r1, h1, h2⟩ := andThen_eq_ok he
    obtain ⟨-, p2, p3⟩ := exec_in_pass_avoids tbl X f
      (.publishLoop event 0 b.handlers.length) (BusRun.enterPublish { bus := b }) r1
      (by simp [BusRun.enterPublish]) hb (by simp [BusRun.enterPublish]) h1
    rw [exec_calls_nil] at h2
    cases h2
    exact ⟨p3, p2⟩

/-- The publish loop over a list in which the entry `h` unsubscribes itself and
the other entries make no bus calls: every entry is invoked once, `h` is marked
inactive and its removal is pending when the loop leaves the pass. -/
theorem exec_publishLoop_self_unsubscribe (tbl : HandlerTable) (event : GameEvent)
    (pre post : List HandlerEntry) (h : HandlerEntry) (r : BusRun)
    (hh : r.bus.handlers = pre ++ h :: post) (hpub : r.bus.isPublishing = true)
    (hact : h.active = true) (hself : tbl h.handler event = [.unsubscribe h.id])
    (hpre : ∀ g ∈ pre, (g.active = true ∧ tbl g.handler event = []) ∧ g.id ≠ h.id)
    (hpost : ∀ g ∈ post, g.active = true ∧ tbl g.handler event = []) :
    BusRun.exec tbl (pre.length + post.length + 3)
        (.publishLoop event 0 (pre ++ h :: post).length) r =
      BusRun.leavePublish
        { r with
          bus := { r.bus with
            pendingRemovals := r.bus.pendingRemovals ++ [h.id]
            handlers := pre ++ { h with active := false } :: post }
          calls := r.calls ++ (pre ++ h :: post).map (fun g => (g.id, event)) } := by
  have hlen : (pre ++ h :: post).length = pre.length + 1 + post.length := by
    simp; omega
  -- the entries before `h`
  have s1 := exec_publishLoop_segment tbl event pre [] (h :: post) r (post.length + 3)
    (pre ++ h :: post).length (by simpa using hh) (fun g hg => (hpre g hg).1)
    (by simp)
  simp only [List.length_nil, Nat.zero_add] at s1
  have f1 : pre.length + post.length + 3 = post.length + 3 + pre.length := by omega
  rw [f1, s1]
  -- the entry `h`
  have hget : r.bus.handlers.get? pre.length = some h := by
    rw [hh, List.get?_eq_getElem?, List.getElem?_append_right (le_refl _), Nat.sub_self]
    simp
  have hmark : (r.bus.unsubscribe h.id) =
      { r.bus with
        pendingRemovals := r.bus.pendingRemovals ++ [h.id]
        handlers := pre ++ { h with active := false } :: post } := by
    unfold EventBus.unsubscribe
    rw [if_pos hpub, hh, markInactive_append_of_not_mem pre h post (fun g hg => (hpre g hg).2)]
  have f2 : post.length + 3 = (post.length + 1 + 1) + 1 := by omega
  rw [f2, exec_publishLoop_succ, if_pos (by rw [hlen]; omega)]
  simp only [hget, hact, if_true, hself]
  rw [exec_unsubscribe_call]
  have hset : BusRun.setHandlersChecked
      { r with calls := r.calls ++ pre.map (fun g => (g.id, event)) ++ [(h.id, event)] }
      (r.bus.unsubscribe h.id) =
      .ok { r with
        bus := r.bus.unsubscribe h.id
        calls := r.calls ++ pre.map (fun g => (g.id, event)) ++ [(h.id, event)] } := by
    unfold BusRun.setHandlersChecked
    rw [if_neg]
    rw [hmark]
    simp [hh]
  rw [hset, andThen_ok, exec_calls_nil, andThen_ok, hmark]
  -- the entries after `h`
  have s2 := exec_publishLoop_segment tbl event post (pre ++ [{ h with active := false }]) []
    { r with
      bus := { r.bus with
        pendingRemovals := r.bus.pendingRemovals ++ [h.id]
        handlers := pre ++ { h with active := false } :: post }
      calls := r.calls ++ pre.map (fun g => (g.id, event)) ++ [(h.id, event)] }
    2 (pre ++ h :: post).length (by simp) hpost (by simp; omega)
  have hidx : (pre ++ [{ h with active := false }]).length = pre.length + 1 := by simp
  rw [hidx] at s2
  have f3 : post.length + 1 + 1 = 2 + post.length := by omega
  rw [f3, s2, ← hlen]
  have f4 : 2 = 1 + 1 := rfl
  rw [f4, exec_publishLoop_succ, if_neg (Nat.lt_irrefl _)]
  simp

theorem eraseId_cons_self (g : HandlerEntry) (post : List HandlerEntry) (id : Nat)
    (hg : g.id = id) (hpost : ∀ x ∈ post, x.id ≠ id) :
    EventBus.eraseId (g :: post) id = post := by
  have e := eraseId_of_not_mem post id hpost
  unfold EventBus.eraseId at e ⊢
  rw [List.filter_cons, if_neg (by simp [hg]), e]

/-- Self-unsubscription among callbacks that make no bus calls: when the callback
of entry `h` unsubscribes its own ID during a publish pass and the other
callbacks make no bus calls, the pass invokes every entry once,
in subscription order, `h` included and only once; the call inside the pass only
marks the entry and records the pending removal, and the pass ends with the
entry of `h` removed: the subscriber count is one lower and no later publish
invokes `h`. -/
theorem self_unsubscribe_in_pass (b : EventBus) (tbl : HandlerTable) (event : GameEvent)
    (h : HandlerEntry) (hq : b.Quiescent) (hn : b.IdsNodup) (hh : h ∈ b.handlers)
    (hself : tbl h.handler event = [.unsubscribe h.id])
    (hquiet : ∀ g ∈ b.handlers, g.id ≠ h.id → tbl g.handler event = []) :
    (∀ fuel, b.handlers.length + 3 ≤ fuel →
      b.publish tbl fuel event =
        .ok { bus := { b with handlers := EventBus.eraseId b.handlers h.id }
              calls := b.handlers.map (fun g => (g.id, event)) }) ∧
    (b.handlers.map (fun g => (g.id, event))).count (h.id, event) = 1 ∧
    ((b.beginPublish.unsubscribe h.id).handlers.length = b.handlers.length ∧
      (b.beginPublish.unsubscribe h.id).handlers.map (fun g => g.id) =
        b.handlers.map (fun g => g.id) ∧
      (b.beginPublish.unsubscribe h.id).pendingRemovals = [h.id]) ∧
    ((EventBus.eraseId b.handlers h.id).length + 1 = b.handlers.length ∧
      ∀ g, g ∈ EventBus.eraseId b.handlers h.id ↔ g ∈ b.handlers ∧ g ≠ h) ∧
    (∀ b2 : EventBus, (∀ g ∈ b2.handlers, g.id ≠ h.id) →
      ∀ tbl2 fuel ev r, b2.publish tbl2 fuel ev = .ok r →
        (∀ c ∈ r.calls, c.1 ≠ h.id) ∧ ∀ g ∈ r.bus.handlers, g.id ≠ h.id) := by
  obtain ⟨pre, post, hsplit, hpre, hpost⟩ := ids_split hn hh
  obtain ⟨hq1, hq2, hq3⟩ := hq
  have herase : EventBus.eraseId b.handlers h.id = pre ++ post := by
    rw [hsplit, eraseId_append, eraseId_of_not_mem pre h.id hpre]
    rw [eraseId_cons_self h post h.id rfl hpost]
  refine ⟨?_, ?_, ⟨?_, ?_, ?_⟩, ⟨?_, ?_⟩, ?_⟩
  · have hrun : b.publish tbl (b.handlers.length + 3) event =
        .ok { bus := { b with handlers := EventBus.eraseId b.handlers h.id }
              calls := b.handlers.map (fun g => (g.id, event)) } := by
      unfold EventBus.publish
      rw [exec_publish_call]
      have hl : b.handlers.length + 2 = pre.length + post.length + 3 := by
        rw [hsplit]; simp; omega
      have hloop := exec_publishLoop_self_unsubscribe tbl event pre post h
        (BusRun.enterPublish { bus := b }) hsplit rfl (hq3 h hh) hself
        (fun g hg => ⟨⟨hq3 g (by rw [hsplit]; simp [hg]),
          hquiet g (by rw [hsplit]; simp [hg]) (hpre g hg)⟩, hpre g hg⟩)
        (fun g hg => ⟨hq3 g (by rw [hsplit]; simp [hg]),
          hquiet g (by rw [hsplit]; simp [hg]) (hpost g hg)⟩)
      have hstop : (BusRun.enterPublish { bus := b }).bus.handlers.length =
          (pre ++ h :: post).length := by
        show b.handlers.length = _
        rw [hsplit]
      have hstop2 : ({ bus := b } : BusRun).bus.handlers.length =
          (pre ++ h :: post).length := by
        show b.handlers.length = _
        rw [hsplit]
      rw [hl, hstop2, hloop]
      unfold BusRun.leavePublish BusRun.enterPublish BusRun.setHandlersChecked
        EventBus.endPublish EventBus.beginPublish
      simp only [Nat.add_sub_cancel, Nat.lt_irrefl, false_and, if_false, andThen_ok,
        exec_calls_nil, List.nil_append, hq2, List.foldl_cons, List.foldl_nil]
      have e2 : EventBus.eraseId (pre ++ { h with active := false } :: post) h.id =
          pre ++ post := by
        rw [eraseId_append, eraseId_of_not_mem pre h.id hpre,
          eraseId_cons_self { h with active := false } post h.id rfl hpost]
      rw [e2, herase, ← hsplit]
      cases b
      simp only at hq1 hq2
      subst hq1 hq2
      rfl
    intro fuel hf
    have hne : BusRun.exec tbl (b.handlers.length + 3) (.calls [.publish event])
        { bus := b } ≠ .outOfFuel := by
      have := hrun
      unfold EventBus.publish at this
      rw [this]
      simp
    unfold EventBus.publish
    rw [exec_fuel_mono tbl hne fuel hf]
    exact hrun
  · rw [hsplit, List.map_append, List.map_cons, List.count_append, List.count_cons_self,
      List.count_eq_zero_of_not_mem, List.count_eq_zero_of_not_mem]
    · intro hm
      obtain ⟨g, hg, e⟩ := List.mem_map.1 hm
      exact hpost g hg (Prod.mk.inj e).1
    · intro hm
      obtain ⟨g, hg, e⟩ := List.mem_map.1 hm
      exact hpre g hg (Prod.mk.inj e).1
  · unfold EventBus.unsubscribe EventBus.beginPublish
    simp [markInactive_length]
  · unfold EventBus.unsubscribe EventBus.beginPublish
    simp [markInactive_ids]
  · unfold EventBus.unsubscribe EventBus.beginPublish
    simp [hq2]
  · rw [herase, hsplit]
    simp
    omega
  · intro g
    rw [mem_eraseId]
    constructor
    · rintro ⟨h1, h2⟩
      exact ⟨h1, fun e => h2 (by rw [e])⟩
    · rintro ⟨h1, h2⟩
      refine ⟨h1, fun e => ?_⟩
      rw [hsplit] at h1
      rcases List.mem_append.1 h1 with h3 | h3
      · exact hpre g h3 e
      · rcases List.mem_cons.1 h3 with h4 | h4
        · exact h2 h4
        · exact hpost g h4 e
  · intro b2 hb2 tbl2 fuel ev r he
    exact publish_avoids tbl2 h.id b2 hb2 fuel ev r he

/-- On `threeSubscribers`, where callback 2 unsubscribes its own entry and the
other callbacks make no bus calls, a publish invokes entries 1, 2 and 3 once each in that order and leaves
the entries 1 and 3 subscribed. -/
theorem self_unsubscribe_in_pass_witness :
    threeSubscribers.publish unsubscribeSelf 6 (.death 7 8) =
      .ok { bus := { threeSubscribers with
                     handlers := [{ id := 1, handler := 1 }, { id := 3, handler := 3 }] }
            calls := [(1, .death 7 8), (2, .death 7 8), (3, .death 7 8)] } ∧
    threeSubscribers.getSubscriberCount = 3 :=
  ⟨(self_unsubscribe_in_pass threeSubscribers unsubscribeSelf (.death 7 8)
      { id := 2, handler := 2 } (by decide) (by decide) (by decide) rfl (by decide)).1 6
      (by decide), rfl⟩

/-- A run that ends with invalidated iterators at some number of steps returns
for no number of steps. -/
theorem exec_never_ok_of_invalidated (tbl : HandlerTable) (f0 : Nat) (t : BusTask)
    (r : BusRun) (h0 : BusRun.exec tbl f0 t r = .iteratorInvalidated) :
    ∀ fuel r2, BusRun.exec tbl fuel t r ≠ .ok r2 := by
  intro fuel r2 he
  rcases Nat.le_total fuel f0 with hle | hle
  · have h := exec_fuel_mono tbl (by rw [he]; exact fun x => BusResult.noConfusion x) f0 hle
    rw [h0, he] at h
    exact BusResult.noConfusion h
  · have h := exec_fuel_mono tbl (by rw [h0]; exact fun x => BusResult.noConfusion x) fuel hle
    rw [h0, he] at h
    exact BusResult.noConfusion h

/-- C21 fails in the code.  On `threeSubscribers` callback 2 unsubscribes its own
ID during the pass for a death event, after callback 1 has published a heal
event from inside the same pass.  The nested `publish` ends by resetting
`isPublishing_`, so when callback 2 runs the outer loop is still in progress
(`activePasses = 1`) but the bus no longer says so: its `unsubscribe(2)` erases
entry 2 at once instead of marking it, nothing is recorded as pending, and the
list shrinks from three entries to two under the outer loop, which stands at
index 1 with the end index 3.  The pass does not complete for any number of
steps, and entry 3 has not received the death event.  With a first callback
that makes no bus call the same self-unsubscribe is deferred and the pass
invokes all three entries. -/
theorem self_unsubscribe_after_nested_publish_erases :
    threeSubscribers.Quiescent ∧ threeSubscribers.IdsNodup ∧
    threeSubscribers.handlers.map (fun h => (h.id, h.handler)) = [(1, 1), (2, 2), (3, 3)] ∧
    republishThenUnsubscribeSelf 2 (.death 7 8) = [.unsubscribe 2] ∧
    BusRun.exec republishThenUnsubscribeSelf 10 (.calls [.publish (.heal 1 1 5)])
        { bus := threeSubscribers.beginPublish, calls := [(1, .death 7 8)],
          activePasses := 1 } =
      .ok { bus := threeSubscribers
            calls := [(1, .death 7 8), (1, .heal 1 1 5), (2, .heal 1 1 5), (3, .heal 1 1 5)]
            activePasses := 1 } ∧
    (threeSubscribers.unsubscribe 2).handlers =
      [{ id := 1, handler := 1 }, { id := 3, handler := 3 }] ∧
    (threeSubscribers.unsubscribe 2).pendingRemovals = [] ∧
    BusRun.exec republishThenUnsubscribeSelf 10 (.publishLoop (.death 7 8) 1 3)
        { bus := threeSubscribers
          calls := [(1, .death 7 8), (1, .heal 1 1 5), (2, .heal 1 1 5), (3, .heal 1 1 5)]
          activePasses := 1 } = .iteratorInvalidated ∧
    threeSubscribers.publish republishThenUnsubscribeSelf 10 (.death 7 8) =
      .iteratorInvalidated ∧
    (∀ fuel r, threeSubscribers.publish republishThenUnsubscribeSelf fuel (.death 7 8) ≠
      .ok r) ∧
    threeSubscribers.publish unsubscribeSelf 10 (.death 7 8) =
      .ok { bus := { threeSubscribers with
                     handlers := [{ id := 1, handler := 1 }, { id := 3, handler := 3 }] }
            calls := [(1, .death 7 8), (2, .death 7 8), (3, .death 7 8)] } :=
  ⟨by decide, by decide, by decide, by decide, by decide, by decide, by decide, by decide,
    by decide,
    fun fuel r => exec_never_ok_of_invalidated republishThenUnsubscribeSelf 10 _ _
      (by decide) fuel r,
    by decide⟩

/-- C22 fails in the code: the first callback of the pass publishes a nested
event, whose pass ends by resetting `isPublishing_`; when that callback has
returned the outer pass is still running (`activePasses = 1`) but the bus no
longer says so, and the `unsubscribe(2)` of the second callback erases entry 2
from the list at once, while the outer loop is iterating over it. -/
theorem unsubscribe_after_nested_publish_erases :
    BusRun.exec republishThenUnsubscribe 10 (.calls [.publish (.heal 1 1 5)])
        { bus := twoSubscribers.beginPublish, calls := [(1, .death 7 8)], activePasses := 1 } =
      .ok { bus := twoSubscribers
            calls := [(1, .death 7 8), (1, .heal 1 1 5), (2, .heal 1 1 5)]
            activePasses := 1 } ∧
    twoSubscribers.isPublishing = false ∧
    (twoSubscribers.unsubscribe 2).handlers = [{ id := 1, handler := 1 }] ∧
    (twoSubscribers.unsubscribe 2).pendingRemovals = [] ∧
    (twoSubscribers.beginPublish.unsubscribe 2).handlers =
      [{ id := 1, handler := 1 }, { id := 2, handler := 2, active := false }] ∧
    twoSubscribers.publish republishThenUnsubscribe 10 (.death 7 8) =
      .iteratorInvalidated := by
  decide

/-- C23: outside a publish pass `unsubscribe(id)` removes exactly the entry with
that ID: the other entries stay, in their order; the subscriber count drops by
one when the ID is subscribed and nothing changes when it is not; and no later
publish invokes an entry with that ID, whatever the callbacks do. -/
theorem unsubscribe_outside_pass (b : EventBus) (id : Nat) (hp : b.isPublishing = false)
    (hn : b.IdsNodup) :
    (b.unsubscribe id).handlers = b.handlers.filter (fun g => decide (g.id ≠ id)) ∧
    (∀ g, g ∈ (b.unsubscribe id).handlers ↔ g ∈ b.handlers ∧ g.id ≠ id) ∧
    List.Sublist (b.unsubscribe id).handlers b.handlers ∧
    ((∃ g ∈ b.handlers, g.id = id) →
      (b.unsubscribe id).getSubscriberCount + 1 = b.getSubscriberCount) ∧
    ((∀ g ∈ b.handlers, g.id ≠ id) → b.unsubscribe id = b) ∧
    ((b.unsubscribe id).eventQueue = b.eventQueue ∧ (b.unsubscribe id).nextId = b.nextId ∧
      (b.unsubscribe id).isPublishing = false ∧
      (b.unsubscribe id).pendingRemovals = b.pendingRemovals) ∧
    (∀ tbl fuel event r, (b.unsubscribe id).publish tbl fuel event = .ok r →
      (∀ c ∈ r.calls, c.1 ≠ id) ∧ ∀ g ∈ r.bus.handlers, g.id ≠ id) := by
  have hu : b.unsubscribe id = { b with handlers := EventBus.eraseId b.handlers id } := by
    unfold EventBus.unsubscribe
    rw [hp]
    rfl
  have hmem : ∀ g, g ∈ (b.unsubscribe id).handlers ↔ g ∈ b.handlers ∧ g.id ≠ id := by
    intro g
    rw [hu]
    exact mem_eraseId
  refine ⟨by rw [hu]; rfl, hmem, ?_, ?_, ?_, ?_, ?_⟩
  · rw [hu]
    exact List.filter_sublist _
  · rintro ⟨g, hg, rfl⟩
    obtain ⟨pre, post, hsplit, hpre, hpost⟩ := ids_split hn hg
    rw [hu]
    show (EventBus.eraseId b.handlers g.id).length + 1 = b.handlers.length
    rw [hsplit, eraseId_append, eraseId_of_not_mem pre g.id hpre,
      eraseId_cons_self g post g.id rfl hpost]
    simp
    omega
  · intro hnone
    rw [hu, eraseId_of_not_mem b.handlers id hnone]
  · rw [hu]
    exact ⟨rfl, rfl, hp, rfl⟩
  · intro tbl fuel event r he
    exact publish_avoids tbl id (b.unsubscribe id) (fun g hg => ((hmem g).1 hg).2)
      fuel event r he

/-- Witness for C23: unsubscribing entry 1 of `twoSubscribers` leaves one
subscriber, and a later publish invokes entry 2 only. -/
theorem unsubscribe_outside_pass_witness :
    (twoSubscribers.unsubscribe 1).getSubscriberCount + 1 =
      twoSubscribers.getSubscriberCount ∧
    (twoSubscribers.unsubscribe 1).handlers = [{ id := 2, handler := 2 }] ∧
    (twoSubscribers.unsubscribe 7) = twoSubscribers ∧
    (twoSubscribers.unsubscribe 1).publish quietHandlers 4 (.damage 1 2 100 false true) =
      .ok { bus := twoSubscribers.unsubscribe 1
            calls := [(2, .damage 1 2 100 false true)] } :=
  ⟨(unsubscribe_outside_pass twoSubscribers 1 (by decide) (by decide)).2.2.2.1
      ⟨{ id := 1, handler := 1 }, by decide, rfl⟩,
    by decide,
    (unsubscribe_outside_pass twoSubscribers 7 (by decide) (by decide)).2.2.2.2.1
      (by decide),
    by decide⟩

theorem exec_processQueue_call (tbl : HandlerTable) (fuel : Nat) (cs : List BusCall)
    (r : BusRun) :
    BusRun.exec tbl (fuel + 1) (.calls (.processQueue :: cs)) r =
      BusResult.andThen (BusRun.exec tbl fuel .drainQueue r)
        (fun r1 => BusRun.exec tbl fuel (.calls cs) r1) := rfl

/-- Whenever the drain loop of `processQueue` ends, the queue is empty. -/
theorem exec_drainQueue_empties (tbl : HandlerTable) :
    ∀ (fuel : Nat) (r r2 : BusRun),
      BusRun.exec tbl fuel .drainQueue r = .ok r2 → r2.bus.eventQueue = [] := by
  intro fuel
  induction fuel with
  | zero => intro r r2 he; exact absurd he (by simp [BusRun.exec])
  | succ f ih =>
    intro r r2 he
    rw [exec_drainQueue_succ] at he
    cases hq : r.bus.eventQueue with
    | nil =>
      rw [hq] at he
      cases he
      exact hq
    | cons event rest =>
      rw [hq] at he
      simp only at he
      obtain ⟨r1, -, h2⟩ := andThen_eq_ok he
      exact ih r1 r2 h2

/-- The drain loop on a bus outside a pass whose callbacks make no bus calls:
one complete pass per queued event, oldest first. -/
theorem exec_drainQueue_quiet (tbl : HandlerTable) :
    ∀ (q : List GameEvent) (b : EventBus) (cs : List (Nat × GameEvent)) (fuel : Nat),
      b.eventQueue = q → b.Quiescent →
      (∀ e ∈ q, ∀ h ∈ b.handlers, tbl h.handler e = []) →
      q.length + b.handlers.length + 2 ≤ fuel →
      BusRun.exec tbl fuel .drainQueue { bus := b, calls := cs } =
        .ok { bus := { b with eventQueue := [] }
              calls := cs ++ (q.map (fun e => b.handlers.map (fun h => (h.id, e)))).flatten } := by
  intro q
  induction q with
  | nil =>
    intro b cs fuel hq _ _ hf
    obtain ⟨f, rfl⟩ : ∃ f, fuel = f + 1 := ⟨fuel - 1, by omega⟩
    rw [exec_drainQueue_succ]
    simp only [hq, List.map_nil, List.flatten_nil, List.append_nil]
    cases b
    simp only at hq
    subst hq
    rfl
  | cons e rest ih =>
    intro b cs fuel hq hqui hquiet hf
    obtain ⟨f, rfl⟩ : ∃ f, fuel = f + 1 := ⟨fuel - 1, by omega⟩
    rw [exec_drainQueue_succ]
    simp only [hq]
    have hq2 : ({ b with eventQueue := rest } : EventBus).Quiescent := hqui
    have hloop := exec_publishLoop_quiet tbl e b.handlers []
      (BusRun.enterPublish { bus := { b with eventQueue := rest }, calls := cs }) f rfl
      (fun h hh => ⟨hqui.2.2 h hh, hquiet e (List.mem_cons_self _ _) h hh⟩)
      (by simp at hf; omega)
    simp only [List.length_nil, Nat.zero_add] at hloop
    rw [hloop]
    have hleave : BusRun.leavePublish
        { BusRun.enterPublish { bus := { b with eventQueue := rest }, calls := cs } with
          calls := (BusRun.enterPublish
            { bus := { b with eventQueue := rest }, calls := cs }).calls ++
              b.handlers.map (fun h => (h.id, e)) } =
        .ok { bus := { b with eventQueue := rest }
              calls := cs ++ b.handlers.map (fun h => (h.id, e)) } := by
      unfold BusRun.leavePublish BusRun.enterPublish BusRun.setHandlersChecked
      simp only [Nat.add_sub_cancel, Nat.lt_irrefl, false_and, if_false,
        endPublish_of_quiescent hq2]
    rw [hleave, andThen_ok]
    rw [ih { b with eventQueue := rest } _ f rfl hq2
      (fun e2 he2 h hh => hquiet e2 (List.mem_cons_of_mem _ he2) h hh)
      (by simp at hf ⊢; omega)]
    simp [List.append_assoc]

theorem flatten_map_singleton {α β : Type} (f : α → β) (l : List α) :
    (l.map (fun e => [f e])).flatten = l.map f := by
  induction l with
  | nil => rfl
  | cons e t ih =>
    rw [List.map_cons, List.flatten_cons, ih]
    rfl

/-- With callbacks that queue the event again, every pass of the loop of
`processQueue` ends with the queue as it found it, so the loop never ends. -/
theorem exec_drainQueue_requeue :
    ∀ (fuel : Nat) (calls : List (Nat × GameEvent)),
      BusRun.exec requeueHandlers fuel .drainQueue { bus := queuedOne, calls := calls } =
        .outOfFuel := by
  intro fuel
  induction fuel using Nat.strong_induction_on with
  | _ fuel ih =>
    intro calls
    match fuel, ih with
    | 0, _ => rfl
    | 1, _ => rfl
    | 2, _ => rfl
    | k + 3, ih =>
      have step : BusRun.exec requeueHandlers (k + 3) .drainQueue
          { bus := queuedOne, calls := calls } =
          BusRun.exec requeueHandlers (k + 2) .drainQueue
            { bus := queuedOne, calls := calls ++ [(1, .damage 1 2 100 false true)] } := by
        have hq : ∀ r : BusRun,
            BusRun.exec requeueHandlers (k + 1)
              (.calls [.queue (.damage 1 2 100 false true)]) r =
              .ok { r with bus := r.bus.queue (.damage 1 2 100 false true) } := by
          intro r
          show (BusResult.ok { r with bus := r.bus.queue (.damage 1 2 100 false true) }).andThen
            (fun r1 => BusRun.exec requeueHandlers k (.calls []) r1) = _
          rw [andThen_ok, exec_calls_nil]
        rw [exec_drainQueue_succ]
        show BusResult.andThen
          (BusRun.exec requeueHandlers (k + 2)
            (.publishLoop (.damage 1 2 100 false true) 0 1) _) _ = _
        rw [exec_publishLoop_succ]
        show BusResult.andThen (BusResult.andThen
          (BusRun.exec requeueHandlers (k + 1)
            (.calls [.queue (.damage 1 2 100 false true)]) _) _) _ = _
        rw [hq, andThen_ok, exec_publishLoop_succ]
        rfl
      rw [step]
      exact ih (k + 2) (by omega) _

/-- C24 as stated fails: on a bus outside a pass with one subscriber and one
queued event, where the callback queues the event it receives again,
`processQueue` does not return, whatever the number of steps. -/
theorem processQueue_requeue_never_returns :
    queuedOne.Quiescent ∧ queuedOne.getSubscriberCount = 1 ∧ queuedOne.getQueueSize = 1 ∧
    (∀ fuel, queuedOne.processQueue requeueHandlers fuel = .outOfFuel) ∧
    ∀ fuel r, queuedOne.processQueue requeueHandlers fuel ≠ .ok r := by
  have h : ∀ fuel, queuedOne.processQueue requeueHandlers fuel = .outOfFuel := by
    intro fuel
    cases fuel with
    | zero => rfl
    | succ f =>
      unfold EventBus.processQueue
      rw [exec_processQueue_call, exec_drainQueue_requeue]
      rfl
  refine ⟨by decide, rfl, rfl, h, ?_⟩
  intro fuel r he
  rw [h fuel] at he
  exact BusResult.noConfusion he

/-- C24, amended: `queue(event)` invokes no handler and grows the queue by one at
its end; on a bus outside a pass whose callbacks make no bus calls, `processQueue`
publishes the queued events oldest first, each in one complete pass over the
subscribers, and returns with the queue empty, so that with one subscriber the
handler is called once per queued event; and whenever `processQueue` returns,
whatever the callbacks do, the queue is empty. -/
theorem queue_then_processQueue (b : EventBus) (tbl : HandlerTable) (hq : b.Quiescent)
    (hquiet : ∀ e ∈ b.eventQueue, ∀ h ∈ b.handlers, tbl h.handler e = []) :
    (∀ ev, (b.queue ev).eventQueue = b.eventQueue ++ [ev] ∧
      (b.queue ev).getQueueSize = b.getQueueSize + 1 ∧
      (b.queue ev).handlers = b.handlers ∧
      ∀ fuel (r : BusRun), BusRun.exec tbl (fuel + 1) (.calls [.queue ev]) r =
        .ok { r with bus := r.bus.queue ev }) ∧
    (∀ fuel, b.eventQueue.length + b.handlers.length + 3 ≤ fuel →
      b.processQueue tbl fuel =
        .ok { bus := { b with eventQueue := [] }
              calls := (b.eventQueue.map
                (fun e => b.handlers.map (fun h => (h.id, e)))).flatten }) ∧
    (∀ h, b.handlers = [h] →
      ∀ fuel, b.eventQueue.length + 4 ≤ fuel →
        ∃ r, b.processQueue tbl fuel = .ok r ∧
          r.calls = b.eventQueue.map (fun e => (h.id, e)) ∧
          r.calls.length = b.getQueueSize ∧ r.bus.getQueueSize = 0) ∧
    (∀ tbl2 fuel r, b.processQueue tbl2 fuel = .ok r → r.bus.getQueueSize = 0) := by
  have hrun : ∀ fuel, b.eventQueue.length + b.handlers.length + 3 ≤ fuel →
      b.processQueue tbl fuel =
        .ok { bus := { b with eventQueue := [] }
              calls := (b.eventQueue.map
                (fun e => b.handlers.map (fun h => (h.id, e)))).flatten } := by
    intro fuel hf
    obtain ⟨f, rfl⟩ : ∃ f, fuel = f + 1 := ⟨fuel - 1, by omega⟩
    unfold EventBus.processQueue
    rw [exec_processQueue_call,
      exec_drainQueue_quiet tbl b.eventQueue b [] f rfl hq hquiet (by omega)]
    simp [andThen_ok, exec_calls_nil]
  refine ⟨?_, hrun, ?_, ?_⟩
  · intro ev
    refine ⟨rfl, ?_, rfl, ?_⟩
    · simp [EventBus.queue, EventBus.getQueueSize]
    · intro fuel r
      show (BusResult.ok { r with bus := r.bus.queue ev }).andThen
        (fun r1 => BusRun.exec tbl fuel (.calls []) r1) = _
      rw [andThen_ok, exec_calls_nil]
  · intro h hh fuel hf
    refine ⟨_, hrun fuel (by rw [hh]; simp; omega), ?_, ?_, rfl⟩
    · rw [hh]
      exact flatten_map_singleton (fun e => (h.id, e)) b.eventQueue
    · rw [hh]
      show ((b.eventQueue.map (fun e => [(h.id, e)])).flatten).length = _
      rw [flatten_map_singleton (fun e => (h.id, e)) b.eventQueue, List.length_map]
      rfl
  · intro tbl2 fuel r he
    unfold EventBus.processQueue at he
    cases fuel with
    | zero => exact absurd he (by simp [BusRun.exec])
    | succ f =>
      rw [exec_processQueue_call] at he
      obtain ⟨r1, h1, h2⟩ := andThen_eq_ok he
      rw [exec_calls_nil] at h2
      cases h2
      unfold EventBus.getQueueSize
      rw [exec_drainQueue_empties tbl2 f _ _ h1]
      rfl

/-- Witness for C24: the test `QueueAndProcess`: three queued events and one
subscriber give three handler calls and an empty queue. -/
theorem queue_then_processQueue_witness :
    queuedThree.getQueueSize = 3 ∧
    queuedThree.processQueue quietHandlers 7 =
      .ok { bus := (({} : EventBus).subscribe 1).2
            calls := [(1, .damage 1 2 100 false true), (1, .damage 1 2 100 false true),
              (1, .damage 1 2 100 false true)] } :=
  ⟨rfl, (queue_then_processQueue queuedThree quietHandlers (by decide)
    (fun _ _ _ _ => rfl)).2.1 7 (by decide)⟩

/-! ## Combat: validation and attacks -/

theorem validateAttacker_iff (s : CombatSystem) (id : Nat) :
    s.validateAttacker id = true ↔
      ∃ a, s.actors.getActor id = some a ∧ a.isAlive = true := by
  unfold CombatSystem.validateAttacker
  cases s.actors.getActor id with
  | none => simp
  | some a => simp

theorem validateTarget_iff (s : CombatSystem) (id : Nat) :
    s.validateTarget id = true ↔
      ∃ a, s.actors.getActor id = some a ∧ a.isAlive = true := by
  unfold CombatSystem.validateTarget
  cases s.actors.getActor id with
  | none => simp
  | some a => simp

/-- C25: `canPerformAction` returns true exactly when every actor the action
refers to is in the registry and alive: attacker and target for a basic attack,
caster and target for a skill attack, the caster alone for an area skill and a
self skill.  It is a query: it returns a flag and no new state. -/
theorem canPerformAction_iff (s : CombatSystem) :
    (∀ attacker target isPhysical,
      s.canPerformAction (.basicAttack attacker target isPhysical) = true ↔
        (∃ a, s.actors.getActor attacker = some a ∧ a.isAlive = true) ∧
        (∃ t, s.actors.getActor target = some t ∧ t.isAlive = true)) ∧
    (∀ caster target skill,
      s.canPerformAction (.skillAttack caster target skill) = true ↔
        (∃ c, s.actors.getActor caster = some c ∧ c.isAlive = true) ∧
        (∃ t, s.actors.getActor target = some t ∧ t.isAlive = true)) ∧
    (∀ caster x y radius skill,
      s.canPerformAction (.areaSkill caster x y radius skill) = true ↔
        ∃ c, s.actors.getActor caster = some c ∧ c.isAlive = true) ∧
    (∀ caster skill,
      s.canPerformAction (.selfSkill caster skill) = true ↔
        ∃ c, s.actors.getActor caster = some c ∧ c.isAlive = true) ∧
    (duelDeadDefender.canPerformAction (.basicAttack 1 2 true) = false ∧
      duel.canPerformAction (.basicAttack 1 9999 true) = false ∧
      duel.canPerformAction (.basicAttack 1 2 true) = true) := by
  refine ⟨?_, ?_, ?_, ?_, by decide⟩
  · intro attacker target isPhysical
    simp only [CombatSystem.canPerformAction, Bool.and_eq_true, validateAttacker_iff,
      validateTarget_iff]
  · intro caster target skill
    simp only [CombatSystem.canPerformAction, Bool.and_eq_true, validateAttacker_iff,
      validateTarget_iff]
  · intro caster x y radius skill
    simp only [CombatSystem.canPerformAction, validateAttacker_iff]
  · intro caster skill
    simp only [CombatSystem.canPerformAction, validateAttacker_iff]

/-- C26: for every action that `canPerformAction` rejects, `processAction` returns
the state it was given: no actor changes, no event is published and no random
number is drawn. -/
theorem processAction_rejected (rng : DrawSource) (s : CombatSystem) (action : CombatAction)
    (h : s.canPerformAction action = false) : s.processAction rng action = s := by
  unfold CombatSystem.processAction
  rw [if_pos h]

/-- Witness for C26: attacking the dead defender, an unknown target and with a
dead attacker leaves the state as it was. -/
theorem processAction_rejected_witness :
    duelDeadDefender.processAction highDraws (.basicAttack 1 2 true) = duelDeadDefender ∧
    duel.processAction highDraws (.skillAttack 1 9999 1) = duel ∧
    duelDeadDefender.processAction zeroDraws (.selfSkill 2 1) = duelDeadDefender :=
  ⟨processAction_rejected highDraws duelDeadDefender (.basicAttack 1 2 true) (by decide),
    processAction_rejected highDraws duel (.skillAttack 1 9999 1) (by decide),
    processAction_rejected zeroDraws duelDeadDefender (.selfSkill 2 1) (by decide)⟩

theorem calculate_dodged {rng : DrawSource} {drawn : Nat} {attacker defender : Actor}
    {isPhysical : Bool} {bonus : Int}
    (h : StandardDamageFormula.rollDodge (rng drawn) defender.derivedStats.dodgeChance = true) :
    StandardDamageFormula.calculate rng drawn attacker defender isPhysical bonus =
      ({ isPhysical := isPhysical, isDodged := true }, drawn + 1) := by
  unfold StandardDamageFormula.calculate
  simp only [h, if_true]

theorem calculate_hit {rng : DrawSource} {drawn : Nat} {attacker defender : Actor}
    {isPhysical : Bool} {bonus : Int}
    (h : StandardDamageFormula.rollDodge (rng drawn) defender.derivedStats.dodgeChance = false) :
    (StandardDamageFormula.calculate rng drawn attacker defender isPhysical bonus).1.isDodged
        = false ∧
      (StandardDamageFormula.calculate rng drawn attacker defender isPhysical bonus).1.isPhysical
        = isPhysical ∧
      (StandardDamageFormula.calculate rng drawn attacker defender isPhysical bonus).2
        = drawn + 2 ∧
      1 ≤ (StandardDamageFormula.calculate rng drawn attacker defender isPhysical
        bonus).1.finalDamage := by
  unfold StandardDamageFormula.calculate
  simp only [h, Bool.false_eq_true, if_false]
  exact ⟨trivial, trivial, trivial, le_max_left _ _⟩

theorem calculate_isDodged (rng : DrawSource) (drawn : Nat) (attacker defender : Actor)
    (isPhysical : Bool) (bonus : Int) :
    (StandardDamageFormula.calculate rng drawn attacker defender isPhysical bonus).1.isDodged =
      StandardDamageFormula.rollDodge (rng drawn) defender.derivedStats.dodgeChance := by
  cases h : StandardDamageFormula.rollDodge (rng drawn) defender.derivedStats.dodgeChance with
  | true => rw [calculate_dodged h]
  | false => exact (calculate_hit h).1

/-- The effect of `takeDamage` with a positive amount on a living actor. -/
theorem attack_applied {t : Actor} {dmg : Int}
    (hhp : InI32 t.runtimeStats.currentHp) (halive : t.isAlive = true) (hpos : 1 ≤ dmg) :
    (t.takeDamage dmg).2 =
        t.withHp (t.runtimeStats.currentHp - min dmg t.runtimeStats.currentHp) ∧
      ((t.takeDamage dmg).2.isAlive = false ↔ t.runtimeStats.currentHp ≤ dmg) ∧
      1 ≤ min dmg t.runtimeStats.currentHp := by
  have hcur : 0 < t.runtimeStats.currentHp := (isAlive_iff t).1 halive
  rw [takeDamage_hit hhp (by omega) halive]
  refine ⟨rfl, ?_, ?_⟩
  · simp only [withHp, isAlive, decide_eq_false_iff_not]
    omega
  · omega

/-- The state `handleBasicAttack` leaves when the registry has both actors, the
target is alive and the attack is not dodged. -/
theorem handleBasicAttack_hit (rng : DrawSource) (s : CombatSystem) (attacker target : Nat)
    (isPhysical : Bool) (a t : Actor) (ha : s.actors.getActor attacker = some a)
    (ht : s.actors.getActor target = some t) (hhp : InI32 t.runtimeStats.currentHp)
    (halive : t.isAlive = true)
    (hnd : StandardDamageFormula.rollDodge (rng s.drawn) t.derivedStats.dodgeChance = false) :
    (s.handleBasicAttack rng attacker target isPhysical).2 =
      { actors := s.actors.setActor target
          (t.withHp (t.runtimeStats.currentHp -
            min (StandardDamageFormula.calculate rng s.drawn a t isPhysical 0).1.finalDamage
              t.runtimeStats.currentHp))
        published := s.published ++
          (.damage attacker target
              (StandardDamageFormula.calculate rng s.drawn a t isPhysical 0).1.finalDamage
              (StandardDamageFormula.calculate rng s.drawn a t isPhysical 0).1.isCritical
              isPhysical ::
            (if t.runtimeStats.currentHp ≤
                (StandardDamageFormula.calculate rng s.drawn a t isPhysical 0).1.finalDamage
              then [.death target attacker] else []))
        drawn := s.drawn + 2 } := by
  obtain ⟨h1, h2, h3, h4⟩ := @calculate_hit rng s.drawn a t isPhysical 0 hnd
  obtain ⟨k1, k2, -⟩ := attack_applied hhp halive h4
  unfold CombatSystem.handleBasicAttack
  rw [ha, ht]
  simp only [DamageCalculator.calculateBasicAttack, h1, h2, h3, Bool.false_eq_true, if_false]
  by_cases hk : t.runtimeStats.currentHp ≤
      (StandardDamageFormula.calculate rng s.drawn a t isPhysical 0).1.finalDamage
  · rw [if_neg (by rw [k2.2 hk]; simp), if_pos hk, k1]
    simp [CombatSystem.publish]
  · have hal : (t.takeDamage
        (StandardDamageFormula.calculate rng s.drawn a t isPhysical 0).1.finalDamage).2.isAlive
          = true := by
      cases hc : (t.takeDamage
        (StandardDamageFormula.calculate rng s.drawn a t isPhysical 0).1.finalDamage).2.isAlive
      · exact absurd (k2.1 hc) hk
      · rfl
    rw [if_pos hal, if_neg hk, k1]
    simp [CombatSystem.publish]

/-- The state `handleBasicAttack` leaves when the attack is dodged. -/
theorem handleBasicAttack_dodged (rng : DrawSource) (s : CombatSystem)
    (attacker target : Nat) (isPhysical : Bool) (a t : Actor)
    (ha : s.actors.getActor attacker = some a) (ht : s.actors.getActor target = some t)
    (hd : StandardDamageFormula.rollDodge (rng s.drawn) t.derivedStats.dodgeChance = true) :
    (s.handleBasicAttack rng attacker target isPhysical).2 =
      { s with drawn := s.drawn + 1 } := by
  unfold CombatSystem.handleBasicAttack
  rw [ha, ht]
  simp only [DamageCalculator.calculateBasicAttack, calculate_dodged hd, if_true]

theorem processAction_basicAttack {rng : DrawSource} {s : CombatSystem}
    {attacker target : Nat} {isPhysical : Bool}
    (h : s.canPerformAction (.basicAttack attacker target isPhysical) = true) :
    s.processAction rng (.basicAttack attacker target isPhysical) =
      (s.handleBasicAttack rng attacker target isPhysical).2 := by
  unfold CombatSystem.processAction
  rw [if_neg (by rw [h]; simp)]

theorem valid_basicAttack {s : CombatSystem} {attacker target : Nat} {isPhysical : Bool}
    (h : s.canPerformAction (.basicAttack attacker target isPhysical) = true) :
    ∃ a t, s.actors.getActor attacker = some a ∧ a.isAlive = true ∧
      s.actors.getActor target = some t ∧ t.isAlive = true := by
  simp only [CombatSystem.canPerformAction, Bool.and_eq_true, validateAttacker_iff,
    validateTarget_iff] at h
  obtain ⟨⟨a, h1, h2⟩, ⟨t, h3, h4⟩⟩ := h
  exact ⟨a, t, h1, h2, h3, h4⟩

/-- C27: for a valid basic attack that is not dodged and whose final damage is at
least the target's current HP, `processAction` leaves the target at exactly 0 HP
and publishes exactly two events: one `DamageEvent` and after it one `DeathEvent`
with the target as actor and the attacker as killer.  (The target's HP holds an
`int32_t` value.) -/
theorem basicAttack_kill (rng : DrawSource) (s : CombatSystem) (attacker target : Nat)
    (isPhysical : Bool) (a t : Actor)
    (hvalid : s.canPerformAction (.basicAttack attacker target isPhysical) = true)
    (ha : s.actors.getActor attacker = some a) (ht : s.actors.getActor target = some t)
    (hhp : InI32 t.runtimeStats.currentHp)
    (hnd : (DamageCalculator.calculateBasicAttack rng s.drawn a t isPhysical).1.isDodged
      = false)
    (hkill : t.runtimeStats.currentHp ≤
      (DamageCalculator.calculateBasicAttack rng s.drawn a t isPhysical).1.finalDamage) :
    (s.processAction rng (.basicAttack attacker target isPhysical)).actors.getActor target =
      some (t.withHp 0) ∧
    (t.withHp 0).runtimeStats.currentHp = 0 ∧
    (s.processAction rng (.basicAttack attacker target isPhysical)).published =
      s.published ++
        [.damage attacker target
            (DamageCalculator.calculateBasicAttack rng s.drawn a t isPhysical).1.finalDamage
            (DamageCalculator.calculateBasicAttack rng s.drawn a t isPhysical).1.isCritical
            isPhysical,
          .death target attacker] := by
  obtain ⟨a2, t2, h1, -, h3, h4⟩ := valid_basicAttack hvalid
  rw [ht] at h3
  cases h3
  unfold DamageCalculator.calculateBasicAttack at hnd hkill ⊢
  rw [calculate_isDodged] at hnd
  rw [processAction_basicAttack hvalid,
    handleBasicAttack_hit rng s attacker target isPhysical a t ha ht hhp h4 hnd]
  have hmin : min (StandardDamageFormula.calculate rng s.drawn a t isPhysical 0).1.finalDamage
      t.runtimeStats.currentHp = t.runtimeStats.currentHp := min_eq_right hkill
  refine ⟨?_, rfl, ?_⟩
  · simp only [ActorManager.getActor, ActorManager.setActor, if_true, hmin, sub_self]
  · simp only [if_pos hkill]

/-- Witness for C27: the test `DeathEventOnKill`: the defender at 1 HP is hit for
173 and dies; the events are the damage event and then the death event. -/
theorem basicAttack_kill_witness :
    ((duelToTheDeath.processAction highDraws (.basicAttack 1 2 true)).actors.getActor 2).map
      (fun t => t.runtimeStats.currentHp) = some 0 ∧
    (duelToTheDeath.processAction highDraws (.basicAttack 1 2 true)).published =
      [.damage 1 2 173 false true, .death 2 1] := by
  have h := basicAttack_kill highDraws duelToTheDeath 1 2 true
    ((Actor.mk0 1 "Attacker").setPrimaryStat "strength" 100)
    ((Actor.mk0 2 "Defender").takeDamage 204).2 (by decide) (by decide) (by decide)
    (by decide) (by decide) (by decide)
  refine ⟨?_, ?_⟩
  · rw [h.1]
    rfl
  · rw [h.2.2]
    decide

/-- C28 as stated fails when an actor attacks itself: the attack of actor 1 on
actor 1 is valid, is not dodged, and takes the attacker from 205 to 188 HP. -/
theorem basicAttack_on_self_changes_attacker :
    duel.canPerformAction (.basicAttack 1 1 true) = true ∧
    (duel.actors.getActor 1).map (fun a => a.runtimeStats.currentHp) = some 205 ∧
    ((duel.processAction highDraws (.basicAttack 1 1 true)).actors.getActor 1).map
      (fun a => a.runtimeStats.currentHp) = some 188 ∧
    (duel.processAction highDraws (.basicAttack 1 1 true)).actors.getActor 1 ≠
      duel.actors.getActor 1 := by
  decide

/-- C28, amended: for a valid basic attack, a dodged resolution changes no actor
and publishes nothing; a resolution that is not dodged lowers the target's HP by
`min(finalDamage, previous HP)`, which is at least 1, publishes exactly one
`DamageEvent(attacker, target, finalDamage, isCritical, isPhysical)` and after it
a `DeathEvent(target, attacker)` exactly when the target's HP reached 0, and
changes no other actor; so the attacker's state is unchanged whenever the
attacker is not the target.  (The target's HP holds an `int32_t` value.) -/
theorem basicAttack_outcome (rng : DrawSource) (s : CombatSystem) (attacker target : Nat)
    (isPhysical : Bool) (a t : Actor)
    (hvalid : s.canPerformAction (.basicAttack attacker target isPhysical) = true)
    (ha : s.actors.getActor attacker = some a) (ht : s.actors.getActor target = some t)
    (hhp : InI32 t.runtimeStats.currentHp) :
    ((DamageCalculator.calculateBasicAttack rng s.drawn a t isPhysical).1.isDodged = true →
      s.processAction rng (.basicAttack attacker target isPhysical) =
        { s with drawn := s.drawn + 1 }) ∧
    ((DamageCalculator.calculateBasicAttack rng s.drawn a t isPhysical).1.isDodged = false →
      (s.processAction rng (.basicAttack attacker target isPhysical)).actors.getActor target =
        some (t.withHp (t.runtimeStats.currentHp -
          min (DamageCalculator.calculateBasicAttack rng s.drawn a t isPhysical).1.finalDamage
            t.runtimeStats.currentHp)) ∧
      1 ≤ min (DamageCalculator.calculateBasicAttack rng s.drawn a t isPhysical).1.finalDamage
        t.runtimeStats.currentHp ∧
      (s.processAction rng (.basicAttack attacker target isPhysical)).published =
        s.published ++
          (.damage attacker target
              (DamageCalculator.calculateBasicAttack rng s.drawn a t isPhysical).1.finalDamage
              (DamageCalculator.calculateBasicAttack rng s.drawn a t isPhysical).1.isCritical
              isPhysical ::
            (if t.runtimeStats.currentHp -
                min (DamageCalculator.calculateBasicAttack rng s.drawn a t
                  isPhysical).1.finalDamage t.runtimeStats.currentHp = 0
              then [.death target attacker] else [])) ∧
      (s.processAction rng (.basicAttack attacker target isPhysical)).drawn = s.drawn + 2) ∧
    (∀ j, j ≠ target →
      (s.processAction rng (.basicAttack attacker target isPhysical)).actors.getActor j =
        s.actors.getActor j) ∧
    (attacker ≠ target →
      (s.processAction rng (.basicAttack attacker target isPhysical)).actors.getActor attacker =
        some a) := by
  obtain ⟨a2, t2, h1, -, h3, h4⟩ := valid_basicAttack hvalid
  rw [ht] at h3
  cases h3
  have hothers : ∀ j, j ≠ target →
      (s.processAction rng (.basicAttack attacker target isPhysical)).actors.getActor j =
        s.actors.getActor j := by
    intro j hj
    rw [processAction_basicAttack hvalid]
    cases hd : StandardDamageFormula.rollDodge (rng s.drawn) t.derivedStats.dodgeChance with
    | true => rw [handleBasicAttack_dodged rng s attacker target isPhysical a t ha ht hd]
    | false =>
      rw [handleBasicAttack_hit rng s attacker target isPhysical a t ha ht hhp h4 hd]
      simp only [ActorManager.getActor, ActorManager.setActor, if_neg hj]
  unfold DamageCalculator.calculateBasicAttack
  rw [calculate_isDodged]
  refine ⟨?_, ?_, hothers, ?_⟩
  · intro hd
    rw [processAction_basicAttack hvalid,
      handleBasicAttack_dodged rng s attacker target isPhysical a t ha ht hd]
  · intro hnd
    obtain ⟨-, -, -, k4⟩ := @calculate_hit rng s.drawn a t isPhysical 0 hnd
    have hcur : 0 < t.runtimeStats.currentHp := (isAlive_iff t).1 h4
    rw [processAction_basicAttack hvalid,
      handleBasicAttack_hit rng s attacker target isPhysical a t ha ht hhp h4 hnd]
    refine ⟨?_, by omega, ?_, rfl⟩
    · simp only [ActorManager.getActor, ActorManager.setActor, if_true]
    · by_cases hk : t.runtimeStats.currentHp ≤
          (StandardDamageFormula.calculate rng s.drawn a t isPhysical 0).1.finalDamage
      · rw [if_pos hk, if_pos (by omega)]
      · rw [if_neg hk, if_neg (by omega)]
  · intro hne
    rw [hothers attacker hne, ha]

/-- Witness for C28: the fresh attacker hits the fresh defender for 17: the
defender goes from 205 to 188 HP, one damage event is published and the attacker
is as before; with draws of 0 the attack is dodged and nothing but the draw
count changes. -/
theorem basicAttack_outcome_witness :
    ((duel.processAction highDraws (.basicAttack 1 2 true)).actors.getActor 2).map
      (fun t => t.runtimeStats.currentHp) = some 188 ∧
    (duel.processAction highDraws (.basicAttack 1 2 true)).published =
      [.damage 1 2 17 false true] ∧
    (duel.processAction highDraws (.basicAttack 1 2 true)).actors.getActor 1 =
      some (Actor.mk0 1 "Attacker") ∧
    duel.processAction zeroDraws (.basicAttack 1 2 true) = { duel with drawn := 1 } := by
  have h := basicAttack_outcome highDraws duel 1 2 true (Actor.mk0 1 "Attacker")
    (Actor.mk0 2 "Defender") (by decide) (by decide) (by decide) (by decide)
  have h0 := basicAttack_outcome zeroDraws duel 1 2 true (Actor.mk0 1 "Attacker")
    (Actor.mk0 2 "Defender") (by decide) (by decide) (by decide) (by decide)
  have hnd := h.2.1 (by decide)
  refine ⟨?_, ?_, h.2.2.2 (by decide), h0.1 (by decide)⟩
  · rw [hnd.1]
    decide
  · rw [hnd.2.2.1]
    decide

theorem processAction_skillAttack {rng : DrawSource} {s : CombatSystem}
    {caster target skill : Nat}
    (h : s.canPerformAction (.skillAttack caster target skill) = true) :
    s.processAction rng (.skillAttack caster target skill) =
      s.handleSkillAttack rng caster target skill := by
  unfold CombatSystem.processAction
  rw [if_neg (by rw [h]; simp)]

theorem valid_skillAttack {s : CombatSystem} {caster target skill : Nat}
    (h : s.canPerformAction (.skillAttack caster target skill) = true) :
    ∃ c t, s.actors.getActor caster = some c ∧ c.isAlive = true ∧
      s.actors.getActor target = some t ∧ t.isAlive = true := by
  simp only [CombatSystem.canPerformAction, Bool.and_eq_true, validateAttacker_iff,
    validateTarget_iff] at h
  obtain ⟨⟨c, h1, h2⟩, ⟨t, h3, h4⟩⟩ := h
  exact ⟨c, t, h1, h2, h3, h4⟩

/-- The state `handleSkillAttack` leaves when the attack is dodged. -/
theorem handleSkillAttack_dodged (rng : DrawSource) (s : CombatSystem)
    (caster target skill : Nat) (c t : Actor)
    (hc : s.actors.getActor caster = some c) (ht : s.actors.getActor target = some t)
    (hd : StandardDamageFormula.rollDodge (rng s.drawn) t.derivedStats.dodgeChance = true) :
    s.handleSkillAttack rng caster target skill = { s with drawn := s.drawn + 1 } := by
  unfold CombatSystem.handleSkillAttack
  rw [hc, ht]
  simp only [DamageCalculator.calculateSkillDamage, calculate_dodged hd, if_true]

/-- The state `handleSkillAttack` leaves when the attack is not dodged. -/
theorem handleSkillAttack_hit (rng : DrawSource) (s : CombatSystem)
    (caster target skill : Nat) (c t : Actor) (hc : s.actors.getActor caster = some c)
    (ht : s.actors.getActor target = some t) (hhp : InI32 t.runtimeStats.currentHp)
    (halive : t.isAlive = true)
    (hnd : StandardDamageFormula.rollDodge (rng s.drawn) t.derivedStats.dodgeChance = false) :
    s.handleSkillAttack rng caster target skill =
      { actors := s.actors.setActor target
          (t.withHp (t.runtimeStats.currentHp -
            min (StandardDamageFormula.calculate rng s.drawn c t true 20).1.finalDamage
              t.runtimeStats.currentHp))
        published := s.published ++
          (.skillUsed caster skill target ::
            .damage caster target
              (StandardDamageFormula.calculate rng s.drawn c t true 20).1.finalDamage
              (StandardDamageFormula.calculate rng s.drawn c t true 20).1.isCritical true ::
            (if t.runtimeStats.currentHp ≤
                (StandardDamageFormula.calculate rng s.drawn c t true 20).1.finalDamage
              then [.death target caster] else []))
        drawn := s.drawn + 2 } := by
  obtain ⟨h1, h2, h3, h4⟩ := @calculate_hit rng s.drawn c t true 20 hnd
  obtain ⟨k1, k2, -⟩ := attack_applied hhp halive h4
  unfold CombatSystem.handleSkillAttack
  rw [hc, ht]
  simp only [DamageCalculator.calculateSkillDamage, h1, h2, h3, Bool.false_eq_true, if_false]
  by_cases hk : t.runtimeStats.currentHp ≤
      (StandardDamageFormula.calculate rng s.drawn c t true 20).1.finalDamage
  · rw [if_neg (by rw [k2.2 hk]; simp), if_pos hk, k1]
    simp [CombatSystem.publish]
  · have hal : (t.takeDamage
        (StandardDamageFormula.calculate rng s.drawn c t true 20).1.finalDamage).2.isAlive
          = true := by
      cases hcase : (t.takeDamage
        (StandardDamageFormula.calculate rng s.drawn c t true 20).1.finalDamage).2.isAlive
      · exact absurd (k2.1 hcase) hk
      · rfl
    rw [if_pos hal, if_neg hk, k1]
    simp [CombatSystem.publish]

/-- C29 as stated fails for a dodged skill attack: with every draw 0 the valid
skill attack of actor 1 on actor 2 is dodged and `processAction` publishes no
event at all, so no `SkillUsedEvent`. -/
theorem dodged_skillAttack_publishes_nothing :
    duel.canPerformAction (.skillAttack 1 2 1) = true ∧
    (DamageCalculator.calculateSkillDamage zeroDraws duel.drawn (Actor.mk0 1 "Attacker")
      (Actor.mk0 2 "Defender") 20 true).1.isDodged = true ∧
    (duel.processAction zeroDraws (.skillAttack 1 2 1)).published = [] ∧
    (duel.processAction zeroDraws (.skillAttack 1 2 1)).drawn = 1 := by
  decide

/-- C29, amended: for a valid skill attack that is not dodged, `processAction`
publishes exactly one `SkillUsedEvent(caster, skill, target)`, and it precedes the
one `DamageEvent`; for a dodged one it publishes no event.  (The target's HP holds
an `int32_t` value.) -/
theorem skillAttack_events (rng : DrawSource) (s : CombatSystem) (caster target skill : Nat)
    (c t : Actor) (hvalid : s.canPerformAction (.skillAttack caster target skill) = true)
    (hc : s.actors.getActor caster = some c) (ht : s.actors.getActor target = some t)
    (hhp : InI32 t.runtimeStats.currentHp) :
    ((DamageCalculator.calculateSkillDamage rng s.drawn c t 20 true).1.isDodged = true →
      s.processAction rng (.skillAttack caster target skill) =
        { s with drawn := s.drawn + 1 }) ∧
    ((DamageCalculator.calculateSkillDamage rng s.drawn c t 20 true).1.isDodged = false →
      (s.processAction rng (.skillAttack caster target skill)).published =
        s.published ++
          (.skillUsed caster skill target ::
            .damage caster target
              (DamageCalculator.calculateSkillDamage rng s.drawn c t 20 true).1.finalDamage
              (DamageCalculator.calculateSkillDamage rng s.drawn c t 20 true).1.isCritical
              true ::
            (if t.runtimeStats.currentHp ≤
                (DamageCalculator.calculateSkillDamage rng s.drawn c t 20 true).1.finalDamage
              then [.death target caster] else []))) := by
  obtain ⟨c2, t2, h1, -, h3, h4⟩ := valid_skillAttack hvalid
  rw [ht] at h3
  cases h3
  unfold DamageCalculator.calculateSkillDamage
  rw [calculate_isDodged]
  refine ⟨?_, ?_⟩
  · intro hd
    rw [processAction_skillAttack hvalid,
      handleSkillAttack_dodged rng s caster target skill c t hc ht hd]
  · intro hnd
    rw [processAction_skillAttack hvalid,
      handleSkillAttack_hit rng s caster target skill c t hc ht hhp h4 hnd]

/-- Witness for C29: with draws of 0.99 the skill attack of the fresh attacker on
the fresh defender hits for 34: the events are the skill-used event and then the
damage event. -/
theorem skillAttack_events_witness :
    (duel.processAction highDraws (.skillAttack 1 2 7)).published =
      [.skillUsed 1 7 2, .damage 1 2 34 false true] ∧
    duel.processAction zeroDraws (.skillAttack 1 2 7) = { duel with drawn := 1 } := by
  have h := skillAttack_events highDraws duel 1 2 7 (Actor.mk0 1 "Attacker")
    (Actor.mk0 2 "Defender") (by decide) (by decide) (by decide) (by decide)
  have h0 := skillAttack_events zeroDraws duel 1 2 7 (Actor.mk0 1 "Attacker")
    (Actor.mk0 2 "Defender") (by decide) (by decide) (by decide) (by decide)
  refine ⟨?_, h0.1 (by decide)⟩
  rw [h.2 (by decide)]
  decide

/-! ## The damage formula -/

theorem rneDiv_err (a : Nat) {B : Nat} (hB : 0 < B) :
    2 * (rneDiv a B * B) ≤ 2 * a + B ∧ 2 * a ≤ 2 * (rneDiv a B * B) + B := by
  have h1 := Nat.div_add_mod' a B
  have h2 := Nat.mod_lt a hB
  unfold rneDiv
  simp only
  split_ifs
  · omega
  · rw [Nat.add_mul, Nat.one_mul]; omega
  · omega
  · rw [Nat.add_mul, Nat.one_mul]; omega

/-- Rounding a quotient of at least `2^24` units to binary32 changes it by at most
one part in `2^24`. -/
theorem roundMag_rel {a b : Nat} (hb : 0 < b) (h : ¬ a / b < 2 ^ 24) :
    16777216 * (roundMag a b * b) ≤ 16777217 * a ∧
      16777215 * a ≤ 16777216 * (roundMag a b * b) := by
  have he := ilog2_ge_of_large h
  have hq : 0 < a / b := by
    have : 0 < 2 ^ 24 := by positivity
    omega
  obtain ⟨hl, -⟩ := ilog2_spec hq
  rw [roundMag_large h]
  generalize ilog2 (a / b) = e at *
  obtain ⟨k, rfl⟩ : ∃ k, e = k + 23 := ⟨e - 23, by omega⟩
  simp only [Nat.add_sub_cancel]
  have hk : 0 < 2 ^ k := by positivity
  have hbk : 0 < b * 2 ^ k := Nat.mul_pos hb hk
  have hfl : 2 ^ (k + 23) * b ≤ a := (Nat.le_div_iff_mul_le hb).1 hl
  have hB : 8388608 * (b * 2 ^ k) ≤ a := by
    calc 8388608 * (b * 2 ^ k) = 2 ^ (k + 23) * b := by ring
      _ ≤ a := hfl
  obtain ⟨e1, e2⟩ := rneDiv_err a hbk
  have hm : rneDiv a (b * 2 ^ k) * 2 ^ k * b = rneDiv a (b * 2 ^ k) * (b * 2 ^ k) := by ring
  rw [hm]
  generalize rneDiv a (b * 2 ^ k) * (b * 2 ^ k) = M at e1 e2 ⊢
  generalize b * 2 ^ k = B at hB e1 e2
  constructor <;> omega

/-- The binary32 quotient `100.0f / (100.0f + defense)` for a defence between 0
and `2^24 - 100`, in units of `2^-149`. -/
theorem damageReduction_eq (d : Nat) (hd : d ≤ 16777116) :
    f32Add (f32Lit 100 1) (i32ToF32 (d : Int)) = (((100 + d) * f32One : Nat) : Int) ∧
    f32Div (f32Lit 100 1) (f32Add (f32Lit 100 1) (i32ToF32 (d : Int))) =
      ((roundMag (100 * f32One) (100 + d) : Nat) : Int) := by
  have hU : 0 < f32One := by unfold f32One; positivity
  have c100 : f32Lit 100 1 = ((100 * f32One : Nat) : Int) := by
    unfold f32Lit
    have : (100 : Int) * (f32One : Int) = ((100 * f32One : Nat) : Int) := by push_cast; rfl
    rw [this, f32Round_natCast, roundMag_exact_of_le (by norm_num)]
  have cd : i32ToF32 (d : Int) = ((d * f32One : Nat) : Int) := by
    rw [i32ToF32_exact_of_le (by omega) (by omega)]
    push_cast
    rfl
  have cadd : f32Add (f32Lit 100 1) (i32ToF32 (d : Int)) = (((100 + d) * f32One : Nat) : Int) := by
    unfold f32Add
    rw [c100, cd, ← Nat.cast_add, f32Round_natCast]
    have : 100 * f32One + d * f32One = (100 + d) * f32One := by ring
    rw [this, roundMag_exact_of_le (by norm_num; omega)]
  refine ⟨cadd, ?_⟩
  rw [cadd]
  unfold f32Div
  have hn : ¬ (((100 + d) * f32One : Nat) : Int) < 0 := by omega
  rw [if_neg hn, Int.natAbs_ofNat, c100, ← Nat.cast_mul, f32Round_natCast,
    roundMag_scale (100 * f32One) (100 + d) hU]

theorem reducedDamage_nat (n d : Nat) (hn : n ≤ 16777216) (hd : d ≤ 16777116) :
    StandardDamageFormula.reducedDamage (n : Int) (d : Int) =
      f32ToI32 ((roundMag (n * roundMag (100 * f32One) (100 + d)) 1 : Nat) : Int) := by
  have hU : 0 < f32One := by unfold f32One; positivity
  obtain ⟨h1, h2⟩ := damageReduction_eq d hd
  have cn : i32ToF32 (n : Int) = ((n * f32One : Nat) : Int) := by
    rw [i32ToF32_exact_of_le (by omega) (by omega)]
    push_cast
    rfl
  unfold StandardDamageFormula.reducedDamage
  simp only
  have hne : f32Add (f32Lit 100 1) (i32ToF32 (d : Int)) ≠ 0 := by
    intro h0
    rw [h1] at h0
    have h3 : (((100 + d) * f32One : Nat) : Int) = (0 : Int) := h0
    have h4 : (100 + d) * f32One = 0 := Int.natCast_eq_zero.1 h3
    have h5 : 0 < (100 + d) * f32One := Nat.mul_pos (by omega) hU
    omega
  rw [if_neg hne, h2, cn]
  unfold f32Mul
  rw [← Nat.cast_mul, f32Round_natCast]
  have e : n * f32One * roundMag (100 * f32One) (100 + d) =
      n * roundMag (100 * f32One) (100 + d) * f32One := by ring
  have e1 : roundMag (n * roundMag (100 * f32One) (100 + d) * f32One) f32One =
      roundMag (n * roundMag (100 * f32One) (100 + d)) 1 := by
    have := roundMag_scale (n * roundMag (100 * f32One) (100 + d)) 1 hU
    rwa [Nat.one_mul] at this
  rw [e, e1]

/-- The rounded product is the exact quotient `100 n / (100 + d)` cut to an
integer, or one less, for `n ≤ 83886` and `d ≤ 2^24 - 100`. -/
theorem reduced_bounds (n d : Nat) (hn : n ≤ 83886) (hd : d ≤ 16777116) :
    100 * n / (100 + d) ≤
        roundMag (n * roundMag (100 * f32One) (100 + d)) 1 / f32One + 1 ∧
      roundMag (n * roundMag (100 * f32One) (100 + d)) 1 / f32One ≤
        100 * n / (100 + d) := by
  have hU : 0 < f32One := by unfold f32One; positivity
  have hUbig : 2 ^ 72 ≤ f32One := by
    unfold f32One
    exact Nat.pow_le_pow_right (by decide) (by decide)
  have hD0 : 0 < 100 + d := by omega
  have hlarge1 : ¬ 100 * f32One / (100 + d) < 2 ^ 24 := by
    rw [not_lt, Nat.le_div_iff_mul_le hD0]
    have : 2 ^ 24 * (100 + d) ≤ 2 ^ 24 * 2 ^ 24 := Nat.mul_le_mul_left _ (by norm_num; omega)
    have h2 : (2 : Nat) ^ 24 * 2 ^ 24 ≤ 2 ^ 72 := by norm_num
    omega
  obtain ⟨E1, E2⟩ := roundMag_rel hD0 hlarge1
  generalize roundMag (100 * f32One) (100 + d) = ρ at E1 E2 ⊢
  have hρ : 2 ^ 24 ≤ ρ := by
    by_contra hcon
    have h1 : ρ * (100 + d) ≤ 2 ^ 24 * 2 ^ 24 :=
      Nat.mul_le_mul (by omega) (by norm_num; omega)
    have h2 : (2 : Nat) ^ 24 * 2 ^ 24 = 281474976710656 := by norm_num
    have h3 : (2 : Nat) ^ 72 = 4722366482869645213696 := by norm_num
    omega
  rcases Nat.eq_zero_or_pos n with h0 | hpos
  · subst h0
    have : roundMag (0 * ρ) 1 = 0 := by
      rw [Nat.zero_mul]
      decide
    rw [this]
    simp
  · have hlarge2 : ¬ n * ρ / 1 < 2 ^ 24 := by
      rw [Nat.div_one, not_lt]
      calc 2 ^ 24 ≤ ρ := hρ
        _ ≤ n * ρ := Nat.le_mul_of_pos_left _ hpos
    obtain ⟨E3, E4⟩ := roundMag_rel (by decide : 0 < 1) hlarge2
    rw [Nat.mul_one] at E3 E4
    generalize roundMag (n * ρ) 1 = π at E3 E4 ⊢
    have hT : n * f32One ≤ 83886 * f32One := Nat.mul_le_mul_right _ hn
    have k1 : 16777216 * (π * (100 + d)) ≤ 16777217 * (n * (ρ * (100 + d))) := by
      have := Nat.mul_le_mul_right (100 + d) E3
      calc 16777216 * (π * (100 + d)) = 16777216 * π * (100 + d) := by ring
        _ ≤ 16777217 * (n * ρ) * (100 + d) := this
        _ = 16777217 * (n * (ρ * (100 + d))) := by ring
    have k2 : 16777216 * (n * (ρ * (100 + d))) ≤ 16777217 * (100 * (n * f32One)) := by
      have := Nat.mul_le_mul_left n E1
      calc 16777216 * (n * (ρ * (100 + d))) = n * (16777216 * (ρ * (100 + d))) := by ring
        _ ≤ n * (16777217 * (100 * f32One)) := this
        _ = 16777217 * (100 * (n * f32One)) := by ring
    have k1' : 16777215 * (n * (ρ * (100 + d))) ≤ 16777216 * (π * (100 + d)) := by
      have := Nat.mul_le_mul_right (100 + d) E4
      calc 16777215 * (n * (ρ * (100 + d))) = 16777215 * (n * ρ) * (100 + d) := by ring
        _ ≤ 16777216 * π * (100 + d) := this
        _ = 16777216 * (π * (100 + d)) := by ring
    have k2' : 16777215 * (100 * (n * f32One)) ≤ 16777216 * (n * (ρ * (100 + d))) := by
      have := Nat.mul_le_mul_left n E2
      calc 16777215 * (100 * (n * f32One)) = n * (16777215 * (100 * f32One)) := by ring
        _ ≤ n * (16777216 * (ρ * (100 + d))) := this
        _ = 16777216 * (n * (ρ * (100 + d))) := by ring
    generalize n * (ρ * (100 + d)) = R at k1 k2 k1' k2'
    constructor
    · -- lower bound
      by_contra hcon
      have hw : π / f32One + 2 ≤ 100 * n / (100 + d) := by omega
      have h1 := Nat.div_add_mod' π f32One
      have h2 := Nat.mod_lt π hU
      have h3 : (π / f32One + 2) * f32One ≤ 100 * n / (100 + d) * f32One :=
        Nat.mul_le_mul_right _ hw
      have h4 : π + 1 + f32One ≤ 100 * n / (100 + d) * f32One := by
        have : (π / f32One + 2) * f32One = π / f32One * f32One + 2 * f32One := by ring
        omega
      have h5 : 100 * n / (100 + d) * (100 + d) ≤ 100 * n := Nat.div_mul_le_self _ _
      have h6 : (π + 1 + f32One) * (100 + d) ≤ 100 * (n * f32One) := by
        calc (π + 1 + f32One) * (100 + d)
            ≤ 100 * n / (100 + d) * f32One * (100 + d) := Nat.mul_le_mul_right _ h4
          _ = 100 * n / (100 + d) * (100 + d) * f32One := by ring
          _ ≤ 100 * n * f32One := Nat.mul_le_mul_right _ h5
          _ = 100 * (n * f32One) := by ring
      have h7 : (π + 1 + f32One) * (100 + d) =
          π * (100 + d) + (100 + d) + f32One * (100 + d) := by ring
      have h8 : 100 * f32One ≤ f32One * (100 + d) := by
        rw [Nat.mul_comm]
        exact Nat.mul_le_mul_left _ (by omega)
      generalize π * (100 + d) = P at k1 k1' h6 h7
      generalize f32One * (100 + d) = UD at h7 h8
      generalize n * f32One = T at hT k2 k2' h6
      omega
    · -- upper bound
      suffices h : π < (100 * n / (100 + d) + 1) * f32One by
        have := (Nat.div_lt_iff_lt_mul hU).2 h
        omega
      by_contra hcon
      have hc : (100 * n / (100 + d) + 1) * f32One ≤ π := by omega
      have hq1 : 100 * n < (100 + d) * (100 * n / (100 + d) + 1) :=
        Nat.lt_mul_div_succ _ hD0
      have h6 : (100 * n + 1) * f32One ≤ π * (100 + d) := by
        calc (100 * n + 1) * f32One
            ≤ (100 + d) * (100 * n / (100 + d) + 1) * f32One :=
              Nat.mul_le_mul_right _ (by omega)
          _ = (100 * n / (100 + d) + 1) * f32One * (100 + d) := by ring
          _ ≤ π * (100 + d) := Nat.mul_le_mul_right _ hc
      have h7 : (100 * n + 1) * f32One = 100 * (n * f32One) + f32One := by ring
      generalize π * (100 + d) = P at k1 k1' h6
      generalize n * f32One = T at hT k2 k2' h7
      omega

/-- For a raw damage between 0 and 83886 and a defence between 0 and `2^24 - 100`
the reduced damage is the quotient `rawDamage * 100 / (100 + defense)` cut to an
integer, or one less. -/
theorem reducedDamage_near (raw defense : Int) (h0 : 0 ≤ raw) (h1 : raw ≤ 83886)
    (h2 : 0 ≤ defense) (h3 : defense ≤ 16777116) :
    StandardDamageFormula.reducedDamage raw defense = raw * 100 / (100 + defense) ∨
      StandardDamageFormula.reducedDamage raw defense = raw * 100 / (100 + defense) - 1 := by
  obtain ⟨n, rfl⟩ := Int.eq_ofNat_of_zero_le h0
  obtain ⟨d, rfl⟩ := Int.eq_ofNat_of_zero_le h2
  have hn : n ≤ 83886 := by omega
  have hd : d ≤ 16777116 := by omega
  have hU : 0 < f32One := by unfold f32One; positivity
  obtain ⟨b1, b2⟩ := reduced_bounds n d hn hd
  rw [reducedDamage_nat n d (by omega) hd]
  have hq : ((n : Int) * 100 / (100 + (d : Int))) = ((100 * n / (100 + d) : Nat) : Int) := by
    push_cast
    rw [Int.mul_comm]
  have hqle : 100 * n / (100 + d) ≤ 100 * n := Nat.div_le_self _ _
  rw [hq]
  generalize roundMag (n * roundMag (100 * f32One) (100 + d)) 1 = p at b1 b2 ⊢
  unfold f32ToI32
  have ht : Int.tdiv (p : Int) (f32One : Int) = ((p / f32One : Nat) : Int) := by
    rw [Int.tdiv_eq_ediv (by omega) (by omega)]
    rfl
  simp only [ht]
  have c1 : ((100 * n / (100 + d) : Nat) : Int) ≤ ((p / f32One : Nat) : Int) + 1 := by
    exact_mod_cast b1
  have c2 : ((p / f32One : Nat) : Int) ≤ ((100 * n / (100 + d) : Nat) : Int) := by
    exact_mod_cast b2
  have c3 : ((100 * n / (100 + d) : Nat) : Int) ≤ 8388600 := by
    have : 100 * n / (100 + d) ≤ 8388600 := by omega
    exact_mod_cast this
  have c0 : (0 : Int) ≤ ((p / f32One : Nat) : Int) := Int.ofNat_nonneg _
  generalize ((p / f32One : Nat) : Int) = t at c0 c1 c2 ⊢
  generalize ((100 * n / (100 + d) : Nat) : Int) = q at c1 c2 c3 ⊢
  rw [if_pos ⟨by omega, by omega⟩]
  omega

/-- C30 as stated fails: a fresh attacker with bonus damage 49 hits a fresh
defender (defence 15) without dodge or critical hit; the raw damage is 69, and
the final damage is 59, not `truncate(69 * 100 / 115) = 60`, because the code
multiplies by the rounded binary32 quotient `100.0f / 115.0f`. -/
theorem final_damage_below_exact_quotient :
    (StandardDamageFormula.calculate highDraws 0 (Actor.mk0 1 "Attacker")
      (Actor.mk0 2 "Defender") true 49).1.isDodged = false ∧
    (StandardDamageFormula.calculate highDraws 0 (Actor.mk0 1 "Attacker")
      (Actor.mk0 2 "Defender") true 49).1.rawDamage = 69 ∧
    (Actor.mk0 2 "Defender").derivedStats.physicalDefense = 15 ∧
    (StandardDamageFormula.calculate highDraws 0 (Actor.mk0 1 "Attacker")
      (Actor.mk0 2 "Defender") true 49).1.finalDamage = 59 ∧
    max 1 (Int.tdiv (69 * 100) (100 + 15)) = 60 := by
  decide

/-- C30, amended: when the attack is not dodged, `calculate` makes two draws and
returns `rawDamage = attack + bonusDamage` (in `int32_t`), replaced by the
truncated binary32 product with `criticalMultiplier` when the second draw is
below `criticalChance`, and `finalDamage = max(1, truncate(rawDamage *
damageReduction))`, where `damageReduction = 100.0f / (100.0f + defense)` and the
product are each rounded to binary32; attack and defence are the physical pair
when `isPhysical` and the magical pair otherwise.  For a raw damage between 0 and
83886 and a defence between 0 and `2^24 - 100` the final damage is
`max(1, rawDamage * 100 / (100 + defense))` with the quotient cut to an integer,
or with one less than it. -/
theorem calculate_formula (rng : DrawSource) (drawn : Nat) (attacker defender : Actor)
    (isPhysical : Bool) (bonusDamage attack defense : Int)
    (hnd : StandardDamageFormula.rollDodge (rng drawn) defender.derivedStats.dodgeChance
      = false)
    (hattack : attack = if isPhysical then attacker.derivedStats.physicalAttack
      else attacker.derivedStats.magicalAttack)
    (hdefense : defense = if isPhysical then defender.derivedStats.physicalDefense
      else defender.derivedStats.magicalDefense) :
    (StandardDamageFormula.calculate rng drawn attacker defender isPhysical
      bonusDamage).1.isDodged = false ∧
    (StandardDamageFormula.calculate rng drawn attacker defender isPhysical
      bonusDamage).1.isPhysical = isPhysical ∧
    (StandardDamageFormula.calculate rng drawn attacker defender isPhysical
      bonusDamage).2 = drawn + 2 ∧
    ((StandardDamageFormula.calculate rng drawn attacker defender isPhysical
      bonusDamage).1.isCritical = true ↔
        rng (drawn + 1) < attacker.derivedStats.criticalChance) ∧
    (StandardDamageFormula.calculate rng drawn attacker defender isPhysical
      bonusDamage).1.rawDamage =
        (if rng (drawn + 1) < attacker.derivedStats.criticalChance then
          f32ToI32 (f32Mul (i32ToF32 (wrap32 (attack + bonusDamage)))
            attacker.derivedStats.criticalMultiplier)
        else wrap32 (attack + bonusDamage)) ∧
    (InI32 (attack + bonusDamage) → wrap32 (attack + bonusDamage) = attack + bonusDamage) ∧
    (f32Add (f32Lit 100 1) (i32ToF32 defense) ≠ 0 →
      (StandardDamageFormula.calculate rng drawn attacker defender isPhysical
        bonusDamage).1.finalDamage =
          max 1 (f32ToI32 (f32Mul
            (i32ToF32 (StandardDamageFormula.calculate rng drawn attacker defender isPhysical
              bonusDamage).1.rawDamage)
            (f32Div (f32Lit 100 1) (f32Add (f32Lit 100 1) (i32ToF32 defense)))))) ∧
    1 ≤ (StandardDamageFormula.calculate rng drawn attacker defender isPhysical
      bonusDamage).1.finalDamage ∧
    (0 ≤ (StandardDamageFormula.calculate rng drawn attacker defender isPhysical
        bonusDamage).1.rawDamage →
      (StandardDamageFormula.calculate rng drawn attacker defender isPhysical
        bonusDamage).1.rawDamage ≤ 83886 →
      0 ≤ defense → defense ≤ 16777116 →
      (StandardDamageFormula.calculate rng drawn attacker defender isPhysical
          bonusDamage).1.finalDamage =
          max 1 ((StandardDamageFormula.calculate rng drawn attacker defender isPhysical
            bonusDamage).1.rawDamage * 100 / (100 + defense)) ∨
        (StandardDamageFormula.calculate rng drawn attacker defender isPhysical
          bonusDamage).1.finalDamage =
          max 1 ((StandardDamageFormula.calculate rng drawn attacker defender isPhysical
            bonusDamage).1.rawDamage * 100 / (100 + defense) - 1)) := by
  have hcalc : StandardDamageFormula.calculate rng drawn attacker defender isPhysical
      bonusDamage =
      ({ rawDamage :=
           if StandardDamageFormula.rollCritical (rng (drawn + 1))
               attacker.derivedStats.criticalChance then
             f32ToI32 (f32Mul (i32ToF32 (add32 attack bonusDamage))
               attacker.derivedStats.criticalMultiplier)
           else add32 attack bonusDamage
         finalDamage := max 1 (StandardDamageFormula.reducedDamage
           (if StandardDamageFormula.rollCritical (rng (drawn + 1))
               attacker.derivedStats.criticalChance then
             f32ToI32 (f32Mul (i32ToF32 (add32 attack bonusDamage))
               attacker.derivedStats.criticalMultiplier)
           else add32 attack bonusDamage) defense)
         isCritical := StandardDamageFormula.rollCritical (rng (drawn + 1))
           attacker.derivedStats.criticalChance
         isPhysical := isPhysical }, drawn + 2) := by
    unfold StandardDamageFormula.calculate
    simp only [hnd, Bool.false_eq_true, if_false, hattack, hdefense]
  rw [hcalc]
  simp only
  have hcrit : StandardDamageFormula.rollCritical (rng (drawn + 1))
      attacker.derivedStats.criticalChance = true ↔
      rng (drawn + 1) < attacker.derivedStats.criticalChance := by
    simp only [StandardDamageFormula.rollCritical, decide_eq_true_eq]
  refine ⟨trivial, trivial, trivial, hcrit, ?_, ?_, ?_, le_max_left _ _, ?_⟩
  · by_cases hc : rng (drawn + 1) < attacker.derivedStats.criticalChance
    · rw [if_pos (hcrit.2 hc), if_pos hc]
      rfl
    · rw [if_neg (fun h => hc (hcrit.1 h)), if_neg hc]
      rfl
  · intro hin
    exact wrap32_of_inI32 hin
  · intro hne
    unfold StandardDamageFormula.reducedDamage
    simp only [if_neg hne]
  · intro r0 r1 d0 d1
    rcases reducedDamage_near _ defense r0 r1 d0 d1 with h | h
    · left; rw [h]
    · right; rw [h]

/-- Witness for C30: the fresh attacker with bonus damage 49 against the fresh
defender: without a critical hit the raw damage is 69 and the final damage 59,
one less than the quotient 60; with a critical hit (multiplier 1.6) the raw
damage is 110 and the final damage 95. -/
theorem calculate_formula_witness :
    (StandardDamageFormula.calculate highDraws 0 (Actor.mk0 1 "Attacker")
      (Actor.mk0 2 "Defender") true 49).2 = 2 ∧
    ((StandardDamageFormula.calculate highDraws 0 (Actor.mk0 1 "Attacker")
        (Actor.mk0 2 "Defender") true 49).1.finalDamage =
        max 1 ((StandardDamageFormula.calculate highDraws 0 (Actor.mk0 1 "Attacker")
          (Actor.mk0 2 "Defender") true 49).1.rawDamage * 100 / (100 + 15)) ∨
      (StandardDamageFormula.calculate highDraws 0 (Actor.mk0 1 "Attacker")
        (Actor.mk0 2 "Defender") true 49).1.finalDamage =
        max 1 ((StandardDamageFormula.calculate highDraws 0 (Actor.mk0 1 "Attacker")
          (Actor.mk0 2 "Defender") true 49).1.rawDamage * 100 / (100 + 15) - 1)) ∧
    (StandardDamageFormula.calculate critDraws 0 (Actor.mk0 1 "Attacker")
      (Actor.mk0 2 "Defender") true 49).1 =
      { rawDamage := 110, finalDamage := 95, isCritical := true, isPhysical := true } :=
  have h := calculate_formula highDraws 0 (Actor.mk0 1 "Attacker") (Actor.mk0 2 "Defender")
    true 49 20 15 (by decide) (by decide) (by decide)
  ⟨h.2.2.1, h.2.2.2.2.2.2.2.2 (by decide) (by decide) (by decide) (by decide), by decide⟩

/-! ## The damage formula: minimum damage and roll order -/

/-- C31: a hit always deals at least 1 damage: whenever the result of
`calculateBasicAttack` or `calculateSkillDamage` is not dodged, its final damage
is at least 1, for every attacker, defender, bonus damage and sequence of
draws. -/
theorem hit_deals_at_least_one (rng : DrawSource) (drawn : Nat) (attacker defender : Actor)
    (isPhysical : Bool) (skillBaseDamage : Int) :
    ((DamageCalculator.calculateBasicAttack rng drawn attacker defender
        isPhysical).1.isDodged = false →
      1 ≤ (DamageCalculator.calculateBasicAttack rng drawn attacker defender
        isPhysical).1.finalDamage) ∧
    ((DamageCalculator.calculateSkillDamage rng drawn attacker defender skillBaseDamage
        isPhysical).1.isDodged = false →
      1 ≤ (DamageCalculator.calculateSkillDamage rng drawn attacker defender skillBaseDamage
        isPhysical).1.finalDamage) := by
  unfold DamageCalculator.calculateBasicAttack DamageCalculator.calculateSkillDamage
  constructor
  · intro h
    rw [calculate_isDodged] at h
    exact (calculate_hit h).2.2.2
  · intro h
    rw [calculate_isDodged] at h
    exact (calculate_hit h).2.2.2

/-- Witness for C31: an attacker with physical attack -100 against a defender of
vitality 100 still deals 1 damage, with and without bonus damage. -/
theorem hit_deals_at_least_one_witness :
    weakAttacker.derivedStats.physicalAttack = -100 ∧
    1 ≤ (DamageCalculator.calculateBasicAttack highDraws 0 weakAttacker toughDefender
      true).1.finalDamage ∧
    1 ≤ (DamageCalculator.calculateSkillDamage highDraws 0 weakAttacker toughDefender 20
      true).1.finalDamage :=
  ⟨by decide,
    (hit_deals_at_least_one highDraws 0 weakAttacker toughDefender true 20).1 (by decide),
    (hit_deals_at_least_one highDraws 0 weakAttacker toughDefender true 20).2 (by decide)⟩

/-- C32: the first draw of a resolution is compared with the defender's dodge
chance; when it is below, the result has `isDodged = true`, zero raw and final
damage and no critical flag, one draw has been made and the result does not
depend on any later draw; otherwise exactly one more draw is made and compared
with the attacker's critical chance.  The result depends on the two actors
through their derived stats only. -/
theorem roll_order (rng : DrawSource) (drawn : Nat) (attacker defender : Actor)
    (isPhysical : Bool) (bonusDamage : Int) :
    (rng drawn < defender.derivedStats.dodgeChance →
      StandardDamageFormula.calculate rng drawn attacker defender isPhysical bonusDamage =
        ({ rawDamage := 0, finalDamage := 0, isCritical := false, isDodged := true,
           isBlocked := false, isPhysical := isPhysical }, drawn + 1) ∧
      ∀ rng2 : DrawSource, rng2 drawn = rng drawn →
        StandardDamageFormula.calculate rng2 drawn attacker defender isPhysical bonusDamage =
          StandardDamageFormula.calculate rng drawn attacker defender isPhysical
            bonusDamage) ∧
    (¬ rng drawn < defender.derivedStats.dodgeChance →
      (StandardDamageFormula.calculate rng drawn attacker defender isPhysical
        bonusDamage).1.isDodged = false ∧
      (StandardDamageFormula.calculate rng drawn attacker defender isPhysical
        bonusDamage).2 = drawn + 2 ∧
      ((StandardDamageFormula.calculate rng drawn attacker defender isPhysical
        bonusDamage).1.isCritical = true ↔
          rng (drawn + 1) < attacker.derivedStats.criticalChance)) ∧
    (∀ (rng2 : DrawSource) (attacker2 defender2 : Actor),
      rng2 drawn = rng drawn → rng2 (drawn + 1) = rng (drawn + 1) →
      attacker2.derivedStats = attacker.derivedStats →
      defender2.derivedStats = defender.derivedStats →
      StandardDamageFormula.calculate rng2 drawn attacker2 defender2 isPhysical bonusDamage =
        StandardDamageFormula.calculate rng drawn attacker defender isPhysical
          bonusDamage) := by
  refine ⟨?_, ?_, ?_⟩
  · intro h
    have hd : StandardDamageFormula.rollDodge (rng drawn) defender.derivedStats.dodgeChance
        = true := by
      simp only [StandardDamageFormula.rollDodge, decide_eq_true_eq]
      exact h
    refine ⟨calculate_dodged hd, ?_⟩
    intro rng2 h2
    rw [calculate_dodged hd, calculate_dodged (by rw [h2]; exact hd)]
  · intro h
    have hd : StandardDamageFormula.rollDodge (rng drawn) defender.derivedStats.dodgeChance
        = false := by
      simp only [StandardDamageFormula.rollDodge, decide_eq_false_iff_not]
      exact h
    obtain ⟨h1, -, h3, -⟩ := @calculate_hit rng drawn attacker defender isPhysical
      bonusDamage hd
    refine ⟨h1, h3, ?_⟩
    unfold StandardDamageFormula.calculate
    simp only [hd, Bool.false_eq_true, if_false, StandardDamageFormula.rollCritical,
      decide_eq_true_eq]
  · intro rng2 attacker2 defender2 h1 h2 h3 h4
    unfold StandardDamageFormula.calculate
    simp only [h1, h2, h3, h4]

/-- Witness for C32: with every draw 0 the fresh defender dodges after one draw;
with the first draw 0.99 and the second 0 the hit is critical after two draws. -/
theorem roll_order_witness :
    StandardDamageFormula.calculate zeroDraws 0 (Actor.mk0 1 "Attacker")
        (Actor.mk0 2 "Defender") true 0 =
      ({ rawDamage := 0, finalDamage := 0, isCritical := false, isDodged := true,
         isBlocked := false, isPhysical := true }, 1) ∧
    (StandardDamageFormula.calculate critDraws 0 (Actor.mk0 1 "Attacker")
        (Actor.mk0 2 "Defender") true 0).2 = 2 ∧
    (StandardDamageFormula.calculate critDraws 0 (Actor.mk0 1 "Attacker")
        (Actor.mk0 2 "Defender") true 0).1.isCritical = true :=
  ⟨((roll_order zeroDraws 0 (Actor.mk0 1 "Attacker") (Actor.mk0 2 "Defender") true 0).1
      (by decide)).1,
    ((roll_order critDraws 0 (Actor.mk0 1 "Attacker") (Actor.mk0 2 "Defender") true 0).2.1
      (by decide)).2.1,
    ((roll_order critDraws 0 (Actor.mk0 1 "Attacker") (Actor.mk0 2 "Defender") true 0).2.1
      (by decide)).2.2.2 (by decide)⟩

/-- C36 fails in the code: `handleBasicAttack` checks only that both actors
exist.  With a dead attacker the target is hit for 17 (205 to 188 HP) and a
damage event is published; with a dead target the result carries 17 damage and
a damage event and a second death event are published, while `canPerformAction`
rejects both attacks and `processAction` publishes nothing. -/
theorem handleBasicAttack_accepts_dead_actors :
    duelDeadAttacker.canPerformAction (.basicAttack 1 2 true) = false ∧
    (duelDeadAttacker.actors.getActor 1).map (fun a => a.isAlive) = some false ∧
    (duelDeadAttacker.handleBasicAttack highDraws 1 2 true).1 =
      { rawDamage := 20, finalDamage := 17, isPhysical := true } ∧
    ((duelDeadAttacker.handleBasicAttack highDraws 1 2 true).2.actors.getActor 2).map
      (fun t => t.runtimeStats.currentHp) = some 188 ∧
    (duelDeadAttacker.handleBasicAttack highDraws 1 2 true).2.published =
      [.damage 1 2 17 false true] ∧
    duelDeadDefender.canPerformAction (.basicAttack 1 2 true) = false ∧
    (duelDeadDefender.handleBasicAttack highDraws 1 2 true).1 =
      { rawDamage := 20, finalDamage := 17, isPhysical := true } ∧
    (duelDeadDefender.handleBasicAttack highDraws 1 2 true).2.published =
      [.damage 1 2 17 false true, .death 2 1] ∧
    (duelDeadAttacker.processAction highDraws (.basicAttack 1 2 true)).published = [] := by
  decide

/-! ## The level-up loop on large experience -/

theorem experienceForLevel_le_max (level : Int) :
    StatCalculator.experienceForLevel level ≤ 2147483647 := by
  unfold StatCalculator.experienceForLevel mul32
  exact wrap32_le_max _

theorem levelUpOnce_experience (a : Actor) : (levelUpOnce a).experience = a.experience := rfl

theorem checkLevelUpIter_experience (n : Nat) :
    ∀ a : Actor, (checkLevelUpIter n a).experience = a.experience := by
  induction n with
  | zero => intro a; rfl
  | succ n ih =>
    intro a
    unfold checkLevelUpIter
    split_ifs
    · rw [ih, levelUpOnce_experience]
    · rfl

theorem levelUpDue_of_large {a : Actor} (h : 2147483647 ≤ a.experience) :
    levelUpDue a = true := by
  unfold levelUpDue
  rw [decide_eq_true_eq]
  exact le_trans (experienceForLevel_le_max _) h

/-- With an experience total of `2^31 - 1` or more the loop condition of
`checkLevelUp` holds after every number of passes: the call never returns. -/
theorem gainExperience_diverges (a : Actor) (exp : Int) (hpos : 0 < exp)
    (hbig : 2147483647 ≤ wrap64 (a.experience + exp)) (fuel : Nat) :
    gainExperience fuel a exp = none ∧ levelUpDue (gainExperienceIter fuel a exp) = true := by
  have hdue : levelUpDue
      (checkLevelUpIter fuel { a with experience := wrap64 (a.experience + exp) }) = true := by
    apply levelUpDue_of_large
    rw [checkLevelUpIter_experience]
    exact hbig
  constructor
  · unfold gainExperience checkLevelUp
    rw [if_neg (by omega)]
    simp only [hdue, if_true]
  · unfold gainExperienceIter
    rw [if_neg (by omega)]
    exact hdue

/-- C38 fails in the code: `gainExperience(2147483648)` on a fresh actor never
returns.  The threshold `experienceForLevel(level + 1)` is an `int32_t` product,
so it is at most `2^31 - 1` at every level, and the loop condition
`experience >= threshold` holds after every number of passes. -/
theorem gainExperience_never_returns :
    (∀ fuel, gainExperience fuel (mk0 1 "hero") 2147483648 = none) ∧
    (∀ n, levelUpDue (gainExperienceIter n (mk0 1 "hero") 2147483648) = true) ∧
    ∀ level, StatCalculator.experienceForLevel level < 2147483648 :=
  ⟨fun fuel => (gainExperience_diverges (mk0 1 "hero") 2147483648 (by decide) (by decide)
      fuel).1,
    fun n => (gainExperience_diverges (mk0 1 "hero") 2147483648 (by decide) (by decide) n).2,
    fun level => by have := experienceForLevel_le_max level; omega⟩

/-! ## Learnable skills are available skills -/

/-- C39: whenever `canLearnSkill(id)` is true, `id` is among the IDs that
`getAvailableSkills` returns; the learn check requires in addition a skill point
and the catalog's prerequisite skill, if any, at its required level. -/
theorem canLearnSkill_available (c : Character) (db : SkillDatabase) (id : Nat)
    (h : c.canLearnSkill db id = true) :
    id ∈ c.getAvailableSkills db ∧ 0 < c.skillPoints ∧
      ∃ skill, db.getSkill id = some skill ∧
        (skill.requirement.prerequisiteSkill = 0 ∨
          ∃ l, c.skillLevels skill.requirement.prerequisiteSkill = some l ∧
            skill.requirement.prerequisiteLevel ≤ l) := by
  rw [canLearnSkill_iff, canLearn_iff] at h
  obtain ⟨hsp, hhas, node, skill, hn, hpre, hs, hlvl, hreq⟩ := h
  obtain ⟨hmem, hid⟩ := getNode_some_mem hn
  refine ⟨?_, hsp, skill, hs, hreq⟩
  unfold Character.getAvailableSkills SkillTree.getAvailableSkills
  rw [List.mem_map]
  refine ⟨node, List.mem_filter.2 ⟨hmem, ?_⟩, hid⟩
  rw [isAvailable_iff, hid]
  exact ⟨hhas, hpre, skill, hs, hlvl⟩

/-- Witness for C39: a fresh character on the test tree can learn Slash (ID 1),
and Slash is among its available skills; without skill points Slash is still
available but cannot be learned. -/
theorem canLearnSkill_available_witness :
    1 ∈ ((Character.mk0 1 "Hero").setSkillTree testSkillTree).getAvailableSkills
      SkillDatabase.loadDefaultSkills ∧
    (({ (Character.mk0 1 "Hero") with skillPoints := 0 } : Character).setSkillTree
      testSkillTree).canLearnSkill SkillDatabase.loadDefaultSkills 1 = false ∧
    1 ∈ (({ (Character.mk0 1 "Hero") with skillPoints := 0 } : Character).setSkillTree
      testSkillTree).getAvailableSkills SkillDatabase.loadDefaultSkills :=
  ⟨(canLearnSkill_available ((Character.mk0 1 "Hero").setSkillTree testSkillTree)
      SkillDatabase.loadDefaultSkills 1 (by decide)).1, by decide, by decide⟩

/-! ## Cooldown gating -/

/-- A call that is not a later `update` leaves a running cooldown entry and the
time reference below it as they are. -/
theorem applyOp_keeps_cooldown (db : SkillDatabase) (id E : Nat) (d : Character)
    (op : CharacterOp) (hE : d.skillCooldowns id = some E) (hlt : d.lastUpdateTick < E)
    (hop : ∀ t, op = .update t → t < E) :
    (d.applyOp db op).skillCooldowns id = some E ∧ (d.applyOp db op).lastUpdateTick < E := by
  cases op with
  | learnSkill i =>
    show ((d.learnSkill db i).2).skillCooldowns id = some E ∧
      ((d.learnSkill db i).2).lastUpdateTick < E
    cases h : d.canLearnSkill db i with
    | false => rw [learnSkill_of_cannot h]; exact ⟨hE, hlt⟩
    | true => rw [learnSkill_of_can h]; exact ⟨hE, hlt⟩
  | upgradeSkill i =>
    show ((d.upgradeSkill db i).2).skillCooldowns id = some E ∧
      ((d.upgradeSkill db i).2).lastUpdateTick < E
    cases h : d.canUpgradeSkill db i with
    | false => rw [upgradeSkill_of_cannot h]; exact ⟨hE, hlt⟩
    | true => rw [upgradeSkill_of_can h]; exact ⟨hE, hlt⟩
  | useSkill i =>
    show ((d.useSkill db i).2).skillCooldowns id = some E ∧
      ((d.useSkill db i).2).lastUpdateTick < E
    rcases useSkill_cases d db i with ⟨e, -⟩ | ⟨e, -, -, hcd, -⟩
    · rw [e]; exact ⟨hE, hlt⟩
    · rw [e]
      refine ⟨?_, hlt⟩
      by_cases hi : id = i
      · subst hi
        rcases hcd with h0 | ⟨cd, h1, h2⟩
        · rw [hE] at h0; cases h0
        · rw [hE] at h1
          cases h1
          omega
      · simp only [if_neg hi]
        exact hE
  | update t =>
    exact ⟨hE, hop t rfl⟩
  | gainExperience n e =>
    show (d.gainExperienceIter n e).skillCooldowns id = some E ∧
      (d.gainExperienceIter n e).lastUpdateTick < E
    unfold Character.gainExperienceIter
    split_ifs
    · exact ⟨hE, hlt⟩
    · obtain ⟨-, -, h3, h4, -⟩ := character_checkLevelUpIter_skills n
        { d with actor := { d.actor with experience := wrap64 (d.actor.experience + e) } }
      rw [h3, h4]
      exact ⟨hE, hlt⟩

theorem useSkill_blocked {db : SkillDatabase} {id E : Nat} {d : Character}
    (hE : d.skillCooldowns id = some E) (hlt : d.lastUpdateTick < E) :
    d.useSkill db id = (false, d) := by
  rcases useSkill_cases d db id with ⟨e, -⟩ | ⟨-, -, -, hcd, -⟩
  · exact e
  · rcases hcd with h0 | ⟨cd, h1, h2⟩
    · rw [hE] at h0; cases h0
    · rw [hE] at h1
      cases h1
      omega

theorem foldl_keeps_cooldown (db : SkillDatabase) (id E : Nat) (ops : List CharacterOp) :
    ∀ d : Character, d.skillCooldowns id = some E → d.lastUpdateTick < E →
      (∀ t, CharacterOp.update t ∈ ops → t < E) →
      (ops.foldl (Character.applyOp db) d).skillCooldowns id = some E ∧
        (ops.foldl (Character.applyOp db) d).lastUpdateTick < E := by
  induction ops with
  | nil => intro d hE hlt _; exact ⟨hE, hlt⟩
  | cons op rest ih =>
    intro d hE hlt hops
    obtain ⟨h1, h2⟩ := applyOp_keeps_cooldown db id E d op hE hlt
      (fun t ht => hops t (by rw [ht]; exact List.mem_cons_self _ _))
    rw [List.foldl_cons]
    exact ih _ h1 h2 (fun t ht => hops t (List.mem_cons_of_mem _ ht))

/-- C37: after a successful `useSkill(id)` that recorded an expiry `E` above the
time reference, through every further sequence of calls (`learnSkill`,
`upgradeSkill`, `useSkill`, `gainExperience`, and `update` with ticks below `E`)
the entry stays, and `useSkill(id)` returns false and leaves the whole state,
the mana included, as it is; once `update(t')` with `t' >= E` has been called,
`getSkillCooldown(id)` is 0 and `useSkill(id)` succeeds exactly when the skill is
learned, in the catalog and affordable. -/
theorem cooldown_gating (c : Character) (db : SkillDatabase) (id E : Nat)
    (hused : (c.useSkill db id).1 = true)
    (hE : (c.useSkill db id).2.skillCooldowns id = some E) (hlt : c.lastUpdateTick < E) :
    (c.useSkill db id).2.lastUpdateTick = c.lastUpdateTick ∧
    E = (c.lastUpdateTick + Character.cooldownTicks (c.skillInUse db id)) %
      18446744073709551616 ∧
    (∀ ops : List CharacterOp, (∀ t, CharacterOp.update t ∈ ops → t < E) →
      (ops.foldl (Character.applyOp db) (c.useSkill db id).2).skillCooldowns id = some E ∧
      (ops.foldl (Character.applyOp db) (c.useSkill db id).2).lastUpdateTick < E ∧
      (ops.foldl (Character.applyOp db) (c.useSkill db id).2).useSkill db id =
        (false, ops.foldl (Character.applyOp db) (c.useSkill db id).2)) ∧
    (∀ (ops : List CharacterOp) (t2 : Nat), (∀ t, CharacterOp.update t ∈ ops → t < E) →
      E ≤ t2 →
      ((ops.foldl (Character.applyOp db) (c.useSkill db id).2).update t2).getSkillCooldown id
        = 0 ∧
      ((((ops.foldl (Character.applyOp db) (c.useSkill db id).2).update t2).useSkill db
          id).1 = true ↔
        ((ops.foldl (Character.applyOp db) (c.useSkill db id).2).update t2).hasSkill id
          = true ∧
        (∃ s, db.getSkill id = some s) ∧
        (((ops.foldl (Character.applyOp db) (c.useSkill db id).2).update t2).actor.useMana
          ((((ops.foldl (Character.applyOp db) (c.useSkill db id).2).update t2).skillInUse
            db id).getScaledManaCost)).1 = true)) := by
  have htick : (c.useSkill db id).2.lastUpdateTick = c.lastUpdateTick := by
    rcases useSkill_cases c db id with ⟨e, -⟩ | ⟨e, -⟩ <;> rw [e]
  have hval : E = (c.lastUpdateTick + Character.cooldownTicks (c.skillInUse db id)) %
      18446744073709551616 := by
    rcases useSkill_cases c db id with ⟨e, -⟩ | ⟨e, -⟩
    · rw [e] at hused
      cases hused
    · rw [e] at hE
      simp only [if_true] at hE
      exact (Option.some.inj hE).symm
  have hkeep := fun ops hops => foldl_keeps_cooldown db id E ops (c.useSkill db id).2 hE
    (by rw [htick]; exact hlt) hops
  refine ⟨htick, hval, ?_, ?_⟩
  · intro ops hops
    obtain ⟨h1, h2⟩ := hkeep ops hops
    exact ⟨h1, h2, useSkill_blocked h1 h2⟩
  · intro ops t2 hops ht2
    obtain ⟨h1, -⟩ := hkeep ops hops
    generalize ops.foldl (Character.applyOp db) (c.useSkill db id).2 = d at h1 ⊢
    have hcd : (d.update t2).skillCooldowns id = some E := h1
    have htk : (d.update t2).lastUpdateTick = t2 := rfl
    constructor
    · unfold Character.getSkillCooldown
      rw [hcd]
      simp only [htk, if_pos ht2]
    · rcases useSkill_cases (d.update t2) db id with ⟨e, hn⟩ | ⟨e, k1, k2, -, k4⟩
      · rw [e]
        constructor
        · intro h; cases h
        · rintro ⟨k1, k2, k4⟩
          exact absurd ⟨k1, k2, Or.inr ⟨E, hcd, by rw [htk]; exact ht2⟩, k4⟩ hn
      · rw [e]
        exact ⟨fun _ => ⟨k1, k2, k4⟩, fun _ => rfl⟩

/-- Witness for C37: Slash used at tick 0 records the expiry 2000; after
`update(1999)` a further `useSkill` is refused and changes nothing; after
`update(2000)` the remaining cooldown is 0. -/
theorem cooldown_gating_witness :
    (slashUser.useSkill SkillDatabase.loadDefaultSkills 1).2.skillCooldowns 1 = some 2000 ∧
    (([CharacterOp.update 1999].foldl (Character.applyOp SkillDatabase.loadDefaultSkills)
        (slashUser.useSkill SkillDatabase.loadDefaultSkills 1).2).useSkill
          SkillDatabase.loadDefaultSkills 1) =
      (false, [CharacterOp.update 1999].foldl
        (Character.applyOp SkillDatabase.loadDefaultSkills)
        (slashUser.useSkill SkillDatabase.loadDefaultSkills 1).2) ∧
    (([].foldl (Character.applyOp SkillDatabase.loadDefaultSkills)
        (slashUser.useSkill SkillDatabase.loadDefaultSkills 1).2).update
          2000).getSkillCooldown 1 = 0 :=
  have h := cooldown_gating slashUser SkillDatabase.loadDefaultSkills 1 2000 (by decide)
    (by decide) (by decide)
  ⟨by decide,
    (h.2.2.1 [CharacterOp.update 1999] (fun t ht => by simp at ht; omega)).2.2,
    (h.2.2.2 [] 2000 (fun t ht => by simp at ht) (le_refl _)).1⟩


/-! ## Actor IDs -/

theorem creations_append (xs ys : List ManagerOp) :
    ManagerOp.creations (xs ++ ys) = ManagerOp.creations xs + ManagerOp.creations ys := by
  induction xs with
  | nil => simp [ManagerOp.creations]
  | cons op rest ih =>
    cases op with
    | createActor name =>
      show ManagerOp.creations (rest ++ ys) + 1 = ManagerOp.creations rest + 1 + _
      omega
    | removeActor id => exact ih
    | clear => exact ih

theorem creations_replicate (n : Nat) (name : String) :
    ManagerOp.creations (List.replicate n (.createActor name)) = n := by
  induction n with
  | zero => rfl
  | succ n ih => simp only [List.replicate_succ, ManagerOp.creations, ih]

theorem run_append (m : ActorManager) (xs ys : List ManagerOp) :
    m.run (xs ++ ys) = (m.run xs).run ys := by
  unfold ActorManager.run
  rw [List.foldl_append]

/-- The counter after a sequence of calls, in `uint32_t` arithmetic. -/
theorem run_nextActorId (ops : List ManagerOp) :
    ∀ m : ActorManager, m.nextActorId < 4294967296 →
      (m.run ops).nextActorId = (m.nextActorId + ManagerOp.creations ops) % 4294967296 := by
  induction ops with
  | nil =>
    intro m hm
    simp only [ActorManager.run, List.foldl_nil, ManagerOp.creations, Nat.add_zero]
    exact (Nat.mod_eq_of_lt hm).symm
  | cons op rest ih =>
    intro m hm
    cases op with
    | createActor name =>
      have h := ih (m.createActor name).2 (Nat.mod_lt _ (by decide))
      have e : (m.createActor name).2.nextActorId = (m.nextActorId + 1) % 4294967296 := rfl
      show ((m.createActor name).2.run rest).nextActorId = _
      rw [h, e]
      simp only [ManagerOp.creations]
      omega
    | removeActor id =>
      have h := ih (m.removeActor id).2 hm
      show ((m.removeActor id).2.run rest).nextActorId = _
      rw [h]
      rfl
    | clear =>
      have h := ih m.clear hm
      show (m.clear.run rest).nextActorId = _
      rw [h]
      rfl

theorem assignedIds_of_no_creations (ops : List ManagerOp) :
    ∀ m : ActorManager, ManagerOp.creations ops = 0 → m.assignedIds ops = [] := by
  induction ops with
  | nil => intro m _; rfl
  | cons op rest ih =>
    intro m h
    cases op with
    | createActor name => simp [ManagerOp.creations] at h
    | removeActor id => exact ih (m.removeActor id).2 h
    | clear => exact ih m.clear h

/-- As long as no ID above `2^32 - 1` is due, the IDs assigned are the consecutive
numbers from the counter on. -/
theorem assignedIds_range (ops : List ManagerOp) :
    ∀ m : ActorManager, m.nextActorId + ManagerOp.creations ops ≤ 4294967296 →
      m.assignedIds ops = List.range' m.nextActorId (ManagerOp.creations ops) := by
  induction ops with
  | nil => intro m _; rfl
  | cons op rest ih =>
    intro m hm
    cases op with
    | createActor name =>
      simp only [ManagerOp.creations] at hm
      simp only [ActorManager.assignedIds, ManagerOp.creations]
      rw [List.range'_succ]
      by_cases hz : ManagerOp.creations rest = 0
      · rw [assignedIds_of_no_creations rest _ hz, hz]
        rfl
      · have e : (m.createActor name).2.nextActorId = m.nextActorId + 1 := by
          show (m.nextActorId + 1) % 4294967296 = _
          omega
        rw [ih (m.createActor name).2 (by rw [e]; omega), e]
        rfl
    | removeActor id =>
      simp only [ManagerOp.creations] at hm
      simp only [ActorManager.assignedIds, ManagerOp.creations]
      exact ih (m.removeActor id).2 hm
    | clear =>
      simp only [ManagerOp.creations] at hm
      simp only [ActorManager.assignedIds, ManagerOp.creations]
      exact ih m.clear hm

/-- An actor stored under an ID below the counter stays through every sequence of
calls that neither removes that ID nor clears the registry, as long as no ID
above `2^32 - 1` is due. -/
theorem run_keeps_actor (id : Nat) (a : Actor) (ops : List ManagerOp) :
    ∀ m : ActorManager, m.getActor id = some a →
      (ManagerOp.creations ops = 0 ∨
        (id < m.nextActorId ∧ m.nextActorId + ManagerOp.creations ops ≤ 4294967296)) →
      ManagerOp.removeActor id ∉ ops → ManagerOp.clear ∉ ops →
      (m.run ops).getActor id = some a := by
  induction ops with
  | nil => intro m h _ _ _; exact h
  | cons op rest ih =>
    intro m h hb hr hc
    have hr2 : ManagerOp.removeActor id ∉ rest := fun x => hr (List.mem_cons_of_mem _ x)
    have hc2 : ManagerOp.clear ∉ rest := fun x => hc (List.mem_cons_of_mem _ x)
    cases op with
    | createActor name =>
      simp only [ManagerOp.creations] at hb
      have hb2 : id < m.nextActorId ∧
          m.nextActorId + (ManagerOp.creations rest + 1) ≤ 4294967296 := by
        rcases hb with h0 | h1
        · omega
        · exact h1
      have hget : (m.createActor name).2.getActor id = some a := by
        show (if id = m.nextActorId then _ else m.actors id) = some a
        rw [if_neg (by omega)]
        exact h
      refine ih (m.createActor name).2 hget ?_ hr2 hc2
      by_cases hz : ManagerOp.creations rest = 0
      · exact Or.inl hz
      · have e : (m.createActor name).2.nextActorId = m.nextActorId + 1 := by
          show (m.nextActorId + 1) % 4294967296 = _
          omega
        exact Or.inr (by rw [e]; omega)
    | removeActor j =>
      simp only [ManagerOp.creations] at hb
      have hj : id ≠ j := by
        intro e
        exact hr (by rw [e]; exact List.mem_cons_self _ _)
      have hget : (m.removeActor j).2.getActor id = some a := by
        show (if id = j then none else m.actors id) = some a
        rw [if_neg hj]
        exact h
      exact ih (m.removeActor j).2 hget hb hr2 hc2
    | clear => exact absurd (List.mem_cons_self _ _) hc


theorem createActor_after_wrap (m : ActorManager) (h : m.nextActorId = 0) :
    (m.createActor "B").1 = 0 ∧ ((m.createActor "B").2.createActor "C").1 = 1 := by
  constructor
  · exact h
  · show (m.nextActorId + 1) % 4294967296 = 1
    rw [h]

theorem run_replicate_nextActorId :
    (({} : ActorManager).run
      (List.replicate 4294967295 (.createActor "A"))).nextActorId = 0 := by
  rw [run_nextActorId _ _ (by decide), creations_replicate]
  decide

/-- C33 as stated fails in two ways: `clear()` removes an actor that no
`removeActor` call was made for, and the `uint32_t` counter wraps: after
`2^32 - 1` `createActor` calls the next two calls assign the IDs 0 and 1. -/
theorem actor_lost_by_clear_and_id_reused :
    (({} : ActorManager).createActor "A").1 = 1 ∧
    (({} : ActorManager).createActor "A").2.getActor 1 = some (Actor.mk0 1 "A") ∧
    (({} : ActorManager).createActor "A").2.clear.getActor 1 = none ∧
    ((({} : ActorManager).run (List.replicate 4294967295 (.createActor "A"))).createActor
      "B").1 = 0 ∧
    (((({} : ActorManager).run (List.replicate 4294967295 (.createActor "A"))).createActor
      "B").2.createActor "C").1 = 1 :=
  ⟨rfl, by decide, by decide, createActor_after_wrap _ run_replicate_nextActorId⟩

/-- C33, amended: for every sequence of `createActor`, `removeActor` and `clear`
calls on a new registry with at most `2^32 - 1` `createActor` calls, the IDs
assigned are 1, 2, 3, ... in call order: strictly increasing, pairwise
different, never reused and never 0.  The actor created under an ID is returned
by `getActor` after every further run of calls that contains neither
`removeActor` of that ID nor `clear`; `removeActor(id)` then returns true, and
after it `getActor(id)` is null. -/
theorem actor_ids_unique (ops : List ManagerOp)
    (hb : ManagerOp.creations ops ≤ 4294967295) :
    (({} : ActorManager).assignedIds ops = List.range' 1 (ManagerOp.creations ops) ∧
      List.Pairwise (fun i j => i < j) (({} : ActorManager).assignedIds ops) ∧
      (({} : ActorManager).assignedIds ops).Nodup ∧
      0 ∉ ({} : ActorManager).assignedIds ops) ∧
    (∀ pre name mid, ops = pre ++ ManagerOp.createActor name :: mid →
      ((({} : ActorManager).run pre).createActor name).1 = ManagerOp.creations pre + 1 ∧
      (ManagerOp.removeActor (ManagerOp.creations pre + 1) ∉ mid → ManagerOp.clear ∉ mid →
        (({} : ActorManager).run ops).getActor (ManagerOp.creations pre + 1) =
          some (Actor.mk0 (ManagerOp.creations pre + 1) name) ∧
        ((({} : ActorManager).run ops).removeActor (ManagerOp.creations pre + 1)).1 = true ∧
        ((({} : ActorManager).run ops).removeActor
          (ManagerOp.creations pre + 1)).2.getActor (ManagerOp.creations pre + 1) = none)) := by
  have hids := assignedIds_range ops ({} : ActorManager)
    (by show 1 + ManagerOp.creations ops ≤ 4294967296; omega)
  have h1 : ({} : ActorManager).nextActorId = 1 := rfl
  rw [h1] at hids
  refine ⟨⟨hids, ?_, ?_, ?_⟩, ?_⟩
  · rw [hids]
    exact List.pairwise_lt_range' 1 (ManagerOp.creations ops)
  · rw [hids]
    exact List.nodup_range' 1 (ManagerOp.creations ops)
  · rw [hids, List.mem_range'_1]
    omega
  · intro pre name mid hops
    have hc : ManagerOp.creations ops =
        ManagerOp.creations pre + (ManagerOp.creations mid + 1) := by
      rw [hops, creations_append]
      rfl
    have hnext : (({} : ActorManager).run pre).nextActorId = ManagerOp.creations pre + 1 := by
      rw [run_nextActorId pre _ (by decide), h1]
      omega
    have hid : ((({} : ActorManager).run pre).createActor name).1 =
        ManagerOp.creations pre + 1 := hnext
    refine ⟨hid, ?_⟩
    intro hr hcl
    have hrun : ({} : ActorManager).run ops =
        ((({} : ActorManager).run pre).createActor name).2.run mid := by
      rw [hops, run_append]
      rfl
    have hget : ((({} : ActorManager).run pre).createActor name).2.getActor
        (ManagerOp.creations pre + 1) = some (Actor.mk0 (ManagerOp.creations pre + 1) name) := by
      show (if ManagerOp.creations pre + 1 = (({} : ActorManager).run pre).nextActorId then
        some (Actor.mk0 (({} : ActorManager).run pre).nextActorId name)
        else (({} : ActorManager).run pre).actors (ManagerOp.creations pre + 1)) = _
      rw [hnext, if_pos rfl]
    have hkept := run_keeps_actor (ManagerOp.creations pre + 1)
      (Actor.mk0 (ManagerOp.creations pre + 1) name) mid
      ((({} : ActorManager).run pre).createActor name).2 hget
      (by
        by_cases hz : ManagerOp.creations mid = 0
        · exact Or.inl hz
        · have hnext2 : ((({} : ActorManager).run pre).createActor name).2.nextActorId =
              ManagerOp.creations pre + 2 := by
            show ((({} : ActorManager).run pre).nextActorId + 1) % 4294967296 = _
            rw [hnext]
            omega
          exact Or.inr (by rw [hnext2]; omega))
      hr hcl
    rw [hrun]
    refine ⟨hkept, ?_, ?_⟩
    · show (((((({} : ActorManager).run pre).createActor name).2.run mid).actors
        (ManagerOp.creations pre + 1)).isSome) = true
      have : (((({} : ActorManager).run pre).createActor name).2.run mid).actors
          (ManagerOp.creations pre + 1) =
          some (Actor.mk0 (ManagerOp.creations pre + 1) name) := hkept
      rw [this]
      rfl
    · show (if ManagerOp.creations pre + 1 = ManagerOp.creations pre + 1 then none
        else _) = none
      rw [if_pos rfl]

/-- Witness for C33: two actors created, the first removed and a third created:
the IDs are 1, 2 and 3, and the second actor is still registered. -/
theorem actor_ids_unique_witness :
    ({} : ActorManager).assignedIds
        [.createActor "Actor1", .createActor "Actor2", .removeActor 1, .createActor "Actor3"] =
      [1, 2, 3] ∧
    (({} : ActorManager).run
        [.createActor "Actor1", .createActor "Actor2", .removeActor 1,
          .createActor "Actor3"]).getActor 2 = some (Actor.mk0 2 "Actor2") :=
  have h := actor_ids_unique
    [.createActor "Actor1", .createActor "Actor2", .removeActor 1, .createActor "Actor3"]
    (by decide)
  ⟨h.1.1, ((h.2 [.createActor "Actor1"] "Actor2" [.removeActor 1, .createActor "Actor3"]
    rfl).2 (by decide) (by decide)).1⟩


/-! ## Framing -/

theorem parseLoop_short (codec : PacketCodec) (fuel : Nat) (buffer : List Nat)
    (packets : List Packet) (d : Bool) (h : buffer.length < 4) :
    Connection.parseLoop codec fuel buffer packets d = (packets, buffer, d) := by
  cases fuel with
  | zero => rfl
  | succ f =>
    match buffer, h with
    | [], _ => rfl
    | [_], _ => rfl
    | [_, _], _ => rfl
    | [_, _, _], _ => rfl
    | _ :: _ :: _ :: _ :: _, h => simp at h; omega

theorem parseLoop_step (codec : PacketCodec) (fuel : Nat) (b0 b1 b2 b3 : Nat)
    (rest : List Nat) (packets : List Packet) (d : Bool) :
    Connection.parseLoop codec (fuel + 1) (b0 :: b1 :: b2 :: b3 :: rest) packets d =
      if MAX_PACKET_SIZE < bigEndian32 b0 b1 b2 b3 then
        (packets, b0 :: b1 :: b2 :: b3 :: rest, true)
      else if rest.length < bigEndian32 b0 b1 b2 b3 then
        (packets, b0 :: b1 :: b2 :: b3 :: rest, d)
      else
        Connection.parseLoop codec fuel (rest.drop (bigEndian32 b0 b1 b2 b3))
          (match codec.parse (rest.take (bigEndian32 b0 b1 b2 b3)) with
            | some packet => packets ++ [packet]
            | none => packets)
          d := rfl

/-- A pass for each byte of the buffer is enough: more passes change nothing. -/
theorem parseLoop_stable (codec : PacketCodec) :
    ∀ (f1 f2 : Nat) (buffer : List Nat) (packets : List Packet) (d : Bool),
      buffer.length ≤ f1 → buffer.length ≤ f2 →
      Connection.parseLoop codec f1 buffer packets d =
        Connection.parseLoop codec f2 buffer packets d := by
  intro f1
  induction f1 with
  | zero =>
    intro f2 buffer packets d h1 _
    have hb : buffer = [] := List.length_eq_zero.1 (by omega)
    subst hb
    rw [parseLoop_short codec 0 [] packets d (by simp),
      parseLoop_short codec f2 [] packets d (by simp)]
  | succ f ih =>
    intro f2 buffer packets d h1 h2
    by_cases hs : buffer.length < 4
    · rw [parseLoop_short codec _ buffer packets d hs,
        parseLoop_short codec _ buffer packets d hs]
    · match buffer, hs, h1, h2 with
      | [], hs, _, _ => simp at hs
      | [_], hs, _, _ => simp at hs
      | [_, _], hs, _, _ => simp at hs
      | [_, _, _], hs, _, _ => simp at hs
      | b0 :: b1 :: b2 :: b3 :: rest, _, h1, h2 =>
        obtain ⟨g, rfl⟩ : ∃ g, f2 = g + 1 := ⟨f2 - 1, by simp at h2; omega⟩
        rw [parseLoop_step, parseLoop_step]
        split_ifs with c1 c2
        · rfl
        · rfl
        · have hl : (rest.drop (bigEndian32 b0 b1 b2 b3)).length ≤ rest.length := by
            rw [List.length_drop]
            omega
          simp only [List.length_cons] at h1 h2
          exact ih g _ _ d (by omega) (by omega)

theorem bigEndian32_lengthPrefix (n : Nat) (h : n < 4294967296) :
    bigEndian32 (n / 16777216 % 256) (n / 65536 % 256) (n / 256 % 256) (n % 256) = n := by
  unfold bigEndian32
  omega

/-- One pass over a complete frame of a sendable packet returns the packet and
removes the frame. -/
theorem parseLoop_frame (codec : PacketCodec) (fuel : Nat) (p : Packet)
    (hp : codec.Sendable p) (tail : List Nat) (packets : List Packet) (d : Bool) :
    Connection.parseLoop codec (fuel + 1) (Connection.frame codec p ++ tail) packets d =
      Connection.parseLoop codec fuel tail (packets ++ [p]) d := by
  obtain ⟨hlen, hparse⟩ := hp
  unfold MAX_PACKET_SIZE at hlen
  have hmod : (codec.serialize p).length % 4294967296 = (codec.serialize p).length :=
    Nat.mod_eq_of_lt (by omega)
  unfold Connection.frame lengthPrefix
  rw [hmod]
  simp only [List.cons_append, List.nil_append]
  rw [parseLoop_step, bigEndian32_lengthPrefix _ (by omega)]
  rw [if_neg (by unfold MAX_PACKET_SIZE; omega), if_neg (by simp)]
  simp only [List.take_left', List.drop_left', hparse]


theorem frames_cons (codec : PacketCodec) (p : Packet) (ps : List Packet) :
    Connection.frames codec (p :: ps) = Connection.frame codec p ++ Connection.frames codec ps := by
  simp [Connection.frames]

theorem frames_append (codec : PacketCodec) (ps qs : List Packet) :
    Connection.frames codec (ps ++ qs) =
      Connection.frames codec ps ++ Connection.frames codec qs := by
  simp [Connection.frames]

theorem frame_length (codec : PacketCodec) (p : Packet) :
    (Connection.frame codec p).length = (codec.serialize p).length + 4 := by
  simp [Connection.frame, lengthPrefix]

/-- The passes over a run of complete frames of sendable packets return the
packets in order and remove the frames. -/
theorem parseLoop_frames (codec : PacketCodec) :
    ∀ (ps : List Packet) (fuel : Nat) (tail : List Nat) (packets : List Packet) (d : Bool),
      (∀ p ∈ ps, codec.Sendable p) →
      Connection.parseLoop codec (fuel + ps.length) (Connection.frames codec ps ++ tail)
          packets d =
        Connection.parseLoop codec fuel tail (packets ++ ps) d := by
  intro ps
  induction ps with
  | nil =>
    intro fuel tail packets d _
    simp [Connection.frames]
  | cons p rest ih =>
    intro fuel tail packets d hall
    have hf : fuel + (p :: rest).length = (fuel + rest.length) + 1 := by simp; omega
    rw [hf, frames_cons, List.append_assoc,
      parseLoop_frame codec _ p (hall p (List.mem_cons_self _ _)),
      ih fuel tail _ d (fun q hq => hall q (List.mem_cons_of_mem _ hq))]
    simp

/-- A strict prefix of the frame of a sendable packet stops the loop: nothing is
returned and the bytes stay in the buffer. -/
theorem parseLoop_partial (codec : PacketCodec) (fuel : Nat) (q : Packet)
    (hq : (codec.serialize q).length ≤ MAX_PACKET_SIZE) (pre : List Nat)
    (hpre : StrictPrefix pre (Connection.frame codec q)) (packets : List Packet) (d : Bool) :
    Connection.parseLoop codec fuel pre packets d = (packets, pre, d) := by
  by_cases hs : pre.length < 4
  · exact parseLoop_short codec fuel pre packets d hs
  · cases fuel with
    | zero => rfl
    | succ f =>
      obtain ⟨t, ht, hpt⟩ := hpre
      unfold MAX_PACKET_SIZE at hq
      have hmod : (codec.serialize q).length % 4294967296 = (codec.serialize q).length :=
        Nat.mod_eq_of_lt (by omega)
      unfold Connection.frame lengthPrefix at hpt
      rw [hmod] at hpt
      simp only [List.cons_append, List.nil_append] at hpt
      match pre, hs, hpt with
      | [], hs, _ => simp at hs
      | [_], hs, _ => simp at hs
      | [_, _], hs, _ => simp at hs
      | [_, _, _], hs, _ => simp at hs
      | b0 :: b1 :: b2 :: b3 :: rest, _, hpt =>
        simp only [List.cons_append, List.cons.injEq] at hpt
        obtain ⟨e0, e1, e2, e3, hrest⟩ := hpt
        subst e0 e1 e2 e3
        have hlen : rest.length < (codec.serialize q).length := by
          have := congrArg List.length hrest
          rw [List.length_append] at this
          have ht2 : 0 < t.length := List.length_pos.2 ht
          omega
        rw [parseLoop_step, bigEndian32_lengthPrefix _ (by omega),
          if_neg (by unfold MAX_PACKET_SIZE; omega), if_pos hlen]

/-- The buffer made of the frames of sendable packets and a strict prefix of one
more frame: `getCompletePackets` returns exactly the packets and keeps exactly
the prefix. -/
theorem getCompletePackets_frames (codec : PacketCodec) (c : Connection)
    (ps : List Packet) (q : Packet) (pre : List Nat)
    (hps : ∀ p ∈ ps, codec.Sendable p)
    (hq : (codec.serialize q).length ≤ MAX_PACKET_SIZE)
    (hpre : StrictPrefix pre (Connection.frame codec q))
    (hbuf : c.recvBuffer = Connection.frames codec ps ++ pre) :
    Connection.getCompletePackets codec c = (ps, { c with recvBuffer := pre }) := by
  have hlen : ps.length ≤ (Connection.frames codec ps ++ pre).length := by
    rw [List.length_append]
    have : ∀ l : List Packet, l.length ≤ (Connection.frames codec l).length := by
      intro l
      induction l with
      | nil => simp
      | cons p rest ih =>
        rw [frames_cons, List.length_append, frame_length]
        simp only [List.length_cons]
        omega
    have := this ps
    omega
  unfold Connection.getCompletePackets
  rw [hbuf]
  obtain ⟨k, hk⟩ : ∃ k, (Connection.frames codec ps ++ pre).length = k + ps.length :=
    ⟨(Connection.frames codec ps ++ pre).length - ps.length, by omega⟩
  rw [hk, parseLoop_frames codec ps k pre [] c.disconnected hps,
    parseLoop_partial codec k q hq pre hpre]
  simp


theorem strictPrefix_nil_frame (codec : PacketCodec) (p : Packet) :
    StrictPrefix [] (Connection.frame codec p) :=
  ⟨Connection.frame codec p, by
    intro h
    have := congrArg List.length h
    rw [frame_length] at this
    simp at this, rfl⟩

/-- A prefix of a stream of frames followed by a strict prefix of one more frame
is itself some of the frames followed by a strict prefix of the next one. -/
theorem prefix_decompose (codec : PacketCodec) (q : Packet) (pre Y : List Nat)
    (hpre : StrictPrefix pre (Connection.frame codec q)) :
    ∀ (ps : List Packet) (X : List Nat),
      X ++ Y = Connection.frames codec ps ++ pre →
      ∃ ps1 ps2 pre1, ps = ps1 ++ ps2 ∧ X = Connection.frames codec ps1 ++ pre1 ∧
        pre1 ++ Y = Connection.frames codec ps2 ++ pre ∧
        StrictPrefix pre1 (Connection.frame codec (ps2.headD q)) := by
  intro ps
  induction ps with
  | nil =>
    intro X h
    refine ⟨[], [], X, rfl, by simp [Connection.frames], h, ?_⟩
    obtain ⟨t, ht, hpt⟩ := hpre
    refine ⟨Y ++ t, by simp [ht], ?_⟩
    simp only [Connection.frames, List.map_nil, List.flatten_nil, List.nil_append] at h
    rw [← List.append_assoc, h]
    exact hpt
  | cons p rest ih =>
    intro X h
    rw [frames_cons, List.append_assoc] at h
    rcases List.append_eq_append_iff.1 h with ⟨a, ha, hY⟩ | ⟨c, hc, hrest⟩
    · by_cases hane : a = []
      · subst hane
        rw [List.append_nil] at ha
        rw [List.nil_append] at hY
        obtain ⟨ps1, ps2, pre1, e1, e2, e3, e4⟩ := ih [] (by rw [List.nil_append]; exact hY)
        refine ⟨p :: ps1, ps2, pre1, by rw [e1]; rfl, ?_, e3, e4⟩
        rw [frames_cons, List.append_assoc, ← e2, List.append_nil, ha]
      · refine ⟨[], p :: rest, X, rfl, by simp [Connection.frames], ?_, ⟨a, hane, ha.symm⟩⟩
        rw [frames_cons, List.append_assoc]
        exact h
    · obtain ⟨ps1, ps2, pre1, e1, e2, e3, e4⟩ := ih c hrest.symm
      refine ⟨p :: ps1, ps2, pre1, by rw [e1]; rfl, ?_, e3, e4⟩
      rw [hc, frames_cons, List.append_assoc, ← e2]

/-- Feeding a stream of frames in pieces: whatever the pieces, the packets
returned over the calls are the packets of the complete frames, in order. -/
theorem feed_frames (codec : PacketCodec) (q : Packet) (pre : List Nat)
    (hq : (codec.serialize q).length ≤ MAX_PACKET_SIZE)
    (hpre : StrictPrefix pre (Connection.frame codec q)) :
    ∀ (chunks : List (List Nat)) (c : Connection) (ps : List Packet),
      (∀ p ∈ ps, codec.Sendable p) →
      StrictPrefix c.recvBuffer (Connection.frame codec (ps.headD q)) →
      c.recvBuffer ++ chunks.flatten = Connection.frames codec ps ++ pre →
      Connection.feed codec c chunks = (ps, { c with recvBuffer := pre }) := by
  intro chunks
  induction chunks with
  | nil =>
    intro c ps hps hres hbuf
    simp only [List.flatten_nil, List.append_nil] at hbuf
    cases ps with
    | nil =>
      simp only [Connection.frames, List.map_nil, List.flatten_nil, List.nil_append] at hbuf
      unfold Connection.feed
      rw [← hbuf]
    | cons p rest =>
      obtain ⟨t, ht, hpt⟩ := hres
      simp only [List.headD_cons] at hpt
      have h1 := congrArg List.length hpt
      have h2 := congrArg List.length hbuf
      rw [frames_cons] at h2
      simp only [List.length_append] at h1 h2
      have ht2 : 0 < t.length := List.length_pos.2 ht
      omega
  | cons chunk rest ih =>
    intro c ps hps hres hbuf
    have hbuf2 : (c.recvBuffer ++ chunk) ++ rest.flatten = Connection.frames codec ps ++ pre := by
      rw [List.append_assoc, ← List.flatten_cons]
      exact hbuf
    obtain ⟨ps1, ps2, pre1, e1, e2, e3, e4⟩ :=
      prefix_decompose codec q pre rest.flatten hpre ps (c.recvBuffer ++ chunk) hbuf2
    have hps1 : ∀ p ∈ ps1, codec.Sendable p :=
      fun p hp => hps p (by rw [e1]; exact List.mem_append_left _ hp)
    have hps2 : ∀ p ∈ ps2, codec.Sendable p :=
      fun p hp => hps p (by rw [e1]; exact List.mem_append_right _ hp)
    have hnext : (codec.serialize (ps2.headD q)).length ≤ MAX_PACKET_SIZE := by
      cases ps2 with
      | nil => exact hq
      | cons p2 r2 => exact (hps2 p2 (List.mem_cons_self _ _)).1
    have hget := getCompletePackets_frames codec (c.receive chunk) ps1 (ps2.headD q) pre1
      hps1 hnext e4 e2
    have hih := ih { c.receive chunk with recvBuffer := pre1 } ps2 hps2 e4 e3
    unfold Connection.feed
    simp only [hget, hih, e1]
    rfl


theorem length_le_frames (codec : PacketCodec) (ps : List Packet) :
    ps.length ≤ (Connection.frames codec ps).length := by
  induction ps with
  | nil => simp
  | cons p rest ih =>
    rw [frames_cons, List.length_append, frame_length]
    simp only [List.length_cons]
    omega

/-- The packets collected so far are only carried along by the loop. -/
theorem parseLoop_acc (codec : PacketCodec) :
    ∀ (fuel : Nat) (buffer : List Nat) (acc : List Packet) (d : Bool),
      Connection.parseLoop codec fuel buffer acc d =
        (acc ++ (Connection.parseLoop codec fuel buffer [] d).1,
          (Connection.parseLoop codec fuel buffer [] d).2) := by
  intro fuel
  induction fuel with
  | zero =>
    intro buffer acc d
    simp [Connection.parseLoop]
  | succ f ih =>
    intro buffer acc d
    by_cases hs : buffer.length < 4
    · rw [parseLoop_short codec _ buffer acc d hs, parseLoop_short codec _ buffer [] d hs]
      simp
    · match buffer, hs with
      | [], hs => simp at hs
      | [_], hs => simp at hs
      | [_, _], hs => simp at hs
      | [_, _, _], hs => simp at hs
      | b0 :: b1 :: b2 :: b3 :: rest, _ =>
        rw [parseLoop_step, parseLoop_step]
        split_ifs with c1 c2
        · simp
        · simp
        · cases hp : codec.parse (List.take (bigEndian32 b0 b1 b2 b3) rest) with
          | none => exact ih _ acc d
          | some packet =>
            show Connection.parseLoop codec f _ (acc ++ [packet]) d =
              (acc ++ (Connection.parseLoop codec f _ ([] ++ [packet]) d).1,
                (Connection.parseLoop codec f _ ([] ++ [packet]) d).2)
            rw [ih _ (acc ++ [packet]) d, ih _ ([] ++ [packet]) d]
            simp

/-- C35: framing round trip.  Let the packets `ps` be ones that `sendRawPacket`
frames within the 1 MiB limit and that parse back from their serialized form, and
let `pre` be a strict prefix of the frame of one more packet.  When the receive
buffer holds the frames of `ps` followed by `pre`, `getCompletePackets` returns
exactly `ps` in order and leaves exactly `pre` in the buffer; and when these bytes
arrive in any pieces on a connection with an empty buffer, with a call of
`getCompletePackets` after each read, the packets returned over the calls are
again exactly `ps` and the buffer ends as `pre`. -/
theorem framing_round_trip (codec : PacketCodec) (c : Connection) (ps : List Packet)
    (q : Packet) (pre : List Nat)
    (hps : ∀ p ∈ ps, codec.Sendable p)
    (hq : (codec.serialize q).length ≤ MAX_PACKET_SIZE)
    (hpre : StrictPrefix pre (Connection.frame codec q)) :
    (c.recvBuffer = Connection.frames codec ps ++ pre →
      Connection.getCompletePackets codec c = (ps, { c with recvBuffer := pre })) ∧
    (∀ chunks : List (List Nat), c.recvBuffer = [] →
      chunks.flatten = Connection.frames codec ps ++ pre →
      Connection.feed codec c chunks = (ps, { c with recvBuffer := pre })) := by
  refine ⟨getCompletePackets_frames codec c ps q pre hps hq hpre, ?_⟩
  intro chunks hc hflat
  refine feed_frames codec q pre hq hpre chunks c ps hps ?_ ?_
  · rw [hc]
    exact strictPrefix_nil_frame codec _
  · rw [hc, List.nil_append]
    exact hflat

theorem framing_round_trip_witness :
    Connection.getCompletePackets byteCodec
        { id := 1, recvBuffer := [0, 0, 0, 3, 3, 7, 8, 0, 0, 0, 1, 1, 0, 0, 0, 2, 2] } =
      ([{ type := 3, payload := [7, 8] }, { type := 1, payload := [] }],
        { id := 1, recvBuffer := [0, 0, 0, 2, 2] }) ∧
    Connection.feed byteCodec { id := 1 }
        [[0, 0], [0, 3, 3, 7], [], [8, 0, 0, 0, 1, 1, 0, 0], [0, 2, 2]] =
      ([{ type := 3, payload := [7, 8] }, { type := 1, payload := [] }],
        { id := 1, recvBuffer := [0, 0, 0, 2, 2] }) :=
  have h := framing_round_trip byteCodec { id := 1 }
    [{ type := 3, payload := [7, 8] }, { type := 1, payload := [] }]
    { type := 2, payload := [9] } [0, 0, 0, 2, 2]
    (by decide) (by decide) ⟨[9], by decide, by decide⟩
  ⟨(framing_round_trip byteCodec
      { id := 1, recvBuffer := [0, 0, 0, 3, 3, 7, 8, 0, 0, 0, 1, 1, 0, 0, 0, 2, 2] }
      [{ type := 3, payload := [7, 8] }, { type := 1, payload := [] }]
      { type := 2, payload := [9] } [0, 0, 0, 2, 2]
      (by decide) (by decide) ⟨[9], by decide, by decide⟩).1 (by decide),
    h.2 _ rfl (by decide)⟩


/-- C34 (counterexample): a completely received frame whose payload does not parse
is dropped and the connection is not marked disconnected.  The buffer holds a
frame of length 1 with the payload byte 255. -/
theorem unparseable_frame_keeps_connection :
    byteCodec.parse [255] = none ∧
    Connection.getCompletePackets byteCodec { id := 1, recvBuffer := [0, 0, 0, 1, 255] } =
      ([], { id := 1, disconnected := false, recvBuffer := [] }) := by
  decide

/-- C34 (amended): when the loop of `getCompletePackets`, after the complete frames
of sendable packets `ps`, reaches a frame header `b0 b1 b2 b3`:
if the declared length is above `MAX_PACKET_SIZE` the call returns `ps`, marks the
connection disconnected and leaves the header and what follows in the buffer;
if the frame is complete, within the limit, and its payload does not parse, the
frame is dropped without a packet and without touching the flag, and the call
goes on as on the bytes after the frame; in particular when fewer than four bytes
follow, the flag `disconnected` is what it was before the call. -/
theorem getCompletePackets_oversized_or_unparseable (codec : PacketCodec) (c : Connection)
    (ps : List Packet) (b0 b1 b2 b3 : Nat) (rest : List Nat)
    (hps : ∀ p ∈ ps, codec.Sendable p)
    (hbuf : c.recvBuffer = Connection.frames codec ps ++ b0 :: b1 :: b2 :: b3 :: rest) :
    (MAX_PACKET_SIZE < bigEndian32 b0 b1 b2 b3 →
      Connection.getCompletePackets codec c =
        (ps, { c with recvBuffer := b0 :: b1 :: b2 :: b3 :: rest, disconnected := true })) ∧
    (bigEndian32 b0 b1 b2 b3 ≤ MAX_PACKET_SIZE →
      bigEndian32 b0 b1 b2 b3 ≤ rest.length →
      codec.parse (rest.take (bigEndian32 b0 b1 b2 b3)) = none →
      Connection.getCompletePackets codec c =
          (ps ++ (Connection.getCompletePackets codec
              { c with recvBuffer := rest.drop (bigEndian32 b0 b1 b2 b3) }).1,
            (Connection.getCompletePackets codec
              { c with recvBuffer := rest.drop (bigEndian32 b0 b1 b2 b3) }).2) ∧
        ((rest.drop (bigEndian32 b0 b1 b2 b3)).length < 4 →
          Connection.getCompletePackets codec c =
            (ps, { c with recvBuffer := rest.drop (bigEndian32 b0 b1 b2 b3) }))) := by
  have hlen := length_le_frames codec ps
  obtain ⟨k, hk⟩ : ∃ k, (Connection.frames codec ps ++ b0 :: b1 :: b2 :: b3 :: rest).length =
      (k + 1) + ps.length :=
    ⟨(Connection.frames codec ps ++ b0 :: b1 :: b2 :: b3 :: rest).length - ps.length - 1, by
      simp only [List.length_append, List.length_cons]
      omega⟩
  have hkr : rest.length ≤ k := by
    simp only [List.length_append, List.length_cons] at hk
    omega
  refine ⟨?_, ?_⟩
  · intro hbig
    unfold Connection.getCompletePackets
    rw [hbuf, hk, parseLoop_frames codec ps (k + 1) _ [] c.disconnected hps, parseLoop_step,
      if_pos hbig]
    simp
  · intro hmax hcomplete hparse
    have hcall : Connection.getCompletePackets codec c =
        (ps ++ (Connection.getCompletePackets codec
            { c with recvBuffer := rest.drop (bigEndian32 b0 b1 b2 b3) }).1,
          (Connection.getCompletePackets codec
            { c with recvBuffer := rest.drop (bigEndian32 b0 b1 b2 b3) }).2) := by
      have hst := parseLoop_stable codec k (rest.drop (bigEndian32 b0 b1 b2 b3)).length
        (rest.drop (bigEndian32 b0 b1 b2 b3)) [] c.disconnected
        (by rw [List.length_drop]; omega) (le_refl _)
      unfold Connection.getCompletePackets
      rw [hbuf, hk, parseLoop_frames codec ps (k + 1) _ [] c.disconnected hps, parseLoop_step,
        if_neg (by omega), if_neg (by omega), hparse]
      simp only [List.nil_append]
      rw [parseLoop_acc codec k _ ps, hst]
    refine ⟨hcall, ?_⟩
    intro hshort
    rw [hcall]
    unfold Connection.getCompletePackets
    rw [parseLoop_short codec _ _ [] c.disconnected hshort]
    simp

theorem getCompletePackets_oversized_or_unparseable_witness :
    Connection.getCompletePackets byteCodec
        { id := 1, recvBuffer := [0, 0, 0, 3, 3, 7, 8, 0, 16, 0, 1, 9] } =
      ([{ type := 3, payload := [7, 8] }],
        { id := 1, recvBuffer := [0, 16, 0, 1, 9], disconnected := true }) ∧
    Connection.getCompletePackets byteCodec
        { id := 1, recvBuffer := [0, 0, 0, 3, 3, 7, 8, 0, 0, 0, 1, 255, 0, 0] } =
      ([{ type := 3, payload := [7, 8] }],
        { id := 1, recvBuffer := [0, 0], disconnected := false }) :=
  ⟨(getCompletePackets_oversized_or_unparseable byteCodec
      { id := 1, recvBuffer := [0, 0, 0, 3, 3, 7, 8, 0, 16, 0, 1, 9] }
      [{ type := 3, payload := [7, 8] }] 0 16 0 1 [9] (by decide) (by decide)).1 (by decide),
    ((getCompletePackets_oversized_or_unparseable byteCodec
      { id := 1, recvBuffer := [0, 0, 0, 3, 3, 7, 8, 0, 0, 0, 1, 255, 0, 0] }
      [{ type := 3, payload := [7, 8] }] 0 0 0 1 [255, 0, 0] (by decide) (by decide)).2
        (by decide) (by decide) (by decide)).2 (by decide)⟩

end Mmorpg
